import Mathlib

/-!
Shallow embedding of the core of the `renethack` roguelike engine
(`renethack/world_types.py`, `renethack/world.py`, `renethack/entity.py`,
`renethack/entity_types.py`) together with proofs about the dungeon
generator, the pathfinder, the entity model and the world step.

Modelling conventions:
* Python integers are `Int` (coordinates, stats); loop counters are `Nat`.
* Python list indexing `l[i]` is `pyGetL`, which wraps negative indices
  (Python semantics) and fails (`IndexError`) out of range; assignment is
  `pySetL`.
* Fallible Python code is modelled in `Except PyErr`; each exception kind
  of the source is a `PyErr` constructor.  The `IndexError` raised by
  `Hero.step`'s `self.actions[0]` on an empty list is given its own
  constructor `heroActionsIndexError` so that its provenance can be
  tracked; in Python it is an ordinary `IndexError`.
* The seven `TileType` singletons of `world.py` are compared with `is` in
  the source; since they are distinct objects created once, identity
  coincides with constructor equality of the inductive `TileType` here.
* Mutable heap objects (`Hero`/`Monster` instances) referenced from tiles
  are modelled by an entity store keyed by `Nat` identifiers; Python
  object identity (`is`, `in updated_entities`) becomes identifier
  equality.
* The two Python classes `Hero` and `Monster` are merged into one record
  `Ent` with a `kind` tag; attribute access that Python's duck typing
  would resolve per class reads the corresponding field, and `step`
  dispatches on the tag.
* `random` calls are modelled by explicit oracle arguments.
* The `while True` search loop of `find_path` is given explicit fuel;
  running out of fuel is the distinguished outcome `fuelOut`, and we prove
  that the fuel chosen for `find_path` never runs out on well-formed
  levels.
-/

/-- Python exception kinds arising in the modelled code. -/
inductive PyErr where
  | indexError
  | valueError
  | attrError
  | existingEntityError
  | tileNotPassableError
  /-- The `IndexError` raised by `self.actions[0]` in `Hero.step` when the
  action list is empty; tagged separately to track its provenance. -/
  | heroActionsIndexError
  /-- Fuel exhaustion of the modelled unbounded loop (no Python analogue:
  the source would keep iterating). -/
  | fuelOut
deriving DecidableEq, Repr

/-- Python list read `l[i]`: negative indices wrap once, anything else out
of range is an `IndexError` (`none`). -/
def pyGetL {α : Type} (l : List α) (i : Int) : Option α :=
  if 0 ≤ i ∧ i < l.length then
    l.get? i.toNat
  else if -(l.length : Int) ≤ i ∧ i < 0 then
    l.get? (l.length + i).toNat
  else
    none

/-- Python list assignment `l[i] = a` with the same index semantics. -/
def pySetL {α : Type} (l : List α) (i : Int) (a : α) : Option (List α) :=
  if 0 ≤ i ∧ i < l.length then
    some (l.set i.toNat a)
  else if -(l.length : Int) ≤ i ∧ i < 0 then
    some (l.set (l.length + i).toNat a)
  else
    none

/-- A grid coordinate, a Python `(x, y)` tuple of ints. -/
abbrev Point := Int × Int

/-- The seven tile-type singletons of `world.py`.  The source represents
them as `TileType` namedtuples compared by `is`; the constants are created
once, so identity equals constructor equality here. -/
inductive TileType where
  | solidEarth
  | wall
  | floor
  | upStairs
  | downStairs
  | closedDoor
  | openDoor
deriving DecidableEq, Repr

/-- The `passable` field of each `TileType` constant in `world.py`. -/
def TileType.passable : TileType → Bool
  | .solidEarth => false
  | .wall => false
  | .floor => true
  | .upStairs => true
  | .downStairs => true
  | .closedDoor => false
  | .openDoor => true

/-- Entity identifier: stands for a Python object reference. -/
abbrev EntityId := Nat

/-- `world_types.Tile`: a tile type plus an optional occupying entity. -/
structure Tile where
  type : TileType
  entity : Option EntityId
deriving DecidableEq, Repr

/-- `world.new_tile`: a fresh, empty tile. -/
def new_tile (type_ : TileType) : Tile :=
  { type := type_, entity := none }

/-- `world_types.Level`: a 2D grid `tiles[x][y]` and the entity-position
list (with `none` tombstones). -/
structure Level where
  tiles : List (List Tile)
  entities : List (Option Point)
deriving DecidableEq, Repr

/-- Python read `level.tiles[x][y]`. -/
def tileAt (level : Level) (p : Point) : Option Tile := do
  let row ← pyGetL level.tiles p.1
  pyGetL row p.2

/-- Python write `level.tiles[x][y] = t`. -/
def setTileAt (level : Level) (p : Point) (t : Tile) : Option Level := do
  let row ← pyGetL level.tiles p.1
  let row' ← pySetL row p.2 t
  let tiles' ← pySetL level.tiles p.1 row'
  some { level with tiles := tiles' }

/-- Strict (non-wrapping) grid lookup, used only to state properties. -/
def tileAtS (level : Level) (p : Point) : Option Tile :=
  if 0 ≤ p.1 ∧ p.1 < level.tiles.length ∧ 0 ≤ p.2 then
    match level.tiles.get? p.1.toNat with
    | none => none
    | some row => if p.2 < row.length then row.get? p.2.toNat else none
  else
    none

/-- All rows of the tile grid have the same length as the grid itself
(the generator always builds square levels). -/
def squareLevel (level : Level) : Prop :=
  ∀ row ∈ level.tiles, row.length = level.tiles.length

instance (level : Level) : Decidable (squareLevel level) := by
  unfold squareLevel; infer_instance

/-- `util.min_clamp`. -/
def min_clamp (value min_ : Int) : Int :=
  if value < min_ then min_ else value

/-- `world.point_within`. -/
def point_within (length : Int) (point : Point) : Bool :=
  0 ≤ point.1 && point.1 < length && 0 ≤ point.2 && point.2 < length

/-- The eight direction singletons of `entity.py`. -/
inductive Direction where
  | north
  | northeast
  | east
  | southeast
  | south
  | southwest
  | west
  | northwest
deriving DecidableEq, Repr

/-- `entity.direction_to_point`. -/
def direction_to_point : Direction → Point
  | .north => (0, 1)
  | .northeast => (1, 1)
  | .east => (1, 0)
  | .southeast => (1, -1)
  | .south => (0, -1)
  | .southwest => (-1, -1)
  | .west => (-1, 0)
  | .northwest => (-1, 1)

/-- `entity.point_to_direction`; raises `ValueError` on a non-unit vector. -/
def point_to_direction (point : Point) : Except PyErr Direction :=
  if point = (0, 1) then .ok .north
  else if point = (1, 1) then .ok .northeast
  else if point = (1, 0) then .ok .east
  else if point = (1, -1) then .ok .southeast
  else if point = (0, -1) then .ok .south
  else if point = (-1, -1) then .ok .southwest
  else if point = (-1, 0) then .ok .west
  else if point = (-1, 1) then .ok .northwest
  else .error .valueError

/-- `entity_types.Node`: parent pointer, point, and the three costs
computed by `Node.__init__`. -/
inductive Node where
  | mk (parent : Option Node) (point : Point) (cost : Nat)
      (remaining_cost : Nat) (final_cost : Nat)

def Node.parent : Node → Option Node
  | .mk p _ _ _ _ => p

def Node.point : Node → Point
  | .mk _ pt _ _ _ => pt

def Node.cost : Node → Nat
  | .mk _ _ c _ _ => c

def Node.final_cost : Node → Nat
  | .mk _ _ _ _ f => f

/-- `Node.__init__`: cost is the parent chain length, remaining cost is
the Manhattan distance to the target. -/
def mkNode (parent : Option Node) (point target_point : Point) : Node :=
  let cost : Nat :=
    match parent with
    | none => 0
    | some n => n.cost + 1
  let rem : Nat := (point.1 - target_point.1).natAbs + (point.2 - target_point.2).natAbs
  .mk parent point cost rem (cost + rem)

/-- The eight adjacent points, in the order listed in `find_path`. -/
def adjacentPoints (p : Point) : List Point :=
  [ (p.1, p.2 + 1), (p.1 + 1, p.2 + 1), (p.1 + 1, p.2), (p.1 + 1, p.2 - 1),
    (p.1, p.2 - 1), (p.1 - 1, p.2 - 1), (p.1 - 1, p.2), (p.1 - 1, p.2 + 1) ]

/-- Removal of the first node with the given point.  `find_path` calls
`open_list.remove(node)`, which removes the first list element `==` the
argument (object identity for `Node`); since the argument is always the
first node whose `point` matches, and every earlier node has a different
point, this is the same operation. -/
def removeFirstPoint : List Node → Point → List Node
  | [], _ => []
  | n :: ns, q => if n.point = q then ns else n :: removeFirstPoint ns q

/-- One step of a stable insertion sort on `final_cost`: the inserted
node goes before the first node whose cost is not strictly smaller, so
nodes with equal cost keep their original relative order. -/
def stableInsert (a : Node) : List Node → List Node
  | [] => [a]
  | b :: bs =>
      if b.final_cost < a.final_cost then b :: stableInsert a bs
      else a :: b :: bs

/-- Stable sort of the open list by `final_cost`.  Python's `list.sort`
with a key is a stable sort, and a stable sort by a key is uniquely
determined, so this structurally recursive insertion sort computes
exactly the list the source's sort produces (structural recursion keeps
it reducible by the kernel). -/
def sortByFinalCost : List Node → List Node
  | [] => []
  | a :: as => stableInsert a (sortByFinalCost as)

/-- Processing of a single adjacent point inside the `for adj_point in
adjacent` loop of `find_path`.  Note the tile lookup happens even when the
point is already closed, exactly as in the source. -/
def expandStep (level : Level) (target_point : Point) (closed_list : List Node)
    (current_node : Node) (open_list : List Node) (adj_point : Point) :
    Except PyErr (List Node) := do
  let on_closed := closed_list.any (fun n => n.point = adj_point)
  match tileAt level adj_point with
  | none => .error .indexError
  | some tile =>
    if (tile.type.passable || tile.type = .closedDoor) && !on_closed then
      let open_node := open_list.find? (fun n => n.point = adj_point)
      let adj_node := mkNode (some current_node) adj_point target_point
      match open_node with
      | none => .ok (open_list ++ [adj_node])
      | some n =>
        if adj_node.cost < n.cost then
          .ok (removeFirstPoint open_list adj_point ++ [adj_node])
        else
          .ok open_list
    else
      .ok open_list

/-- The neighbour-expansion loop of `find_path`. -/
def expandAll (level : Level) (target_point : Point) (closed_list : List Node)
    (current_node : Node) : List Node → List Point → Except PyErr (List Node)
  | open_list, [] => .ok open_list
  | open_list, adj :: rest => do
    let open' ← expandStep level target_point closed_list current_node open_list adj
    expandAll level target_point closed_list current_node open' rest

/-- Path reconstruction at the end of `find_path`: walk the parent chain
until a node at the start point, converting each coordinate delta.  A
missing parent before reaching the start point is Python's
`AttributeError` on `None.point`. -/
def buildPath (point : Point) : Node → Except PyErr (List Direction)
  | .mk parent current_point _ _ _ =>
    if current_point = point then
      .ok []
    else
      match parent with
      | none => .error .attrError
      | some par => do
        let rest ← buildPath point par
        let d ← point_to_direction
          (current_point.1 - par.point.1, current_point.2 - par.point.2)
        .ok (rest ++ [d])

/-- The `while True` search loop of `find_path`, with explicit fuel.  Each
iteration stably sorts the open list by final cost (Python's stable
`list.sort`), pops the head, and either reconstructs the path or expands
the neighbours.  `open_list[0]` on an empty list is an `IndexError`. -/
def findPathLoop (level : Level) (point target_point : Point) :
    Nat → List Node → List Node → Except PyErr (List Direction)
  | 0, _, _ => .error .fuelOut
  | fuel + 1, open_list, closed_list =>
    let sorted := sortByFinalCost open_list
    match sorted with
    | [] => .error .indexError
    | current_node :: rest =>
      let closed' := closed_list ++ [current_node]
      if current_node.point = target_point then
        buildPath point current_node
      else
        match expandAll level target_point closed' current_node rest
            (adjacentPoints current_node.point) with
        | .error e => .error e
        | .ok open' => findPathLoop level point target_point fuel open' closed'

/-- Fuel that `find_path` is run with: shown below to be enough for every
level whose passable-or-door tiles avoid the grid border. -/
def findPathFuel (level : Level) : Nat :=
  level.tiles.length * level.tiles.length + 2

/-- `entity.find_path`. -/
def find_path (point target_point : Point) (level : Level) :
    Except PyErr (List Direction) :=
  findPathLoop level point target_point (findPathFuel level)
    [mkNode none point target_point] []

/-! ## Pathfinder: admissibility, reachability and soundness notions -/

/-- A point is admissible for the search when its tile (strict grid
lookup) is passable or a closed door — the neighbour condition tested by
`find_path`. -/
def admB (level : Level) (p : Point) : Bool :=
  match tileAtS level p with
  | some tile => tile.type.passable || tile.type = .closedDoor
  | none => false

/-- `target` can be reached from `start` by 8-directional steps whose
destinations are all passable-or-closed-door tiles. -/
inductive Reaches (level : Level) (start : Point) : Point → Prop where
  | refl : Reaches level start start
  | tail {b c : Point} : Reaches level start b → c ∈ adjacentPoints b →
      admB level c = true → Reaches level start c

/-- A point strictly inside the border of a square grid of side `len`. -/
def interiorPt (len : Int) (p : Point) : Prop :=
  0 < p.1 ∧ p.1 + 1 < len ∧ 0 < p.2 ∧ p.2 + 1 < len

instance (len : Int) (p : Point) : Decidable (interiorPt len p) := by
  unfold interiorPt; infer_instance

/-- Every passable-or-closed-door tile of the level lies strictly inside
the grid border (true of generated levels, whose rooms and corridors are
wall-bordered and bounds-checked). -/
def interiorOnly (level : Level) : Prop :=
  ∀ p : Point, admB level p = true → interiorPt level.tiles.length p

/-- Bounded, executable version of `interiorOnly`. -/
def interiorOnlyB (level : Level) : Bool :=
  (List.range level.tiles.length).all fun x =>
    (List.range level.tiles.length).all fun y =>
      !admB level ((x : Int), (y : Int)) ||
        decide (interiorPt level.tiles.length ((x : Int), (y : Int)))

/-- The vector of one search step. -/
def dirSum (ds : List Direction) : Point :=
  ds.foldr (fun d acc => direction_to_point d + acc) ((0 : Int), (0 : Int))

/-- The successive points visited when following `ds` from `s`
(excluding `s` itself). -/
def walk (s : Point) : List Direction → List Point
  | [] => []
  | d :: ds => (s + direction_to_point d) :: walk (s + direction_to_point d) ds

/-- The eight unit vectors, in the order of `adjacentPoints`. -/
def unitVecs : List Point :=
  [(0, 1), (1, 1), (1, 0), (1, -1), (0, -1), (-1, -1), (-1, 0), (-1, 1)]

/-- Well-formed parent chain: rooted at `start`, each step is one of the
eight unit vectors, and every non-root point is admissible. -/
def chainOk (level : Level) (start : Point) : Node → Prop
  | .mk none p _ _ _ => p = start
  | .mk (some par) p _ _ _ =>
      chainOk level start par ∧ (p - par.point) ∈ unitVecs ∧ admB level p = true

/-- The points of a node list. -/
def nodePts (l : List Node) : List Point := l.map Node.point

/-- Invariant of the `find_path` search loop. -/
structure SearchInv (level : Level) (start target : Point)
    (open_list closed_list : List Node) : Prop where
  open_chain : ∀ n ∈ open_list, chainOk level start n
  closed_chain : ∀ n ∈ closed_list, chainOk level start n
  open_nodup : (nodePts open_list).Nodup
  closed_nodup : (nodePts closed_list).Nodup
  disj : ∀ p ∈ nodePts open_list, p ∉ nodePts closed_list
  target_not_closed : target ∉ nodePts closed_list
  start_mem : start ∈ nodePts open_list ∨ start ∈ nodePts closed_list
  closure : ∀ n ∈ closed_list, ∀ q ∈ adjacentPoints n.point,
      admB level q = true → q ∈ nodePts open_list ∨ q ∈ nodePts closed_list

lemma sub_mem_unitVecs_of_mem_adjacent {p q : Point} (h : q ∈ adjacentPoints p) :
    q - p ∈ unitVecs := by
  simp only [adjacentPoints, List.mem_cons, List.not_mem_nil, or_false] at h
  rcases h with h | h | h | h | h | h | h | h <;> subst h <;>
    simp [unitVecs, Prod.ext_iff, Prod.fst_sub, Prod.snd_sub]

lemma exists_dir_of_mem_unitVecs {v : Point} (h : v ∈ unitVecs) :
    ∃ d, point_to_direction v = .ok d ∧ direction_to_point d = v := by
  simp only [unitVecs, List.mem_cons, List.not_mem_nil, or_false] at h
  rcases h with h | h | h | h | h | h | h | h <;> subst h <;>
    exact ⟨_, rfl, rfl⟩

lemma chainOk_point {level : Level} {start : Point} :
    ∀ {n : Node}, chainOk level start n →
      n.point = start ∨ admB level n.point = true
  | .mk none _ _ _ _, h => Or.inl h
  | .mk (some _) _ _ _ _, h => Or.inr h.2.2

lemma dirSum_append (ds : List Direction) (d : Direction) :
    dirSum (ds ++ [d]) = dirSum ds + direction_to_point d := by
  induction ds with
  | nil => simp [dirSum]
  | cons a as ih =>
      simp only [dirSum, List.cons_append, List.foldr_cons] at ih ⊢
      rw [ih, add_assoc]

lemma walk_append (s : Point) (ds : List Direction) (d : Direction) :
    walk s (ds ++ [d]) = walk s ds ++ [s + dirSum ds + direction_to_point d] := by
  induction ds generalizing s with
  | nil => simp [walk, dirSum]
  | cons a as ih =>
      have h9 : s + direction_to_point a + dirSum as + direction_to_point d =
          s + dirSum (a :: as) + direction_to_point d := by
        simp only [dirSum, List.foldr_cons]
        abel
      simp only [walk, List.cons_append]
      rw [show as.append [d] = as ++ [d] from rfl, ih, h9]

/-- Soundness of path reconstruction: from a well-formed parent chain,
`buildPath` succeeds, the direction vectors sum to the node's point minus
the start, and every point along the walk is admissible. -/
theorem buildPath_ok {level : Level} {start : Point} :
    ∀ (n : Node), chainOk level start n →
      ∃ ds, buildPath start n = .ok ds ∧
        dirSum ds = n.point - start ∧
        ∀ q ∈ walk start ds, admB level q = true
  | .mk none p c r f, h => by
      have hp : p = start := h
      subst hp
      refine ⟨[], by simp [buildPath], ?_, by simp [walk]⟩
      simp [dirSum, Node.point, Prod.ext_iff]
  | .mk (some par) p c r f, h => by
      by_cases hps : p = start
      · subst hps
        refine ⟨[], by simp [buildPath], ?_, by simp [walk]⟩
        simp [dirSum, Node.point, Prod.ext_iff]
      · obtain ⟨hpar, hvec, hadm⟩ := h
        obtain ⟨ds, hbp, hsum, hwalk⟩ := buildPath_ok par hpar
        obtain ⟨d, hptd, hdtp⟩ := exists_dir_of_mem_unitVecs hvec
        have hpair : ((p.1 - par.point.1, p.2 - par.point.2) : Point) = p - par.point := rfl
        refine ⟨ds ++ [d], ?_, ?_, ?_⟩
        · simp only [buildPath, if_neg hps, hbp, hpair, hptd, Except.bind, Bind.bind]
        · rw [dirSum_append, hsum, hdtp, Node.point]
          abel
        · intro q hq
          rw [walk_append] at hq
          rcases List.mem_append.1 hq with hq | hq
          · exact hwalk q hq
          · have hq' : q = start + dirSum ds + direction_to_point d := by
              simpa using hq
            have hpt : start + dirSum ds + direction_to_point d = p := by
              rw [hsum, hdtp]
              abel
            rw [hq', hpt]
            exact hadm

lemma removeFirstPoint_sublist (l : List Node) (q : Point) :
    List.Sublist (removeFirstPoint l q) l := by
  induction l with
  | nil => simp [removeFirstPoint]
  | cons n ns ih =>
      by_cases h : n.point = q
      · simp only [removeFirstPoint, if_pos h]
        exact List.sublist_cons_self n ns
      · simp only [removeFirstPoint, if_neg h]
        exact ih.cons₂ n

lemma nodePts_removeFirstPoint_sublist (l : List Node) (q : Point) :
    List.Sublist (nodePts (removeFirstPoint l q)) (nodePts l) :=
  (removeFirstPoint_sublist l q).map Node.point

lemma not_mem_nodePts_removeFirstPoint {l : List Node} {q : Point}
    (hnd : (nodePts l).Nodup) : q ∉ nodePts (removeFirstPoint l q) := by
  induction l with
  | nil => simp [removeFirstPoint, nodePts]
  | cons n ns ih =>
      simp only [nodePts, List.map_cons, List.nodup_cons] at hnd
      by_cases h : n.point = q
      · simp only [removeFirstPoint, if_pos h]
        rw [← h]
        exact fun hc => hnd.1 hc
      · simp only [removeFirstPoint, if_neg h, nodePts, List.map_cons,
          List.mem_cons, not_or]
        exact ⟨fun hc => h hc.symm, ih hnd.2⟩

lemma mem_nodePts_removeFirstPoint_of_ne {l : List Node} {p q : Point}
    (hp : p ∈ nodePts l) (hne : p ≠ q) :
    p ∈ nodePts (removeFirstPoint l q) := by
  induction l with
  | nil => simp [nodePts] at hp
  | cons n ns ih =>
      simp only [nodePts, List.map_cons, List.mem_cons] at hp
      by_cases h : n.point = q
      · simp only [removeFirstPoint, if_pos h]
        rcases hp with hp | hp
        · exact absurd (hp.trans h) hne
        · exact hp
      · simp only [removeFirstPoint, if_neg h, nodePts, List.map_cons, List.mem_cons]
        rcases hp with hp | hp
        · exact Or.inl hp
        · exact Or.inr (ih hp)

lemma tileAtS_some_bounds {level : Level} {q : Point} {t : Tile}
    (hsq : squareLevel level) (h : tileAtS level q = some t) :
    0 ≤ q.1 ∧ q.1 < level.tiles.length ∧ 0 ≤ q.2 ∧ q.2 < level.tiles.length := by
  unfold tileAtS at h
  by_cases hb : 0 ≤ q.1 ∧ q.1 < (level.tiles.length : Int) ∧ 0 ≤ q.2
  · rw [if_pos hb] at h
    rcases hrow : level.tiles.get? q.1.toNat with _ | row
    · rw [hrow] at h
      simp at h
    · rw [hrow] at h
      simp only at h
      have hrlen : row.length = level.tiles.length :=
        hsq row (List.get?_mem hrow)
      by_cases hy : q.2 < (row.length : Int)
      · exact ⟨hb.1, hb.2.1, hb.2.2, by omega⟩
      · rw [if_neg hy] at h
        simp at h
  · rw [if_neg hb] at h
    simp at h

lemma inGrid_tileAt {level : Level} (q : Point) (hsq : squareLevel level)
    (h1 : 0 ≤ q.1) (h2 : q.1 < (level.tiles.length : Int))
    (h3 : 0 ≤ q.2) (h4 : q.2 < (level.tiles.length : Int)) :
    ∃ t, tileAt level q = some t ∧ tileAtS level q = some t := by
  have hlt : q.1.toNat < level.tiles.length := by omega
  have hrow : level.tiles.get? q.1.toNat =
      some (level.tiles.get ⟨q.1.toNat, hlt⟩) := List.get?_eq_get hlt
  have hrowmem : level.tiles.get ⟨q.1.toNat, hlt⟩ ∈ level.tiles :=
    List.get?_mem hrow
  have hrlen : (level.tiles.get ⟨q.1.toNat, hlt⟩).length = level.tiles.length :=
    hsq _ hrowmem
  have hlt2 : q.2.toNat < (level.tiles.get ⟨q.1.toNat, hlt⟩).length := by omega
  have hcell : (level.tiles.get ⟨q.1.toNat, hlt⟩).get? q.2.toNat =
      some ((level.tiles.get ⟨q.1.toNat, hlt⟩).get ⟨q.2.toNat, hlt2⟩) :=
    List.get?_eq_get hlt2
  refine ⟨(level.tiles.get ⟨q.1.toNat, hlt⟩).get ⟨q.2.toNat, hlt2⟩, ?_, ?_⟩
  · simp only [tileAt, pyGetL, Option.bind_eq_bind]
    rw [if_pos ⟨h1, h2⟩, hrow]
    simp only [Option.some_bind]
    rw [if_pos ⟨h3, by omega⟩, hcell]
  · simp only [tileAtS]
    rw [if_pos ⟨h1, h2, h3⟩, hrow]
    simp only
    rw [if_pos (by omega), hcell]

lemma admB_bounds {level : Level} {q : Point} (hsq : squareLevel level)
    (h : admB level q = true) :
    0 ≤ q.1 ∧ q.1 < (level.tiles.length : Int) ∧ 0 ≤ q.2 ∧
      q.2 < (level.tiles.length : Int) := by
  unfold admB at h
  rcases hts : tileAtS level q with _ | t
  · rw [hts] at h
    simp at h
  · exact tileAtS_some_bounds hsq hts

/-- Properties of the open list threaded through neighbour expansion. -/
structure OpenOk (level : Level) (start : Point) (closedPts : List Point)
    (open_list : List Node) : Prop where
  chain : ∀ n ∈ open_list, chainOk level start n
  nodup : (nodePts open_list).Nodup
  disj : ∀ p ∈ nodePts open_list, p ∉ closedPts

lemma adjacent_inGrid {len : Int} {p q : Point} (hp : interiorPt len p)
    (h : q ∈ adjacentPoints p) :
    0 ≤ q.1 ∧ q.1 < len ∧ 0 ≤ q.2 ∧ q.2 < len := by
  simp only [adjacentPoints, List.mem_cons, List.not_mem_nil, or_false] at h
  obtain ⟨ha, hb, hc, hd⟩ := hp
  rcases h with h | h | h | h | h | h | h | h <;> subst h <;>
    refine ⟨?_, ?_, ?_, ?_⟩ <;> simp <;> omega

lemma admB_of_tileAtS {level : Level} {q : Point} {t : Tile}
    (h : tileAtS level q = some t) :
    admB level q = (t.type.passable || t.type = .closedDoor) := by
  unfold admB
  rw [h]

lemma mkNode_point (par : Option Node) (p t : Point) : (mkNode par p t).point = p := rfl

lemma mem_nodePts {l : List Node} {p : Point} :
    p ∈ nodePts l ↔ ∃ n ∈ l, n.point = p := by
  simp [nodePts]

lemma chainOk_mkNode {level : Level} {start : Point} {current : Node}
    {adj target : Point} (hcur : chainOk level start current)
    (hvec : adj - current.point ∈ unitVecs) (hadm : admB level adj = true) :
    chainOk level start (mkNode (some current) adj target) := by
  show chainOk level start (.mk (some current) adj _ _ _)
  exact ⟨hcur, hvec, hadm⟩

lemma expandStep_eq_of_tile {level : Level} {target : Point}
    {closed_list open_list : List Node} {current : Node} {adj : Point} {t : Tile}
    (htile : tileAt level adj = some t) :
    expandStep level target closed_list current open_list adj =
      (if ((t.type.passable || t.type = .closedDoor) &&
            !(closed_list.any (fun n => n.point = adj))) = true then
        match open_list.find? (fun n => n.point = adj) with
        | none => .ok (open_list ++ [mkNode (some current) adj target])
        | some n =>
          if (mkNode (some current) adj target).cost < n.cost then
            .ok (removeFirstPoint open_list adj ++ [mkNode (some current) adj target])
          else
            .ok open_list
      else
        .ok open_list) := by
  unfold expandStep
  rw [htile]

lemma expandStep_ok {level : Level} {start : Point} (target : Point)
    (hsq : squareLevel level) (hInt : interiorOnly level)
    (hstart : interiorPt level.tiles.length start)
    {closed_list open_list : List Node} {current : Node} {adj : Point}
    (hcur : chainOk level start current)
    (hadj : adj ∈ adjacentPoints current.point)
    (hopen : OpenOk level start (nodePts closed_list) open_list) :
    ∃ open', expandStep level target closed_list current open_list adj = .ok open' ∧
      OpenOk level start (nodePts closed_list) open' ∧
      (∀ p ∈ nodePts open_list, p ∈ nodePts open') ∧
      (admB level adj = true → adj ∈ nodePts open' ∨ adj ∈ nodePts closed_list) := by
  have hcpInt : interiorPt level.tiles.length current.point := by
    rcases chainOk_point hcur with h | h
    · rw [h]; exact hstart
    · exact hInt _ h
  obtain ⟨hg1, hg2, hg3, hg4⟩ := adjacent_inGrid hcpInt hadj
  obtain ⟨t, htile, htileS⟩ := inGrid_tileAt adj hsq hg1 hg2 hg3 hg4
  have hadm_eq : admB level adj = (t.type.passable || t.type = .closedDoor) :=
    admB_of_tileAtS htileS
  rw [expandStep_eq_of_tile htile]
  set on_closed := closed_list.any (fun n => n.point = adj) with hocdef
  by_cases hcond : ((t.type.passable || t.type = .closedDoor) && !on_closed) = true
  · rw [if_pos hcond]
    have hadm : admB level adj = true := by
      rw [hadm_eq]
      exact (Bool.and_eq_true _ _ ▸ hcond).1
    have hnotclosed : adj ∉ nodePts closed_list := by
      have hoc : on_closed = false := by
        have := (Bool.and_eq_true _ _ ▸ hcond).2
        simp only [Bool.not_eq_true'] at this
        exact this
      rw [hocdef] at hoc
      intro hmem
      obtain ⟨n, hn, hnp⟩ := mem_nodePts.1 hmem
      have := List.any_eq_false.1 hoc n hn
      simp [hnp] at this
    have hvec : adj - current.point ∈ unitVecs :=
      sub_mem_unitVecs_of_mem_adjacent hadj
    have hchain_new : chainOk level start (mkNode (some current) adj target) :=
      chainOk_mkNode hcur hvec hadm
    rcases hfind : open_list.find? (fun n => n.point = adj) with _ | n0
    · rw [hfind]
      refine ⟨open_list ++ [mkNode (some current) adj target], rfl, ?_, ?_, ?_⟩
      · refine ⟨?_, ?_, ?_⟩
        · intro n hn
          rcases List.mem_append.1 hn with hn | hn
          · exact hopen.chain n hn
          · rw [List.mem_singleton.1 hn]
            exact hchain_new
        · have hnew_notin : adj ∉ nodePts open_list := by
            intro hmem
            obtain ⟨n, hn, hnp⟩ := mem_nodePts.1 hmem
            have := List.find?_eq_none.1 hfind n hn
            simp [hnp] at this
          simp only [nodePts, List.map_append, List.map_cons, List.map_nil]
          rw [List.nodup_append]
          refine ⟨hopen.nodup, by simp [mkNode_point], ?_⟩
          intro p hp
          simp only [mkNode_point, List.mem_singleton]
          intro hc
          exact hnew_notin (by rw [← hc]; exact hp)
        · intro p hp
          simp only [nodePts, List.map_append, List.map_cons, List.map_nil,
            List.mem_append, List.mem_singleton, mkNode_point] at hp
          rcases hp with hp | hp
          · exact hopen.disj p hp
          · rw [hp]
            exact hnotclosed
      · intro p hp
        simp only [nodePts, List.map_append, List.mem_append]
        exact Or.inl hp
      · intro _
        refine Or.inl ?_
        simp [nodePts, mkNode_point]
    · have hn0mem : n0 ∈ open_list := List.mem_of_find?_eq_some hfind
      have hn0pt : n0.point = adj := by
        have := List.find?_some hfind
        simpa using this
      have hadjmem : adj ∈ nodePts open_list :=
        mem_nodePts.2 ⟨n0, hn0mem, hn0pt⟩
      rw [hfind]
      by_cases hcost : (mkNode (some current) adj target).cost < n0.cost
      · refine ⟨removeFirstPoint open_list adj ++ [mkNode (some current) adj target],
          if_pos hcost, ?_, ?_, ?_⟩
        · refine ⟨?_, ?_, ?_⟩
          · intro n hn
            rcases List.mem_append.1 hn with hn | hn
            · exact hopen.chain n ((removeFirstPoint_sublist open_list adj).mem hn)
            · rw [List.mem_singleton.1 hn]
              exact hchain_new
          · simp only [nodePts, List.map_append, List.map_cons, List.map_nil]
            rw [List.nodup_append]
            refine ⟨(nodePts_removeFirstPoint_sublist open_list adj).nodup hopen.nodup,
              by simp [mkNode_point], ?_⟩
            intro p hp
            simp only [mkNode_point, List.mem_singleton]
            intro hc
            rw [hc] at hp
            exact not_mem_nodePts_removeFirstPoint hopen.nodup hp
          · intro p hp
            simp only [nodePts, List.map_append, List.map_cons, List.map_nil,
              List.mem_append, List.mem_singleton, mkNode_point] at hp
            rcases hp with hp | hp
            · exact hopen.disj p ((nodePts_removeFirstPoint_sublist open_list adj).mem hp)
            · rw [hp]
              exact hopen.disj adj hadjmem
        · intro p hp
          simp only [nodePts, List.map_append, List.map_cons, List.map_nil,
            List.mem_append, List.mem_singleton, mkNode_point]
          by_cases hpe : p = adj
          · exact Or.inr hpe
          · exact Or.inl (mem_nodePts_removeFirstPoint_of_ne hp hpe)
        · intro _
          refine Or.inl ?_
          simp [nodePts, mkNode_point]
      · exact ⟨open_list, if_neg hcost, hopen, fun p hp => hp, fun _ => Or.inl hadjmem⟩
  · rw [if_neg hcond]
    refine ⟨open_list, rfl, hopen, fun p hp => hp, ?_⟩
    intro hadm
    rw [hadm_eq] at hadm
    have hoc : on_closed = true := by
      by_contra hoc
      have : on_closed = false := by
        exact Bool.not_eq_true _ ▸ hoc
      apply hcond
      rw [hadm, this]
      rfl
    rw [hocdef] at hoc
    obtain ⟨n, hn, hnp⟩ := List.any_eq_true.1 hoc
    refine Or.inr (mem_nodePts.2 ⟨n, hn, by simpa using hnp⟩)

lemma expandAll_ok {level : Level} {start : Point} (target : Point)
    (hsq : squareLevel level) (hInt : interiorOnly level)
    (hstart : interiorPt level.tiles.length start)
    {closed_list : List Node} {current : Node}
    (hcur : chainOk level start current) :
    ∀ (pts : List Point) (open_list : List Node),
      (∀ adj ∈ pts, adj ∈ adjacentPoints current.point) →
      OpenOk level start (nodePts closed_list) open_list →
      ∃ open', expandAll level target closed_list current open_list pts = .ok open' ∧
        OpenOk level start (nodePts closed_list) open' ∧
        (∀ p ∈ nodePts open_list, p ∈ nodePts open') ∧
        (∀ adj ∈ pts, admB level adj = true →
          adj ∈ nodePts open' ∨ adj ∈ nodePts closed_list)
  | [], open_list, _, hopen =>
      ⟨open_list, rfl, hopen, fun p hp => hp, by simp⟩
  | adj :: rest, open_list, hmem, hopen => by
      obtain ⟨open1, heq1, hopen1, hmono1, hcov1⟩ :=
        expandStep_ok target hsq hInt hstart hcur (hmem adj (by simp)) hopen
      obtain ⟨open', heq2, hopen2, hmono2, hcov2⟩ :=
        expandAll_ok target hsq hInt hstart hcur rest open1
          (fun a ha => hmem a (by simp [ha])) hopen1
      refine ⟨open', ?_, hopen2, fun p hp => hmono2 p (hmono1 p hp), ?_⟩
      · simp only [expandAll]
        rw [heq1]
        exact heq2
      · intro a ha hadm
        rcases List.mem_cons.1 ha with ha | ha
        · subst ha
          rcases hcov1 hadm with h | h
          · exact Or.inl (hmono2 a h)
          · exact Or.inr h
        · exact hcov2 a ha hadm

lemma length_le_grid (len : Nat) (pts : List Point) (hnd : pts.Nodup)
    (hin : ∀ p ∈ pts, 0 ≤ p.1 ∧ p.1 < (len : Int) ∧ 0 ≤ p.2 ∧ p.2 < (len : Int)) :
    pts.length ≤ len * len := by
  classical
  have hinj : ∀ p ∈ pts, ∀ q ∈ pts,
      (p.1.toNat, p.2.toNat) = (q.1.toNat, q.2.toNat) → p = q := by
    intro p hp q hq hf
    obtain ⟨hp1, hp2, hp3, hp4⟩ := hin p hp
    obtain ⟨hq1, hq2, hq3, hq4⟩ := hin q hq
    have h1 : p.1.toNat = q.1.toNat := congrArg Prod.fst hf
    have h2 : p.2.toNat = q.2.toNat := congrArg Prod.snd hf
    have : p.1 = q.1 := by omega
    have : p.2 = q.2 := by omega
    exact Prod.ext (by omega) (by omega)
  have hmapnd : (pts.map (fun p => (p.1.toNat, p.2.toNat))).Nodup :=
    List.Nodup.map_on hinj hnd
  have hcard : (pts.map (fun p => (p.1.toNat, p.2.toNat))).toFinset.card =
      pts.length := by
    rw [List.toFinset_card_of_nodup hmapnd, List.length_map]
  have hsub : (pts.map (fun p => (p.1.toNat, p.2.toNat))).toFinset ⊆
      Finset.range len ×ˢ Finset.range len := by
    intro x hx
    rw [List.mem_toFinset, List.mem_map] at hx
    obtain ⟨p, hp, hpx⟩ := hx
    obtain ⟨h1, h2, h3, h4⟩ := hin p hp
    rw [Finset.mem_product, Finset.mem_range, Finset.mem_range, ← hpx]
    constructor <;> omega
  have := Finset.card_le_card hsub
  rw [hcard] at this
  simpa using this

lemma reaches_mem_closed {level : Level} {start : Point}
    {closedPts : List Point}
    (hstart : start ∈ closedPts)
    (hclosure : ∀ b ∈ closedPts, ∀ q ∈ adjacentPoints b,
      admB level q = true → q ∈ closedPts) :
    ∀ {q : Point}, Reaches level start q → q ∈ closedPts := by
  intro q hq
  induction hq with
  | refl => exact hstart
  | tail hr hadj hadm ih => exact hclosure _ ih _ hadj hadm

lemma nodePts_append (l1 l2 : List Node) :
    nodePts (l1 ++ l2) = nodePts l1 ++ nodePts l2 := List.map_append _ _ _

lemma nodePts_cons (n : Node) (l : List Node) :
    nodePts (n :: l) = n.point :: nodePts l := rfl

lemma stableInsert_perm (a : Node) (l : List Node) :
    (stableInsert a l).Perm (a :: l) := by
  induction l with
  | nil => exact List.Perm.refl _
  | cons b bs ih =>
      by_cases h : b.final_cost < a.final_cost
      · simp only [stableInsert, if_pos h]
        exact (ih.cons b).trans (List.Perm.swap a b bs)
      · simp only [stableInsert, if_neg h]
        exact List.Perm.refl _

lemma sortByFinalCost_perm (l : List Node) : (sortByFinalCost l).Perm l := by
  induction l with
  | nil => exact List.Perm.refl _
  | cons a as ih =>
      exact (stableInsert_perm a (sortByFinalCost as)).trans (ih.cons a)

lemma findPathLoop_cons {level : Level} {point target : Point} {fuel : Nat}
    {open_list closed_list : List Node} {current : Node} {rest : List Node}
    (hsorted : sortByFinalCost open_list = current :: rest) :
    findPathLoop level point target (fuel + 1) open_list closed_list =
      (if current.point = target then
        buildPath point current
      else
        match expandAll level target (closed_list ++ [current]) current rest
            (adjacentPoints current.point) with
        | .error e => .error e
        | .ok open' =>
            findPathLoop level point target fuel open' (closed_list ++ [current])) := by
  simp only [findPathLoop]
  rw [hsorted]

lemma findPathLoop_nil {level : Level} {point target : Point} {fuel : Nat}
    {open_list closed_list : List Node}
    (hsorted : sortByFinalCost open_list = []) :
    findPathLoop level point target (fuel + 1) open_list closed_list =
      .error .indexError := by
  simp only [findPathLoop]
  rw [hsorted]

/-- Main loop invariant argument: with enough fuel, a maintained search
invariant, and the target reachable, the loop returns a sound path. -/
theorem findPathLoop_finds {level : Level} {start target : Point}
    (hsq : squareLevel level) (hInt : interiorOnly level)
    (hstart : interiorPt level.tiles.length start)
    (hreach : Reaches level start target) :
    ∀ (fuel : Nat) (open_list closed_list : List Node),
      SearchInv level start target open_list closed_list →
      level.tiles.length * level.tiles.length + 1 ≤ fuel + closed_list.length →
      ∃ ds, findPathLoop level start target fuel open_list closed_list = .ok ds ∧
        dirSum ds = target - start ∧
        ∀ q ∈ walk start ds, admB level q = true
  | 0, open_list, closed_list, inv, hfuel => by
      exfalso
      have hin : ∀ p ∈ nodePts closed_list, 0 ≤ p.1 ∧
          p.1 < (level.tiles.length : Int) ∧ 0 ≤ p.2 ∧
          p.2 < (level.tiles.length : Int) := by
        intro p hp
        obtain ⟨n, hn, hnp⟩ := mem_nodePts.1 hp
        rcases chainOk_point (inv.closed_chain n hn) with h | h
        · rw [← hnp, h]
          obtain ⟨h1, h2, h3, h4⟩ := hstart
          exact ⟨by omega, by omega, by omega, by omega⟩
        · rw [← hnp]
          exact admB_bounds hsq h
      have hle := length_le_grid level.tiles.length (nodePts closed_list)
        inv.closed_nodup hin
      have hlen : (nodePts closed_list).length = closed_list.length :=
        List.length_map _ _
      omega
  | fuel + 1, open_list, closed_list, inv, hfuel => by
      rcases hsorted : sortByFinalCost open_list
        with _ | ⟨current, rest⟩
      · exfalso
        have hopen_nil : open_list = [] := by
          have hperm := sortByFinalCost_perm open_list
          rw [hsorted] at hperm
          exact hperm.symm.eq_nil
        have hstartC : start ∈ nodePts closed_list := by
          rcases inv.start_mem with h | h
          · rw [hopen_nil] at h
            simp [nodePts] at h
          · exact h
        have hclosure : ∀ b ∈ nodePts closed_list, ∀ q ∈ adjacentPoints b,
            admB level q = true → q ∈ nodePts closed_list := by
          intro b hb q hq hadm
          obtain ⟨n, hn, hnp⟩ := mem_nodePts.1 hb
          rcases inv.closure n hn q (by rw [hnp]; exact hq) hadm with h | h
          · rw [hopen_nil] at h
            simp [nodePts] at h
          · exact h
        exact inv.target_not_closed
          (reaches_mem_closed hstartC hclosure hreach)
      · have hperm := sortByFinalCost_perm open_list
        rw [hsorted] at hperm
        have hptperm : (nodePts (current :: rest)).Perm (nodePts open_list) :=
          hperm.map Node.point
        have hcurmem : current ∈ open_list := hperm.mem_iff.1 (by simp)
        have hcur : chainOk level start current := inv.open_chain current hcurmem
        have hsorted_nodup : (nodePts (current :: rest)).Nodup :=
          hptperm.symm.nodup inv.open_nodup
        by_cases hpt : current.point = target
        · obtain ⟨ds, hbp, hsum, hwalk⟩ := buildPath_ok current hcur
          refine ⟨ds, ?_, ?_, hwalk⟩
          · rw [findPathLoop_cons hsorted, if_pos hpt]
            exact hbp
          · rw [hsum, hpt]
        · have hopenok : OpenOk level start (nodePts (closed_list ++ [current])) rest := by
            refine ⟨?_, ?_, ?_⟩
            · intro n hn
              exact inv.open_chain n (hperm.mem_iff.1 (by simp [hn]))
            · rw [nodePts_cons] at hsorted_nodup
              exact hsorted_nodup.of_cons
            · intro p hp
              have hpo : p ∈ nodePts open_list :=
                hptperm.mem_iff.1 (by simp [nodePts_cons, hp])
              rw [nodePts_append]
              simp only [List.mem_append, nodePts_cons, nodePts,
                List.map_nil, List.mem_singleton, not_or]
              refine ⟨inv.disj p hpo, ?_⟩
              rw [nodePts_cons] at hsorted_nodup
              intro hc
              simp only [List.map_cons, List.map_nil, List.mem_singleton] at hc
              rw [hc] at hp
              exact (List.nodup_cons.1 hsorted_nodup).1 hp
          obtain ⟨open', heq, hopen', hmono, hcov⟩ :=
            expandAll_ok target hsq hInt hstart hcur
              (adjacentPoints current.point) rest (fun a ha => ha) hopenok
          have hcurpt_open : current.point ∈ nodePts open_list :=
            mem_nodePts.2 ⟨current, hcurmem, rfl⟩
          have hinv' : SearchInv level start target open' (closed_list ++ [current]) := by
            refine ⟨hopen'.chain, ?_, hopen'.nodup, ?_, hopen'.disj, ?_, ?_, ?_⟩
            · intro n hn
              rcases List.mem_append.1 hn with hn | hn
              · exact inv.closed_chain n hn
              · rw [List.mem_singleton.1 hn]
                exact hcur
            · rw [nodePts_append]
              refine List.Nodup.append inv.closed_nodup (by simp [nodePts]) ?_
              intro p hp hq
              simp only [nodePts, List.map_cons, List.map_nil,
                List.mem_singleton] at hq
              rw [hq] at hp
              exact inv.disj current.point hcurpt_open hp
            · rw [nodePts_append]
              simp only [List.mem_append, nodePts, List.map_cons, List.map_nil,
                List.mem_singleton, not_or]
              exact ⟨inv.target_not_closed, fun hc => hpt hc.symm⟩
            · rcases inv.start_mem with h | h
              · have : start ∈ nodePts (current :: rest) := hptperm.mem_iff.2 h
                rw [nodePts_cons] at this
                rcases List.mem_cons.1 this with h' | h'
                · right
                  rw [nodePts_append]
                  simp [nodePts, h']
                · left
                  exact hmono start h'
              · right
                rw [nodePts_append]
                simp only [List.mem_append]
                exact Or.inl h
            · intro n hn q hq hadm
              rcases List.mem_append.1 hn with hn | hn
              · rcases inv.closure n hn q hq hadm with h | h
                · have : q ∈ nodePts (current :: rest) := hptperm.mem_iff.2 h
                  rw [nodePts_cons] at this
                  rcases List.mem_cons.1 this with h' | h'
                  · right
                    rw [nodePts_append]
                    simp [nodePts, h']
                  · left
                    exact hmono q h'
                · right
                  rw [nodePts_append]
                  simp only [List.mem_append]
                  exact Or.inl h
              · rw [List.mem_singleton.1 hn] at hq
                exact hcov q hq hadm
          have hfuel' : level.tiles.length * level.tiles.length + 1 ≤
              fuel + (closed_list ++ [current]).length := by
            rw [List.length_append]
            simp only [List.length_singleton]
            omega
          obtain ⟨ds, hds, hsum, hwalk⟩ :=
            findPathLoop_finds hsq hInt hstart hreach fuel open' (closed_list ++ [current])
              hinv' hfuel'
          refine ⟨ds, ?_, hsum, hwalk⟩
          rw [findPathLoop_cons hsorted, if_neg hpt, heq]
          exact hds

lemma interiorOnly_of_B {level : Level} (hsq : squareLevel level)
    (hb : interiorOnlyB level = true) : interiorOnly level := by
  intro p hadm
  obtain ⟨h1, h2, h3, h4⟩ := admB_bounds hsq hadm
  have hx : p.1.toNat ∈ List.range level.tiles.length := by
    rw [List.mem_range]; omega
  have hy : p.2.toNat ∈ List.range level.tiles.length := by
    rw [List.mem_range]; omega
  have hp : ((p.1.toNat : Int), (p.2.toNat : Int)) = p := by
    refine Prod.ext ?_ ?_ <;> simp <;> omega
  have := List.all_eq_true.1 (List.all_eq_true.1 hb p.1.toNat hx) p.2.toNat hy
  rw [hp] at this
  rcases (Bool.or_eq_true _ _ ▸ this) with h | h
  · rw [hadm] at h
    simp at h
  · exact of_decide_eq_true h

/-- Correctness of `find_path` on levels whose passable-or-door tiles all
avoid the grid border: for any interior start and reachable target, the
search succeeds, the returned directions sum to `target - start`, and
every visited point is passable or a closed door. -/
theorem find_path_spec (level : Level) (start target : Point)
    (hsq : squareLevel level) (hInt : interiorOnly level)
    (hstart : interiorPt level.tiles.length start)
    (hreach : Reaches level start target) :
    ∃ ds, find_path start target level = .ok ds ∧
      dirSum ds = target - start ∧
      ∀ q ∈ walk start ds, admB level q = true := by
  have hinv : SearchInv level start target [mkNode none start target] [] := by
    refine ⟨?_, ?_, ?_, ?_, ?_, ?_, ?_, ?_⟩
    · intro n hn
      rw [List.mem_singleton.1 hn]
      exact rfl
    · intro n hn
      simp at hn
    · simp [nodePts, mkNode_point]
    · simp [nodePts]
    · intro p _
      simp [nodePts]
    · simp [nodePts]
    · left
      simp [nodePts, mkNode_point]
    · intro n hn
      simp at hn
  have hfuel : level.tiles.length * level.tiles.length + 1 ≤
      findPathFuel level + ([] : List Node).length := by
    unfold findPathFuel
    simp
  exact findPathLoop_finds hsq hInt hstart hreach (findPathFuel level)
    [mkNode none start target] [] hinv hfuel

deriving instance DecidableEq for Except

/-- A 3×3 level consisting entirely of floor tiles: its passable region
touches the grid border. -/
def pathBoundaryLevel : Level :=
  { tiles := List.replicate 3 (List.replicate 3 (new_tile .floor)),
    entities := [] }

/-- C1 (counterexample): on a level whose passable tiles touch the grid
border, `find_path` does not return a move list even though the target is
reachable through passable tiles: expanding a node on the border indexes
`tiles[x][y+1]` past the end of a row, raising `IndexError`.  With start
`(2,2)` and target `(0,0)` on an all-floor 3×3 level the claim's promised
move list is never produced. -/
theorem find_path_boundary_crash :
    Reaches pathBoundaryLevel (2, 2) (0, 0) ∧
    find_path (2, 2) (0, 0) pathBoundaryLevel = .error .indexError := by
  have h1 : Reaches pathBoundaryLevel (2, 2) (1, 1) :=
    Reaches.tail Reaches.refl (by decide) (by decide)
  have h2 : Reaches pathBoundaryLevel (2, 2) (0, 0) :=
    Reaches.tail h1 (by decide) (by decide)
  exact ⟨h2, by decide⟩

/-- C1 (amended): for every square level all of whose passable-or-closed-door
tiles lie strictly inside the grid border, and every interior start point
and target reachable from it through passable-or-closed-door tiles,
`find_path(start, target, level)` returns a list of 8-directional moves
whose direction vectors sum to `target − start`, and every intermediate
point reached along the move sequence lies on a tile that is passable or
a closed door. -/
theorem find_path_interior_sound_complete (level : Level) (start target : Point)
    (hsq : squareLevel level) (hInt : interiorOnly level)
    (hstart : interiorPt level.tiles.length start)
    (hreach : Reaches level start target) :
    ∃ ds, find_path start target level = .ok ds ∧
      dirSum ds = target - start ∧
      ∀ q ∈ walk start ds, admB level q = true :=
  find_path_spec level start target hsq hInt hstart hreach

/-- A 7×7 level whose floors occupy the interior square `[1,5] × [1,5]`. -/
def pathWitnessLevel : Level :=
  { tiles := (List.range 7).map (fun x => (List.range 7).map (fun y =>
      if 1 ≤ x ∧ x ≤ 5 ∧ 1 ≤ y ∧ y ≤ 5 then new_tile .floor
      else new_tile .solidEarth)),
    entities := [] }

/-- Witness for C1 at a concrete 7×7 level, start `(1,1)`, target `(3,3)`. -/
theorem find_path_interior_sound_complete_witness :
    (squareLevel pathWitnessLevel ∧ interiorOnly pathWitnessLevel ∧
      interiorPt pathWitnessLevel.tiles.length (1, 1) ∧
      Reaches pathWitnessLevel (1, 1) (3, 3)) ∧
    (∃ ds, find_path (1, 1) (3, 3) pathWitnessLevel = .ok ds ∧
      dirSum ds = ((3 : Int), (3 : Int)) - ((1 : Int), (1 : Int)) ∧
      ∀ q ∈ walk (1, 1) ds, admB pathWitnessLevel q = true) := by
  have hsq : squareLevel pathWitnessLevel := by decide
  have hInt : interiorOnly pathWitnessLevel :=
    interiorOnly_of_B hsq (by decide)
  have hstart : interiorPt pathWitnessLevel.tiles.length (1, 1) := by decide
  have hmid : Reaches pathWitnessLevel (1, 1) (2, 2) :=
    Reaches.tail Reaches.refl (by decide) (by decide)
  have hreach : Reaches pathWitnessLevel (1, 1) (3, 3) :=
    Reaches.tail hmid (by decide) (by decide)
  exact ⟨⟨hsq, hInt, hstart, hreach⟩,
    find_path_interior_sound_complete pathWitnessLevel (1, 1) (3, 3)
      hsq hInt hstart hreach⟩

/-- A 5×5 level whose only non-solid tile is the floor at `(2,2)`: an
isolated start point, all of whose neighbours are solid earth. -/
def pathIsolatedLevel : Level :=
  { tiles := (List.range 5).map (fun x => (List.range 5).map (fun y =>
      if x = 2 ∧ y = 2 then new_tile .floor else new_tile .solidEarth)),
    entities := [] }

/-- C2: calling `find_path` from an isolated point (all neighbours solid
earth) terminates — the search does not loop forever — but the code fails
with a plain `IndexError` from `open_list[0]` on the emptied open list:
no `PathNotFound` exception exists anywhere in the source, and no caller
catches the error, so it is not recovered by skipping the action. -/
theorem find_path_isolated_index_error :
    find_path (2, 2) (0, 0) pathIsolatedLevel = .error .indexError := by
  decide

/-! ## Dungeon generation: `fill_rect`, `check_fill_rect`, rooms and corridors -/

/-- Lift a failed Python index operation to `IndexError`. -/
def orIndexError {α : Type} : Option α → Except PyErr α
  | some a => .ok a
  | none => .error .indexError

/-- Inner column loop of `world.fill_rect` (`for j in range(y, y+height)`). -/
def fillCol (level : Level) (x y : Int) (height : Nat) (type_ : TileType) :
    Except PyErr Level :=
  match height with
  | 0 => .ok level
  | h + 1 => do
      let level' ← orIndexError (setTileAt level (x, y) (new_tile type_))
      fillCol level' x (y + 1) h type_

/-- `world.fill_rect`: fills a `width × height` rectangle whose bottom-left
corner is `point` with fresh tiles of the given type. -/
def fill_rect (level : Level) (point : Point) (width height : Nat)
    (type_ : TileType) : Except PyErr Level :=
  match width, point with
  | 0, _ => .ok level
  | w + 1, (x, y) => do
      let level' ← fillCol level x y height type_
      fill_rect level' (x + 1, y) w height type_

/-- Inner column scan of `check_fill_rect`: stops at the first tile whose
type differs from `SOLID_EARTH` (Python compares namedtuples structurally,
which coincides with constructor equality of the seven constants). -/
def scanCol (level : Level) (x y : Int) (height : Nat) : Except PyErr Bool :=
  match height with
  | 0 => .ok true
  | h + 1 =>
      match tileAt level (x, y) with
      | none => .error .indexError
      | some t =>
          if t.type ≠ .solidEarth then .ok false
          else scanCol level x (y + 1) h

/-- The scan loop of `check_fill_rect` over the whole rectangle. -/
def scanRect (level : Level) (x y : Int) (width height : Nat) :
    Except PyErr Bool :=
  match width with
  | 0 => .ok true
  | w + 1 => do
      let b ← scanCol level x y height
      if b then scanRect level (x + 1) y w height else .ok false

/-- `world.check_fill_rect`: bounds-check, then verify the whole rectangle
is `SOLID_EARTH`, and only then fill it; returns the success flag. -/
def check_fill_rect (level : Level) (point : Point) (width height : Nat)
    (type_ : TileType) : Except PyErr (Bool × Level) :=
  let top_right : Point := (point.1 + width, point.2 + height)
  let level_length : Int := level.tiles.length
  if !point_within level_length point || !point_within level_length top_right then
    .ok (false, level)
  else do
    let b ← scanRect level point.1 point.2 width height
    if b then do
      let level' ← fill_rect level point width height type_
      .ok (true, level')
    else
      .ok (false, level)

/-- `world.make_room`: tries North, South, East, West in turn; on the first
direction whose `(width+2) × (height+1)`-style footprint is free, carves
the floor, writes the unchecked door-side wall strip, and converts the
wall point to a closed door.  `width` and `height` stand for the two
`rand_room_len()` draws. -/
def make_room (level : Level) (wall_point : Point) (width height : Nat) :
    Except PyErr (Bool × Level) := do
  let (x, y) := wall_point
  let w2 : Int := (width / 2 : Nat)
  let h2 : Int := (height / 2 : Nat)
  -- North
  let (north_check, level) ←
    check_fill_rect level (x - w2 - 1, y + 1) (width + 2) (height + 1) .wall
  if north_check then do
    let level ← fill_rect level (x - w2, y + 1) width height .floor
    let level ← fill_rect level (x - w2 - 1, y) (width + 2) 1 .wall
    let level ← orIndexError (setTileAt level (x, y) (new_tile .closedDoor))
    return (true, level)
  else do
  -- South
  let (south_check, level) ←
    check_fill_rect level (x - w2 - 1, y - height - 1) (width + 2) (height + 1) .wall
  if south_check then do
    let level ← fill_rect level (x - w2, y - height) width height .floor
    let level ← fill_rect level (x - w2 - 1, y) (width + 2) 1 .wall
    let level ← orIndexError (setTileAt level (x, y) (new_tile .closedDoor))
    return (true, level)
  else do
  -- East
  let (east_check, level) ←
    check_fill_rect level (x + 1, y - h2 - 1) (width + 1) (height + 2) .wall
  if east_check then do
    let level ← fill_rect level (x + 1, y - h2) width height .floor
    let level ← fill_rect level (x, y - h2 - 1) 1 (height + 2) .wall
    let level ← orIndexError (setTileAt level (x, y) (new_tile .closedDoor))
    return (true, level)
  else do
  -- West
  let (west_check, level) ←
    check_fill_rect level (x - width - 1, y - h2 - 1) (width + 1) (height + 2) .wall
  if west_check then do
    let level ← fill_rect level (x - width, y - h2) width height .floor
    let level ← fill_rect level (x, y - h2 - 1) 1 (height + 2) .wall
    let level ← orIndexError (setTileAt level (x, y) (new_tile .closedDoor))
    return (true, level)
  else
    return (false, level)

/-- `world.make_corridor`: same four-direction trial structure with a
1-tile-wide strip; `length` stands for the `random.randint(5, 15)` draw. -/
def make_corridor (level : Level) (wall_point : Point) (length : Nat) :
    Except PyErr (Bool × Level) := do
  let (x, y) := wall_point
  -- North
  let (north_check, level) ←
    check_fill_rect level (x - 1, y + 1) 3 (length + 1) .wall
  if north_check then do
    let level ← fill_rect level (x, y + 1) 1 length .floor
    let level ← fill_rect level (x - 1, y) 3 1 .wall
    let level ← orIndexError (setTileAt level (x, y) (new_tile .closedDoor))
    return (true, level)
  else do
  -- South
  let (south_check, level) ←
    check_fill_rect level (x - 1, y - length - 1) 3 (length + 1) .wall
  if south_check then do
    let level ← fill_rect level (x, y - length) 1 length .floor
    let level ← fill_rect level (x - 1, y) 3 1 .wall
    let level ← orIndexError (setTileAt level (x, y) (new_tile .closedDoor))
    return (true, level)
  else do
  -- East
  let (east_check, level) ←
    check_fill_rect level (x + 1, y - 1) (length + 1) 3 .wall
  if east_check then do
    let level ← fill_rect level (x + 1, y) length 1 .floor
    let level ← fill_rect level (x, y - 1) 1 3 .wall
    let level ← orIndexError (setTileAt level (x, y) (new_tile .closedDoor))
    return (true, level)
  else do
  -- West
  let (west_check, level) ←
    check_fill_rect level (x - length - 1, y - 1) (length + 1) 3 .wall
  if west_check then do
    let level ← fill_rect level (x - length, y) length 1 .floor
    let level ← fill_rect level (x, y - 1) 1 3 .wall
    let level ← orIndexError (setTileAt level (x, y) (new_tile .closedDoor))
    return (true, level)
  else
    return (false, level)

/-! ## Lemmas about tile writes and rectangles -/

/-- Membership of a point in the `width × height` rectangle whose
bottom-left corner is `(x, y)`. -/
def inRect (p : Point) (x y : Int) (width height : Nat) : Prop :=
  x ≤ p.1 ∧ p.1 < x + width ∧ y ≤ p.2 ∧ p.2 < y + height

instance (p : Point) (x y : Int) (w h : Nat) : Decidable (inRect p x y w h) := by
  unfold inRect; infer_instance

lemma setTileAt_inGrid {level : Level} (p : Point) (t : Tile)
    (hsq : squareLevel level)
    (h1 : 0 ≤ p.1) (h2 : p.1 < (level.tiles.length : Int))
    (h3 : 0 ≤ p.2) (h4 : p.2 < (level.tiles.length : Int)) :
    ∃ lvl', setTileAt level p t = some lvl' ∧
      lvl'.tiles.length = level.tiles.length ∧ squareLevel lvl' ∧
      lvl'.entities = level.entities ∧
      (∀ q : Point, tileAtS lvl' q = if q = p then some t else tileAtS level q) := by
  have hlt : p.1.toNat < level.tiles.length := by omega
  have hrow : level.tiles.get? p.1.toNat =
      some (level.tiles.get ⟨p.1.toNat, hlt⟩) := List.get?_eq_get hlt
  set row := level.tiles.get ⟨p.1.toNat, hlt⟩ with hrowdef
  have hrlen : row.length = level.tiles.length :=
    hsq row (List.get?_mem hrow)
  have hlt2 : p.2.toNat < row.length := by omega
  set row' := row.set p.2.toNat t with hrowpdef
  set tiles' := level.tiles.set p.1.toNat row' with htilesdef
  have hset : setTileAt level p t = some { level with tiles := tiles' } := by
    simp only [setTileAt, pyGetL, pySetL, Option.bind_eq_bind]
    rw [if_pos ⟨h1, h2⟩, hrow]
    simp only [Option.some_bind]
    rw [if_pos ⟨h3, by omega⟩]
    simp only [Option.some_bind]
    rw [if_pos ⟨h1, h2⟩]
    simp only [Option.some_bind]
  have hlen' : tiles'.length = level.tiles.length := List.length_set _ _ _
  have hrplen : row'.length = row.length := List.length_set _ _ _
  have hsq' : squareLevel { level with tiles := tiles' } := by
    intro r hr
    simp only at hr ⊢
    rw [hlen']
    rcases List.mem_or_eq_of_mem_set hr with hr | hr
    · exact hsq r hr
    · rw [hr, hrplen, hrlen]
  refine ⟨_, hset, hlen', hsq', rfl, ?_⟩
  intro q
  by_cases hq : q = p
  · subst hq
    rw [if_pos rfl]
    simp only [tileAtS, hlen']
    rw [if_pos ⟨h1, h2, h3⟩]
    have : tiles'.get? q.1.toNat = some row' := by
      rw [htilesdef]
      rw [List.get?_set_eq, hrow]
      rfl
    rw [this]
    simp only
    rw [if_pos (by omega)]
    rw [hrowpdef, List.get?_set_eq, List.get?_eq_get hlt2]
    rfl
  · rw [if_neg hq]
    by_cases hb : 0 ≤ q.1 ∧ q.1 < (level.tiles.length : Int) ∧ 0 ≤ q.2
    · by_cases hx : q.1 = p.1
      · have hy : q.2 ≠ p.2 := by
          intro hc
          exact hq (Prod.ext hx hc)
        have hxe : q.1.toNat = p.1.toNat := by rw [hx]
        simp only [tileAtS, hlen']
        rw [if_pos hb, if_pos hb, hxe]
        have hget' : tiles'.get? p.1.toNat = some row' := by
          rw [htilesdef, List.get?_set_eq, hrow]
          rfl
        rw [hget', hrow]
        simp only [hrplen]
        by_cases hyr : q.2 < (row.length : Int)
        · rw [if_pos hyr, if_pos hyr]
          rw [hrowpdef]
          apply List.get?_set_ne
          omega
        · rw [if_neg hyr, if_neg hyr]
      · simp only [tileAtS, hlen']
        by_cases hb0 : 0 ≤ q.1 ∧ q.1 < (level.tiles.length : Int) ∧ 0 ≤ q.2
        · rw [if_pos hb0, if_pos hb0]
          have : tiles'.get? q.1.toNat = level.tiles.get? q.1.toNat := by
            rw [htilesdef]
            apply List.get?_set_ne
            omega
          rw [this]
        · rw [if_neg hb0, if_neg hb0]
    · simp only [tileAtS, hlen']
      rw [if_neg hb, if_neg hb]

lemma fillCol_ok (ty : TileType) :
    ∀ (h : Nat) (level : Level) (x y : Int), squareLevel level →
      0 ≤ x → x < (level.tiles.length : Int) →
      0 ≤ y → y + h ≤ (level.tiles.length : Int) →
      ∃ lvl', fillCol level x y h ty = .ok lvl' ∧
        lvl'.tiles.length = level.tiles.length ∧ squareLevel lvl' ∧
        lvl'.entities = level.entities ∧
        ∀ q : Point, tileAtS lvl' q =
          if q.1 = x ∧ y ≤ q.2 ∧ q.2 < y + h then some (new_tile ty)
          else tileAtS level q
  | 0, level, x, y, hsq, _, _, _, _ => by
      refine ⟨level, rfl, rfl, hsq, rfl, ?_⟩
      intro q
      rw [if_neg]
      rintro ⟨_, hy, hy'⟩
      simp only [Nat.cast_zero] at hy'
      omega
  | h + 1, level, x, y, hsq, hx1, hx2, hy1, hy2 => by
      obtain ⟨lvl1, hset, hlen1, hsq1, hent1, htile1⟩ :=
        setTileAt_inGrid (x, y) (new_tile ty) hsq hx1 hx2 hy1 (by push_cast at hy2 ⊢; omega)
      obtain ⟨lvl', hrec, hlen', hsq', hent', htile'⟩ :=
        fillCol_ok ty h lvl1 x (y + 1) hsq1 hx1 (by rw [hlen1]; exact hx2)
          (by omega) (by rw [hlen1]; push_cast at hy2 ⊢; omega)
      refine ⟨lvl', ?_, by rw [hlen', hlen1], hsq', by rw [hent', hent1], ?_⟩
      · simp only [fillCol, hset, orIndexError, Except.bind]
        exact hrec
      · intro q
        rw [htile' q, htile1 q]
        by_cases hc : q.1 = x ∧ y ≤ q.2 ∧ q.2 < y + (h + 1 : Nat)
        · rw [if_pos hc]
          by_cases hc2 : q.1 = x ∧ y + 1 ≤ q.2 ∧ q.2 < y + 1 + (h : Nat)
          · rw [if_pos hc2]
          · have hq : q = (x, y) := by
              obtain ⟨ha, hb, hcc⟩ := hc
              push_cast at hcc
              refine Prod.ext ha ?_
              show q.2 = y
              by_contra hne
              apply hc2
              exact ⟨ha, by omega, by omega⟩
            rw [if_neg hc2, if_pos hq]
        · have hnc2 : ¬(q.1 = x ∧ y + 1 ≤ q.2 ∧ q.2 < y + 1 + (h : Nat)) := by
            rintro ⟨ha, hb, hcc⟩
            apply hc
            push_cast at hcc ⊢
            exact ⟨ha, by omega, by omega⟩
          have hne : q ≠ (x, y) := by
            intro hq
            apply hc
            rw [hq]
            exact ⟨rfl, le_refl y, by push_cast; omega⟩
          rw [if_neg hc, if_neg hnc2, if_neg hne]

lemma fill_rect_ok (ty : TileType) :
    ∀ (w : Nat) (level : Level) (x y : Int) (h : Nat), squareLevel level →
      0 ≤ x → x + w ≤ (level.tiles.length : Int) →
      0 ≤ y → y + h ≤ (level.tiles.length : Int) →
      ∃ lvl', fill_rect level (x, y) w h ty = .ok lvl' ∧
        lvl'.tiles.length = level.tiles.length ∧ squareLevel lvl' ∧
        lvl'.entities = level.entities ∧
        ∀ q : Point, tileAtS lvl' q =
          if inRect q x y w h then some (new_tile ty) else tileAtS level q
  | 0, level, x, y, h, hsq, _, _, _, _ => by
      refine ⟨level, rfl, rfl, hsq, rfl, ?_⟩
      intro q
      rw [if_neg]
      rintro ⟨ha, hb, _⟩
      simp only [Nat.cast_zero] at hb
      omega
  | w + 1, level, x, y, h, hsq, hx1, hx2, hy1, hy2 => by
      obtain ⟨lvl1, hcol, hlen1, hsq1, hent1, htile1⟩ :=
        fillCol_ok ty h level x y hsq hx1 (by push_cast at hx2 ⊢; omega) hy1 hy2
      obtain ⟨lvl', hrec, hlen', hsq', hent', htile'⟩ :=
        fill_rect_ok ty w lvl1 (x + 1) y h hsq1 (by omega)
          (by rw [hlen1]; push_cast at hx2 ⊢; omega)
          hy1 (by rw [hlen1]; exact hy2)
      refine ⟨lvl', ?_, by rw [hlen', hlen1], hsq', by rw [hent', hent1], ?_⟩
      · simp only [fill_rect, hcol, Except.bind]
        exact hrec
      · intro q
        rw [htile' q, htile1 q]
        by_cases hc : inRect q x y (w + 1) h
        · rw [if_pos hc]
          by_cases hc2 : inRect q (x + 1) y w h
          · rw [if_pos hc2]
          · have hcol_c : q.1 = x ∧ y ≤ q.2 ∧ q.2 < y + h := by
              obtain ⟨ha, hb, hcc, hd⟩ := hc
              unfold inRect at hc2
              push_cast at hb
              refine ⟨?_, hcc, hd⟩
              by_contra hne
              apply hc2
              exact ⟨by omega, by push_cast; omega, hcc, hd⟩
            rw [if_neg hc2, if_pos hcol_c]
        · have hnc2 : ¬inRect q (x + 1) y w h := by
            rintro ⟨ha, hb, hcc, hd⟩
            apply hc
            push_cast at hb ⊢
            exact ⟨by omega, by omega, hcc, hd⟩
          have hncol : ¬(q.1 = x ∧ y ≤ q.2 ∧ q.2 < y + h) := by
            rintro ⟨ha, hb, hcc⟩
            apply hc
            push_cast
            exact ⟨by omega, by omega, hb, hcc⟩
          rw [if_neg hc, if_neg hnc2, if_neg hncol]

/-- The type of the tile at a point (strict lookup), used in statements. -/
def tileTypeAtS (level : Level) (p : Point) : Option TileType :=
  (tileAtS level p).map Tile.type

lemma scanCol_ok :
    ∀ (h : Nat) (level : Level) (x y : Int), squareLevel level →
      0 ≤ x → x < (level.tiles.length : Int) →
      0 ≤ y → y + h ≤ (level.tiles.length : Int) →
      ∃ b, scanCol level x y h = .ok b ∧
        (b = true ↔ ∀ j : Nat, j < h →
          tileTypeAtS level (x, y + j) = some .solidEarth)
  | 0, level, x, y, _, _, _, _, _ => by
      refine ⟨true, rfl, ?_⟩
      constructor
      · intro _ j hj
        omega
      · intro _
        rfl
  | h + 1, level, x, y, hsq, hx1, hx2, hy1, hy2 => by
      obtain ⟨t, htile, htileS⟩ :=
        inGrid_tileAt (x, y) hsq hx1 hx2 hy1 (by push_cast at hy2 ⊢; omega)
      by_cases hts : t.type = .solidEarth
      · obtain ⟨b, hrec, hiff⟩ :=
          scanCol_ok h level x (y + 1) hsq hx1 hx2 (by omega)
            (by push_cast at hy2 ⊢; omega)
        refine ⟨b, ?_, ?_⟩
        · simp only [scanCol, htile, hts]
          simp only [ne_eq, not_true_eq_false, if_false]
          exact hrec
        · rw [hiff]
          constructor
          · intro hall j hj
            match j with
            | 0 =>
                simp [tileTypeAtS, htileS, hts]
            | j + 1 =>
                have := hall j (by omega)
                have hpt : y + 1 + (j : Int) = y + ((j + 1 : Nat) : Int) := by
                  push_cast
                  ring
                rw [hpt] at this
                exact this
          · intro hall j hj
            have := hall (j + 1) (by omega)
            have hpt : y + 1 + (j : Int) = y + ((j + 1 : Nat) : Int) := by
              push_cast
              ring
            rw [hpt]
            exact this
      · refine ⟨false, ?_, ?_⟩
        · simp [scanCol, htile, hts]
        · constructor
          · intro hc
            exact absurd hc (by simp)
          · intro hall
            have := hall 0 (by omega)
            simp [tileTypeAtS, htileS] at this
            exact absurd this hts

lemma scanRect_ok :
    ∀ (w : Nat) (level : Level) (x y : Int) (h : Nat), squareLevel level →
      0 ≤ x → x + w ≤ (level.tiles.length : Int) →
      0 ≤ y → y + h ≤ (level.tiles.length : Int) →
      ∃ b, scanRect level x y w h = .ok b ∧
        (b = true ↔ ∀ q : Point, inRect q x y w h →
          tileTypeAtS level q = some .solidEarth)
  | 0, level, x, y, h, _, _, _, _, _ => by
      refine ⟨true, rfl, ?_⟩
      constructor
      · rintro _ q ⟨ha, hb, _⟩
        simp only [Nat.cast_zero] at hb
        omega
      · intro _
        rfl
  | w + 1, level, x, y, h, hsq, hx1, hx2, hy1, hy2 => by
      obtain ⟨b1, hcol, hiff1⟩ :=
        scanCol_ok h level x y hsq hx1 (by push_cast at hx2 ⊢; omega) hy1 hy2
      by_cases hb1 : b1 = true
      · subst hb1
        obtain ⟨b, hrec, hiff⟩ :=
          scanRect_ok w level (x + 1) y h hsq (by omega)
            (by push_cast at hx2 ⊢; omega) hy1 hy2
        refine ⟨b, ?_, ?_⟩
        · simp only [scanRect, hcol, Except.bind, if_true]
          exact hrec
        · rw [hiff]
          constructor
          · intro hall q hq
            obtain ⟨ha, hb, hc, hd⟩ := hq
            by_cases hqx : q.1 = x
            · have hcol_all := hiff1.1 rfl
              have hj : q.2 = y + ((q.2 - y).toNat : Int) := by omega
              have := hcol_all (q.2 - y).toNat (by omega)
              have hq_eq : q = (x, y + ((q.2 - y).toNat : Int)) :=
                Prod.ext hqx (by omega)
              rw [hq_eq]
              exact this
            · apply hall
              push_cast at hb
              exact ⟨by omega, by push_cast; omega, hc, hd⟩
          · intro hall q hq
            apply hall
            obtain ⟨ha, hb, hc, hd⟩ := hq
            push_cast at hb ⊢
            exact ⟨by omega, by omega, hc, hd⟩
      · have hb1f : b1 = false := by
          rcases b1 with _ | _
          · rfl
          · exact absurd rfl hb1
        subst hb1f
        refine ⟨false, ?_, ?_⟩
        · simp only [scanRect, hcol, Except.bind]
          rfl
        · constructor
          · intro hc
            exact absurd hc (by simp)
          · intro hall
            have hcol_all : ∀ j : Nat, j < h →
                tileTypeAtS level (x, y + j) = some .solidEarth := by
              intro j hj
              apply hall
              exact ⟨by omega, by push_cast; omega, by omega, by omega⟩
            exact absurd (hiff1.2 hcol_all) (by simp)

lemma point_within_iff {len : Int} {p : Point} :
    point_within len p = true ↔
      0 ≤ p.1 ∧ p.1 < len ∧ 0 ≤ p.2 ∧ p.2 < len := by
  simp [point_within, Bool.and_eq_true, decide_eq_true_iff, and_assoc]

lemma check_fill_rect_eq_of_bounds_fail {level : Level} {point : Point}
    {width height : Nat} (type_ : TileType)
    (h : (!point_within (level.tiles.length : Int) point ||
      !point_within (level.tiles.length : Int)
        (point.1 + width, point.2 + height)) = true) :
    check_fill_rect level point width height type_ = .ok (false, level) := by
  unfold check_fill_rect
  rw [if_pos h]

lemma check_fill_rect_eq_of_bounds_ok {level : Level} {point : Point}
    {width height : Nat} (type_ : TileType)
    (h : (!point_within (level.tiles.length : Int) point ||
      !point_within (level.tiles.length : Int)
        (point.1 + width, point.2 + height)) = false) :
    check_fill_rect level point width height type_ =
      (do
        let b ← scanRect level point.1 point.2 width height
        if b then do
          let level' ← fill_rect level point width height type_
          .ok (true, level')
        else
          .ok (false, level)) := by
  unfold check_fill_rect
  rw [if_neg (by rw [h]; exact Bool.false_ne_true)]

/-- Full characterisation of `check_fill_rect`, shared by several
theorems below. -/
lemma check_fill_rect_spec (level : Level) (point : Point)
    (width height : Nat) (type_ : TileType) (hsq : squareLevel level) :
    ((∃ q : Point, inRect q point.1 point.2 width height ∧
        ¬(0 ≤ q.1 ∧ q.1 < (level.tiles.length : Int) ∧ 0 ≤ q.2 ∧
          q.2 < (level.tiles.length : Int))) →
      check_fill_rect level point width height type_ = .ok (false, level)) ∧
    ((∃ q : Point, ∃ t : Tile, inRect q point.1 point.2 width height ∧
        tileAtS level q = some t ∧ t.type ≠ .solidEarth) →
      check_fill_rect level point width height type_ = .ok (false, level)) ∧
    (∀ lvl', check_fill_rect level point width height type_ = .ok (true, lvl') →
      (∀ q : Point, inRect q point.1 point.2 width height →
        tileTypeAtS level q = some .solidEarth) ∧
      lvl'.entities = level.entities ∧ squareLevel lvl' ∧
      (∀ q : Point, tileAtS lvl' q =
        if inRect q point.1 point.2 width height then some (new_tile type_)
        else tileAtS level q) ∧
      lvl'.tiles.length = level.tiles.length ∧
      (0 ≤ point.1 ∧ point.1 + width < (level.tiles.length : Int) ∧
        0 ≤ point.2 ∧ point.2 + height < (level.tiles.length : Int))) := by
  by_cases hbc : (!point_within (level.tiles.length : Int) point ||
      !point_within (level.tiles.length : Int)
        (point.1 + width, point.2 + height)) = true
  · have hres := check_fill_rect_eq_of_bounds_fail type_ hbc
    exact ⟨fun _ => hres, fun _ => hres, fun lvl' hl => by
      rw [hres] at hl
      exact absurd (Prod.ext_iff.1 (Except.ok.inj hl)).1 (by simp)⟩
  · have hbc' : (!point_within (level.tiles.length : Int) point ||
        !point_within (level.tiles.length : Int)
          (point.1 + width, point.2 + height)) = false := by
      rcases hb : (!point_within (level.tiles.length : Int) point ||
        !point_within (level.tiles.length : Int)
          (point.1 + width, point.2 + height)) with _ | _
      · rfl
      · exact absurd hb hbc
    have hpw1 : point_within (level.tiles.length : Int) point = true := by
      rcases Bool.or_eq_false_iff.1 hbc' with ⟨h1, _⟩
      rcases hp : point_within (level.tiles.length : Int) point with _ | _
      · rw [hp] at h1
        simp at h1
      · rfl
    have hpw2 : point_within (level.tiles.length : Int)
        (point.1 + width, point.2 + height) = true := by
      rcases Bool.or_eq_false_iff.1 hbc' with ⟨_, h2⟩
      rcases hp : point_within (level.tiles.length : Int)
          (point.1 + width, point.2 + height) with _ | _
      · rw [hp] at h2
        simp at h2
      · rfl
    obtain ⟨hx0, hx1, hy0, hy1⟩ := point_within_iff.1 hpw1
    obtain ⟨hx0', hx1', hy0', hy1'⟩ := point_within_iff.1 hpw2
    simp only at hx0' hx1' hy0' hy1'
    have hglemma : ∀ q : Point, inRect q point.1 point.2 width height →
        0 ≤ q.1 ∧ q.1 < (level.tiles.length : Int) ∧ 0 ≤ q.2 ∧
          q.2 < (level.tiles.length : Int) := by
      rintro q ⟨ha, hb, hc, hd⟩
      refine ⟨by omega, by omega, by omega, by omega⟩
    obtain ⟨b, hscan, hiff⟩ := scanRect_ok width level point.1 point.2 height hsq
      hx0 (by omega) hy0 (by omega)
    have hred := check_fill_rect_eq_of_bounds_ok type_ hbc'
    refine ⟨?_, ?_, ?_⟩
    · rintro ⟨q, hq, hout⟩
      exact absurd (hglemma q hq) hout
    · rintro ⟨q, t, hq, ht, hts⟩
      have hbf : b = false := by
        rcases hb : b with _ | _
        · rfl
        · have := hiff.1 hb q hq
          rw [tileTypeAtS, ht] at this
          exact absurd (Option.some.inj this) hts
      subst hbf
      rw [hred, hscan]
      rfl
    · intro lvl' hl
      rcases hb : b with _ | _
      · subst hb
        rw [hred, hscan] at hl
        exact absurd (Prod.ext_iff.1 (Except.ok.inj hl)).1 (by simp)
      · subst hb
        obtain ⟨lvl2, hfill, hlen2, hsq2, hent2, htile2⟩ :=
          fill_rect_ok type_ width level point.1 point.2 height hsq
            hx0 (by omega) hy0 (by omega)
        rw [hred, hscan] at hl
        have hpoint : (point.1, point.2) = point := rfl
        rw [hpoint] at hfill
        rw [hfill] at hl
        have hl2 : (Except.ok ((true : Bool), lvl2) : Except PyErr (Bool × Level)) =
            .ok (true, lvl') := hl
        have hlvl : lvl' = lvl2 := by
          have := Except.ok.inj hl2
          exact ((Prod.ext_iff.1 this).2).symm
        subst hlvl
        exact ⟨hiff.1 rfl, hent2, hsq2, htile2, hlen2,
          hx0, by omega, hy0, by omega⟩

/-- C5: `check_fill_rect` is atomic.  If any cell of the rectangle lies
outside the grid, or any tile inside the rectangle is not solid earth,
the call returns `False` with the level value unchanged; and whenever it
returns `True`, every tile of the rectangle was solid earth beforehand,
the whole rectangle is now filled with fresh tiles of the requested type,
and every tile outside the rectangle (and the entity list) is unchanged. -/
theorem check_fill_rect_atomic (level : Level) (point : Point)
    (width height : Nat) (type_ : TileType) (hsq : squareLevel level) :
    ((∃ q : Point, inRect q point.1 point.2 width height ∧
        ¬(0 ≤ q.1 ∧ q.1 < (level.tiles.length : Int) ∧ 0 ≤ q.2 ∧
          q.2 < (level.tiles.length : Int))) →
      check_fill_rect level point width height type_ = .ok (false, level)) ∧
    ((∃ q : Point, ∃ t : Tile, inRect q point.1 point.2 width height ∧
        tileAtS level q = some t ∧ t.type ≠ .solidEarth) →
      check_fill_rect level point width height type_ = .ok (false, level)) ∧
    (∀ lvl', check_fill_rect level point width height type_ = .ok (true, lvl') →
      (∀ q : Point, inRect q point.1 point.2 width height →
        tileTypeAtS level q = some .solidEarth) ∧
      lvl'.entities = level.entities ∧ squareLevel lvl' ∧
      (∀ q : Point, tileAtS lvl' q =
        if inRect q point.1 point.2 width height then some (new_tile type_)
        else tileAtS level q)) := by
  obtain ⟨h1, h2, h3⟩ := check_fill_rect_spec level point width height type_ hsq
  refine ⟨h1, h2, fun lvl' hl => ?_⟩
  obtain ⟨ha, hb, hc, hd, _, _⟩ := h3 lvl' hl
  exact ⟨ha, hb, hc, hd⟩

/-- A 4×4 all-solid-earth level used as the `check_fill_rect` witness. -/
def cfrLevel : Level :=
  { tiles := List.replicate 4 (List.replicate 4 (new_tile .solidEarth)),
    entities := [] }

/-- Witness for C5 at a concrete 4×4 level, rectangle `(1,1)`–`(2,2)`. -/
theorem check_fill_rect_atomic_witness :
    squareLevel cfrLevel ∧
    (((∃ q : Point, inRect q (1 : Int) (1 : Int) 2 2 ∧
        ¬(0 ≤ q.1 ∧ q.1 < (cfrLevel.tiles.length : Int) ∧ 0 ≤ q.2 ∧
          q.2 < (cfrLevel.tiles.length : Int))) →
      check_fill_rect cfrLevel (1, 1) 2 2 .wall = .ok (false, cfrLevel)) ∧
    ((∃ q : Point, ∃ t : Tile, inRect q (1 : Int) (1 : Int) 2 2 ∧
        tileAtS cfrLevel q = some t ∧ t.type ≠ .solidEarth) →
      check_fill_rect cfrLevel (1, 1) 2 2 .wall = .ok (false, cfrLevel)) ∧
    (∀ lvl', check_fill_rect cfrLevel (1, 1) 2 2 .wall = .ok (true, lvl') →
      (∀ q : Point, inRect q (1 : Int) (1 : Int) 2 2 →
        tileTypeAtS cfrLevel q = some .solidEarth) ∧
      lvl'.entities = cfrLevel.entities ∧ squareLevel lvl' ∧
      (∀ q : Point, tileAtS lvl' q =
        if inRect q (1 : Int) (1 : Int) 2 2 then some (new_tile .wall)
        else tileAtS cfrLevel q))) :=
  ⟨by decide, check_fill_rect_atomic cfrLevel (1, 1) 2 2 .wall (by decide)⟩

lemma check_fill_rect_false_id {level lvl1 : Level} {point : Point}
    {width height : Nat} {type_ : TileType} (hsq : squareLevel level)
    (h : check_fill_rect level point width height type_ = .ok (false, lvl1)) :
    lvl1 = level := by
  by_cases hbc : (!point_within (level.tiles.length : Int) point ||
      !point_within (level.tiles.length : Int)
        (point.1 + width, point.2 + height)) = true
  · rw [check_fill_rect_eq_of_bounds_fail type_ hbc] at h
    exact ((Prod.ext_iff.1 (Except.ok.inj h)).2).symm
  · have hbc' : (!point_within (level.tiles.length : Int) point ||
        !point_within (level.tiles.length : Int)
          (point.1 + width, point.2 + height)) = false := by
      rcases hb : (!point_within (level.tiles.length : Int) point ||
        !point_within (level.tiles.length : Int)
          (point.1 + width, point.2 + height)) with _ | _
      · rfl
      · exact absurd hb hbc
    have hpw1 := (Bool.or_eq_false_iff.1 hbc').1
    have hpw2 := (Bool.or_eq_false_iff.1 hbc').2
    simp only [Bool.not_eq_false'] at hpw1 hpw2
    obtain ⟨hx0, hx1, hy0, hy1⟩ := point_within_iff.1 hpw1
    obtain ⟨hx0', hx1', hy0', hy1'⟩ := point_within_iff.1 hpw2
    simp only at hx0' hx1' hy0' hy1'
    obtain ⟨b, hscan, _⟩ := scanRect_ok width level point.1 point.2 height hsq
      hx0 (by omega) hy0 (by omega)
    rw [check_fill_rect_eq_of_bounds_ok type_ hbc', hscan] at h
    rcases hb : b with _ | _
    · subst hb
      have h2 : (Except.ok ((false : Bool), level) : Except PyErr (Bool × Level)) =
          .ok (false, lvl1) := h
      exact ((Prod.ext_iff.1 (Except.ok.inj h2)).2).symm
    · subst hb
      obtain ⟨lvl2, hfill, _, _, _, _⟩ :=
        fill_rect_ok type_ width level point.1 point.2 height hsq
          hx0 (by omega) hy0 (by omega)
      have hpoint : ((point.1, point.2) : Point) = point := rfl
      rw [hpoint] at hfill
      rw [hfill] at h
      have h2 : (Except.ok ((true : Bool), lvl2) : Except PyErr (Bool × Level)) =
          .ok (false, lvl1) := h
      exact absurd (Prod.ext_iff.1 (Except.ok.inj h2)).1 (by simp)

lemma success_block_preserves {level : Level} (hsq : squareLevel level)
    (fx fy : Int) (fw fh : Nat) (sx sy : Int) (sw sh : Nat) (x y : Int)
    (p : Point)
    (hf1 : 0 ≤ fx) (hf2 : fx + fw ≤ (level.tiles.length : Int))
    (hf3 : 0 ≤ fy) (hf4 : fy + fh ≤ (level.tiles.length : Int))
    (hs1 : 0 ≤ sx) (hs2 : sx + sw ≤ (level.tiles.length : Int))
    (hs3 : 0 ≤ sy) (hs4 : sy + sh ≤ (level.tiles.length : Int))
    (hx1 : 0 ≤ x) (hx2 : x < (level.tiles.length : Int))
    (hy1 : 0 ≤ y) (hy2 : y < (level.tiles.length : Int))
    (hp_f : ¬inRect p fx fy fw fh) (hp_s : ¬inRect p sx sy sw sh)
    (hp_xy : p ≠ (x, y)) (b : Bool) (lvl' : Level)
    (hblock : (do
      let level ← fill_rect level (fx, fy) fw fh .floor
      let level ← fill_rect level (sx, sy) sw sh .wall
      let level ← orIndexError (setTileAt level (x, y) (new_tile .closedDoor))
      return ((true : Bool), level) : Except PyErr (Bool × Level)) = .ok (b, lvl')) :
    tileAtS lvl' p = tileAtS level p := by
  obtain ⟨lvlF, hfillF, hlenF, hsqF, _, htileF⟩ :=
    fill_rect_ok .floor fw level fx fy fh hsq hf1 hf2 hf3 hf4
  rw [hfillF] at hblock
  have hblock2 : (do
      let level ← fill_rect lvlF (sx, sy) sw sh .wall
      let level ← orIndexError (setTileAt level (x, y) (new_tile .closedDoor))
      return ((true : Bool), level) : Except PyErr (Bool × Level)) = .ok (b, lvl') :=
    hblock
  obtain ⟨lvlS, hfillS, hlenS, hsqS, _, htileS2⟩ :=
    fill_rect_ok .wall sw lvlF sx sy sh hsqF hs1 (by rw [hlenF]; exact hs2)
      hs3 (by rw [hlenF]; exact hs4)
  rw [hfillS] at hblock2
  have hblock3 : (do
      let level ← orIndexError (setTileAt lvlS (x, y) (new_tile .closedDoor))
      return ((true : Bool), level) : Except PyErr (Bool × Level)) = .ok (b, lvl') :=
    hblock2
  obtain ⟨lvlD, hsetD, _, _, _, htileD⟩ :=
    setTileAt_inGrid (x, y) (new_tile .closedDoor) hsqS
      hx1 (by rw [hlenS, hlenF]; exact hx2) hy1 (by rw [hlenS, hlenF]; exact hy2)
  rw [hsetD] at hblock3
  have hblock4 : (Except.ok ((true : Bool), lvlD) : Except PyErr (Bool × Level)) =
      .ok (b, lvl') := hblock3
  have hlvl : lvl' = lvlD := ((Prod.ext_iff.1 (Except.ok.inj hblock4)).2).symm
  subst hlvl
  rw [htileD p, if_neg hp_xy, htileS2 p, if_neg hp_s, htileF p, if_neg hp_f]

/-- One direction block of `make_room`/`make_corridor` as a reusable
term: check the footprint, and on success carve floor, write the
door-side wall strip and place the door; otherwise defer to the next
block.  `make_room`/`make_corridor` are definitionally the four-fold
nesting of this shape. -/
def placeStage (cpt : Point) (cw ch : Nat) (fpt : Point) (fw fh : Nat)
    (spt : Point) (sw sh : Nat) (door : Point)
    (rest : Level → Except PyErr (Bool × Level)) (level : Level) :
    Except PyErr (Bool × Level) := do
  let (c, level) ← check_fill_rect level cpt cw ch .wall
  if c then do
    let level ← fill_rect level fpt fw fh .floor
    let level ← fill_rect level spt sw sh .wall
    let level ← orIndexError (setTileAt level door (new_tile .closedDoor))
    return (true, level)
  else
    rest level

lemma placeStage_preserves {N : Nat} {p : Point} {b : Bool} {lvl' : Level}
    (cpt : Point) (cw ch : Nat) (fpt : Point) (fw fh : Nat)
    (spt : Point) (sw sh : Nat) (door : Point)
    (rest : Level → Except PyErr (Bool × Level)) (level : Level)
    (hsq : squareLevel level) (hN : level.tiles.length = N)
    (hdoor : tileTypeAtS level p = some .closedDoor)
    (hfb : 0 ≤ cpt.1 → cpt.1 + cw < (N : Int) → 0 ≤ cpt.2 → cpt.2 + ch < (N : Int) →
      0 ≤ fpt.1 ∧ fpt.1 + fw ≤ (N : Int) ∧ 0 ≤ fpt.2 ∧ fpt.2 + fh ≤ (N : Int))
    (hsb : 0 ≤ cpt.1 → cpt.1 + cw < (N : Int) → 0 ≤ cpt.2 → cpt.2 + ch < (N : Int) →
      0 ≤ spt.1 ∧ spt.1 + sw ≤ (N : Int) ∧ 0 ≤ spt.2 ∧ spt.2 + sh ≤ (N : Int))
    (hdb : 0 ≤ door.1 ∧ door.1 < (N : Int) ∧ 0 ≤ door.2 ∧ door.2 < (N : Int))
    (hfsub : ∀ q : Point, inRect q fpt.1 fpt.2 fw fh → inRect q cpt.1 cpt.2 cw ch)
    (hps : ¬inRect p spt.1 spt.2 sw sh)
    (hpd : p ≠ door)
    (hrest : ∀ lvl, squareLevel lvl → lvl.tiles.length = N →
      tileTypeAtS lvl p = some .closedDoor →
      rest lvl = .ok (b, lvl') → tileTypeAtS lvl' p = some .closedDoor)
    (hstage : placeStage cpt cw ch fpt fw fh spt sw sh door rest level =
      .ok (b, lvl')) :
    tileTypeAtS lvl' p = some .closedDoor := by
  unfold placeStage at hstage
  rcases hck : check_fill_rect level cpt cw ch .wall with e | ⟨c, lvl1⟩
  · rw [hck] at hstage
    have hfalse : (Except.error e : Except PyErr (Bool × Level)) = .ok (b, lvl') :=
      hstage
    exact absurd hfalse (by simp)
  · rw [hck] at hstage
    rcases hc : c with _ | _
    · subst hc
      have hid : lvl1 = level := check_fill_rect_false_id hsq hck
      subst hid
      have hstage2 : rest lvl1 = .ok (b, lvl') := hstage
      exact hrest lvl1 hsq hN hdoor hstage2
    · subst hc
      obtain ⟨hall, hent1, hsq1, htile1, hlen1, hbounds⟩ :=
        (check_fill_rect_spec level cpt cw ch .wall hsq).2.2 lvl1 hck
      rw [hN] at hbounds
      obtain ⟨hc1, hc2, hc3, hc4⟩ := hbounds
      obtain ⟨hf1, hf2, hf3, hf4⟩ := hfb hc1 hc2 hc3 hc4
      obtain ⟨hs1, hs2, hs3, hs4⟩ := hsb hc1 hc2 hc3 hc4
      obtain ⟨hd1, hd2, hd3, hd4⟩ := hdb
      have hpcheck : ¬inRect p cpt.1 cpt.2 cw ch := by
        intro hin
        have := hall p hin
        rw [hdoor] at this
        exact absurd (Option.some.inj this) (by simp)
      have hdoor1 : tileTypeAtS lvl1 p = some .closedDoor := by
        unfold tileTypeAtS
        rw [htile1 p, if_neg hpcheck]
        exact hdoor
      have hstage2 : (do
          let level ← fill_rect lvl1 fpt fw fh .floor
          let level ← fill_rect level spt sw sh .wall
          let level ← orIndexError (setTileAt level door (new_tile .closedDoor))
          return ((true : Bool), level) : Except PyErr (Bool × Level)) =
          .ok (b, lvl') := hstage
      have hNlvl1 : (lvl1.tiles.length : Int) = (N : Int) := by
        rw [hlen1, hN]
      have hpres := success_block_preserves hsq1 fpt.1 fpt.2 fw fh spt.1 spt.2
        sw sh door.1 door.2 p
        hf1 (by rw [hNlvl1]; exact hf2) hf3 (by rw [hNlvl1]; exact hf4)
        hs1 (by rw [hNlvl1]; exact hs2) hs3 (by rw [hNlvl1]; exact hs4)
        hd1 (by rw [hNlvl1]; exact hd2) hd3 (by rw [hNlvl1]; exact hd4)
        (fun hin => hpcheck (hfsub p hin)) hps
        (by intro hq; exact hpd hq) b lvl' hstage2
      unfold tileTypeAtS
      rw [hpres]
      exact hdoor1

lemma make_room_preserves_door {level lvl' : Level} {x y : Int} {p : Point}
    {width height : Nat} {b : Bool}
    (hsq : squareLevel level)
    (hwx1 : 0 ≤ x) (hwx2 : x < (level.tiles.length : Int))
    (hwy1 : 0 ≤ y) (hwy2 : y < (level.tiles.length : Int))
    (hdoor : tileTypeAtS level p = some .closedDoor)
    (hpx : p.1 ≠ x) (hpy : p.2 ≠ y)
    (hmk : make_room level (x, y) width height = .ok (b, lvl')) :
    tileTypeAtS lvl' p = some .closedDoor := by
  have hpd : p ≠ (x, y) := fun h => hpx (congrArg Prod.fst h)
  have hmk' : placeStage (x - ((width / 2 : Nat) : Int) - 1, y + 1)
      (width + 2) (height + 1)
      (x - ((width / 2 : Nat) : Int), y + 1) width height
      (x - ((width / 2 : Nat) : Int) - 1, y) (width + 2) 1 (x, y)
      (placeStage (x - ((width / 2 : Nat) : Int) - 1, y - height - 1)
        (width + 2) (height + 1)
        (x - ((width / 2 : Nat) : Int), y - height) width height
        (x - ((width / 2 : Nat) : Int) - 1, y) (width + 2) 1 (x, y)
        (placeStage (x + 1, y - ((height / 2 : Nat) : Int) - 1)
          (width + 1) (height + 2)
          (x + 1, y - ((height / 2 : Nat) : Int)) width height
          (x, y - ((height / 2 : Nat) : Int) - 1) 1 (height + 2) (x, y)
          (placeStage (x - width - 1, y - ((height / 2 : Nat) : Int) - 1)
            (width + 1) (height + 2)
            (x - width, y - ((height / 2 : Nat) : Int)) width height
            (x, y - ((height / 2 : Nat) : Int) - 1) 1 (height + 2) (x, y)
            (fun level => .ok (false, level)))))
      level = .ok (b, lvl') := hmk
  refine placeStage_preserves _ _ _ _ _ _ _ _ _ _ _ _ hsq rfl hdoor
    ?_ ?_ ?_ ?_ ?_ hpd ?_ hmk'
  · intro h1 h2 h3 h4
    simp only at h1 h2 h3 h4 ⊢
    push_cast at h2 h4 ⊢
    refine ⟨by omega, by omega, by omega, by omega⟩
  · intro h1 h2 h3 h4
    simp only at h1 h2 h3 h4 ⊢
    push_cast at h2 h4 ⊢
    refine ⟨by omega, by omega, by omega, by omega⟩
  · exact ⟨hwx1, hwx2, hwy1, hwy2⟩
  · rintro q ⟨ha, hb, hc, hd⟩
    simp only at ha hb hc hd ⊢
    push_cast at hb hd ⊢
    exact ⟨by omega, by omega, by omega, by omega⟩
  · rintro ⟨ha, hb, hc, hd⟩
    simp only at ha hb hc hd
    push_cast at hd
    omega
  · intro lvl2 hsq2 hN2 hd2 heq2
    refine placeStage_preserves _ _ _ _ _ _ _ _ _ _ _ _ hsq2 hN2 hd2
      ?_ ?_ ?_ ?_ ?_ hpd ?_ heq2
    · intro h1 h2 h3 h4
      simp only at h1 h2 h3 h4 ⊢
      push_cast at h2 h4 ⊢
      refine ⟨by omega, by omega, by omega, by omega⟩
    · intro h1 h2 h3 h4
      simp only at h1 h2 h3 h4 ⊢
      push_cast at h2 h4 ⊢
      refine ⟨by omega, by omega, by omega, by omega⟩
    · exact ⟨hwx1, hwx2, hwy1, hwy2⟩
    · rintro q ⟨ha, hb, hc, hd⟩
      simp only at ha hb hc hd ⊢
      push_cast at hb hd ⊢
      exact ⟨by omega, by omega, by omega, by omega⟩
    · rintro ⟨ha, hb, hc, hd⟩
      simp only at ha hb hc hd
      push_cast at hd
      omega
    · intro lvl3 hsq3 hN3 hd3 heq3
      refine placeStage_preserves _ _ _ _ _ _ _ _ _ _ _ _ hsq3 hN3 hd3
        ?_ ?_ ?_ ?_ ?_ hpd ?_ heq3
      · intro h1 h2 h3 h4
        simp only at h1 h2 h3 h4 ⊢
        push_cast at h2 h4 ⊢
        refine ⟨by omega, by omega, by omega, by omega⟩
      · intro h1 h2 h3 h4
        simp only at h1 h2 h3 h4 ⊢
        push_cast at h2 h4 ⊢
        refine ⟨by omega, by omega, by omega, by omega⟩
      · exact ⟨hwx1, hwx2, hwy1, hwy2⟩
      · rintro q ⟨ha, hb, hc, hd⟩
        simp only at ha hb hc hd ⊢
        push_cast at hb hd ⊢
        exact ⟨by omega, by omega, by omega, by omega⟩
      · rintro ⟨ha, hb, hc, hd⟩
        simp only at ha hb hc hd
        push_cast at hb
        omega
      · intro lvl4 hsq4 hN4 hd4 heq4
        refine placeStage_preserves _ _ _ _ _ _ _ _ _ _ _ _ hsq4 hN4 hd4
          ?_ ?_ ?_ ?_ ?_ hpd ?_ heq4
        · intro h1 h2 h3 h4
          simp only at h1 h2 h3 h4 ⊢
          push_cast at h2 h4 ⊢
          refine ⟨by omega, by omega, by omega, by omega⟩
        · intro h1 h2 h3 h4
          simp only at h1 h2 h3 h4 ⊢
          push_cast at h2 h4 ⊢
          refine ⟨by omega, by omega, by omega, by omega⟩
        · exact ⟨hwx1, hwx2, hwy1, hwy2⟩
        · rintro q ⟨ha, hb, hc, hd⟩
          simp only at ha hb hc hd ⊢
          push_cast at hb hd ⊢
          exact ⟨by omega, by omega, by omega, by omega⟩
        · rintro ⟨ha, hb, hc, hd⟩
          simp only at ha hb hc hd
          push_cast at hb
          omega
        · intro lvl5 _ _ hd5 heq5
          have hlvl : lvl' = lvl5 :=
            ((Prod.ext_iff.1 (Except.ok.inj heq5)).2).symm
          rw [hlvl]
          exact hd5

lemma make_corridor_preserves_door {level lvl' : Level} {x y : Int} {p : Point}
    {length : Nat} {b : Bool}
    (hsq : squareLevel level)
    (hwx1 : 0 ≤ x) (hwx2 : x < (level.tiles.length : Int))
    (hwy1 : 0 ≤ y) (hwy2 : y < (level.tiles.length : Int))
    (hdoor : tileTypeAtS level p = some .closedDoor)
    (hpx : p.1 ≠ x) (hpy : p.2 ≠ y)
    (hmk : make_corridor level (x, y) length = .ok (b, lvl')) :
    tileTypeAtS lvl' p = some .closedDoor := by
  have hpd : p ≠ (x, y) := fun h => hpx (congrArg Prod.fst h)
  have hmk' : placeStage (x - 1, y + 1) 3 (length + 1)
      (x, y + 1) 1 length (x - 1, y) 3 1 (x, y)
      (placeStage (x - 1, y - length - 1) 3 (length + 1)
        (x, y - length) 1 length (x - 1, y) 3 1 (x, y)
        (placeStage (x + 1, y - 1) (length + 1) 3
          (x + 1, y) length 1 (x, y - 1) 1 3 (x, y)
          (placeStage (x - length - 1, y - 1) (length + 1) 3
            (x - length, y) length 1 (x, y - 1) 1 3 (x, y)
            (fun level => .ok (false, level)))))
      level = .ok (b, lvl') := hmk
  refine placeStage_preserves _ _ _ _ _ _ _ _ _ _ _ _ hsq rfl hdoor
    ?_ ?_ ?_ ?_ ?_ hpd ?_ hmk'
  · intro h1 h2 h3 h4
    simp only at h1 h2 h3 h4 ⊢
    push_cast at h2 h4 ⊢
    refine ⟨by omega, by omega, by omega, by omega⟩
  · intro h1 h2 h3 h4
    simp only at h1 h2 h3 h4 ⊢
    push_cast at h2 h4 ⊢
    refine ⟨by omega, by omega, by omega, by omega⟩
  · exact ⟨hwx1, hwx2, hwy1, hwy2⟩
  · rintro q ⟨ha, hb, hc, hd⟩
    simp only at ha hb hc hd ⊢
    push_cast at hb hd ⊢
    exact ⟨by omega, by omega, by omega, by omega⟩
  · rintro ⟨ha, hb, hc, hd⟩
    simp only at ha hb hc hd
    push_cast at hd
    omega
  · intro lvl2 hsq2 hN2 hd2 heq2
    refine placeStage_preserves _ _ _ _ _ _ _ _ _ _ _ _ hsq2 hN2 hd2
      ?_ ?_ ?_ ?_ ?_ hpd ?_ heq2
    · intro h1 h2 h3 h4
      simp only at h1 h2 h3 h4 ⊢
      push_cast at h2 h4 ⊢
      refine ⟨by omega, by omega, by omega, by omega⟩
    · intro h1 h2 h3 h4
      simp only at h1 h2 h3 h4 ⊢
      push_cast at h2 h4 ⊢
      refine ⟨by omega, by omega, by omega, by omega⟩
    · exact ⟨hwx1, hwx2, hwy1, hwy2⟩
    · rintro q ⟨ha, hb, hc, hd⟩
      simp only at ha hb hc hd ⊢
      push_cast at hb hd ⊢
      exact ⟨by omega, by omega, by omega, by omega⟩
    · rintro ⟨ha, hb, hc, hd⟩
      simp only at ha hb hc hd
      push_cast at hd
      omega
    · intro lvl3 hsq3 hN3 hd3 heq3
      refine placeStage_preserves _ _ _ _ _ _ _ _ _ _ _ _ hsq3 hN3 hd3
        ?_ ?_ ?_ ?_ ?_ hpd ?_ heq3
      · intro h1 h2 h3 h4
        simp only at h1 h2 h3 h4 ⊢
        push_cast at h2 h4 ⊢
        refine ⟨by omega, by omega, by omega, by omega⟩
      · intro h1 h2 h3 h4
        simp only at h1 h2 h3 h4 ⊢
        push_cast at h2 h4 ⊢
        refine ⟨by omega, by omega, by omega, by omega⟩
      · exact ⟨hwx1, hwx2, hwy1, hwy2⟩
      · rintro q ⟨ha, hb, hc, hd⟩
        simp only at ha hb hc hd ⊢
        push_cast at hb hd ⊢
        exact ⟨by omega, by omega, by omega, by omega⟩
      · rintro ⟨ha, hb, hc, hd⟩
        simp only at ha hb hc hd
        push_cast at hb
        omega
      · intro lvl4 hsq4 hN4 hd4 heq4
        refine placeStage_preserves _ _ _ _ _ _ _ _ _ _ _ _ hsq4 hN4 hd4
          ?_ ?_ ?_ ?_ ?_ hpd ?_ heq4
        · intro h1 h2 h3 h4
          simp only at h1 h2 h3 h4 ⊢
          push_cast at h2 h4 ⊢
          refine ⟨by omega, by omega, by omega, by omega⟩
        · intro h1 h2 h3 h4
          simp only at h1 h2 h3 h4 ⊢
          push_cast at h2 h4 ⊢
          refine ⟨by omega, by omega, by omega, by omega⟩
        · exact ⟨hwx1, hwx2, hwy1, hwy2⟩
        · rintro q ⟨ha, hb, hc, hd⟩
          simp only at ha hb hc hd ⊢
          push_cast at hb hd ⊢
          exact ⟨by omega, by omega, by omega, by omega⟩
        · rintro ⟨ha, hb, hc, hd⟩
          simp only at ha hb hc hd
          push_cast at hb
          omega
        · intro lvl5 _ _ hd5 heq5
          have hlvl : lvl' = lvl5 :=
            ((Prod.ext_iff.1 (Except.ok.inj heq5)).2).symm
          rw [hlvl]
          exact hd5

/-- A 10×10 level with a closed door at `(4,1)` directly beside the wall
point `(5,1)`. -/
def roomDoorLevel : Level :=
  { tiles := (List.range 10).map (fun x => (List.range 10).map (fun y =>
      if x = 4 ∧ y = 1 then new_tile .closedDoor
      else if x = 5 ∧ y = 1 then new_tile .wall
      else new_tile .solidEarth)),
    entities := [] }

/-- The level produced by `make_room` on `roomDoorLevel` at `(5,1)`. -/
def roomDoorResultLevel : Level :=
  match make_room roomDoorLevel (5, 1) 4 4 with
  | .ok (_, lvl) => lvl
  | .error _ => roomDoorLevel

/-- C3 (counterexample): a ClosedDoor tile is overwritten by a successful
`make_room` call.  The door-side wall strip written on success lies
outside the `check_fill_rect` footprint, so the door at `(4, 1)` — in the
wall point's row — is turned into a Wall tile. -/
theorem make_room_overwrites_door :
    tileTypeAtS roomDoorLevel (4, 1) = some .closedDoor ∧
    make_room roomDoorLevel (5, 1) 4 4 = .ok (true, roomDoorResultLevel) ∧
    tileTypeAtS roomDoorResultLevel (4, 1) = some .wall :=
  ⟨by decide, by decide, by decide⟩

/-- C3 (amended): during dungeon generation, a tile that has been set to
ClosedDoor and does not share a row or column with the wall point is
never overwritten by a later `make_room` or `make_corridor` call at an
on-grid wall point, whether the call succeeds or fails.  (Doors in the
wall point's row or column can be overwritten by the unchecked door-side
wall strip, as the counterexample shows.) -/
theorem make_room_corridor_preserve_offaxis_doors :
    (∀ (level lvl' : Level) (x y : Int) (p : Point) (width height : Nat)
      (b : Bool), squareLevel level →
      0 ≤ x → x < (level.tiles.length : Int) →
      0 ≤ y → y < (level.tiles.length : Int) →
      tileTypeAtS level p = some .closedDoor →
      p.1 ≠ x → p.2 ≠ y →
      make_room level (x, y) width height = .ok (b, lvl') →
      tileTypeAtS lvl' p = some .closedDoor) ∧
    (∀ (level lvl' : Level) (x y : Int) (p : Point) (length : Nat)
      (b : Bool), squareLevel level →
      0 ≤ x → x < (level.tiles.length : Int) →
      0 ≤ y → y < (level.tiles.length : Int) →
      tileTypeAtS level p = some .closedDoor →
      p.1 ≠ x → p.2 ≠ y →
      make_corridor level (x, y) length = .ok (b, lvl') →
      tileTypeAtS lvl' p = some .closedDoor) :=
  ⟨fun _ _ _ _ _ _ _ _ hsq h1 h2 h3 h4 hd hpx hpy hmk =>
    make_room_preserves_door hsq h1 h2 h3 h4 hd hpx hpy hmk,
   fun _ _ _ _ _ _ _ hsq h1 h2 h3 h4 hd hpx hpy hmk =>
    make_corridor_preserves_door hsq h1 h2 h3 h4 hd hpx hpy hmk⟩

/-- A 10×10 level with a closed door at `(8,8)`, away from the row and
column of the wall point `(5,1)`. -/
def c3WitLevel : Level :=
  { tiles := (List.range 10).map (fun x => (List.range 10).map (fun y =>
      if x = 8 ∧ y = 8 then new_tile .closedDoor
      else if x = 5 ∧ y = 1 then new_tile .wall
      else new_tile .solidEarth)),
    entities := [] }

/-- The level produced by `make_room` on `c3WitLevel` at `(5,1)`. -/
def c3WitResultLevel : Level :=
  match make_room c3WitLevel (5, 1) 4 4 with
  | .ok (_, lvl) => lvl
  | .error _ => c3WitLevel

/-- Witness for C3 at a concrete 10×10 level: the off-axis door at
`(8,8)` survives a successful room placement at `(5,1)`. -/
theorem make_room_corridor_preserve_offaxis_doors_witness :
    (squareLevel c3WitLevel ∧
      tileTypeAtS c3WitLevel (8, 8) = some .closedDoor ∧
      make_room c3WitLevel (5, 1) 4 4 = .ok (true, c3WitResultLevel)) ∧
    tileTypeAtS c3WitResultLevel (8, 8) = some .closedDoor :=
  ⟨⟨by decide, by decide, by decide⟩,
    make_room_corridor_preserve_offaxis_doors.1 c3WitLevel c3WitResultLevel
      5 1 (8, 8) 4 4 true (by decide) (by decide) (by decide) (by decide)
      (by decide) (by decide) (by decide) (by decide) (by decide)⟩

/-! ## Entity model: `entity_types.py` and the world step of `world.py` -/

/-- Which Python class an entity is an instance of. -/
inductive EKind where
  | hero
  | monster
deriving DecidableEq, Repr

/-- The hero's queued actions (the `Move`, `Use`, `Wait` action classes;
named `HeroAction` here to avoid clashing with an unrelated library
name). -/
inductive HeroAction where
  | move (direction : Direction)
  | use (direction : Direction)
  | wait
deriving DecidableEq, Repr

/-- The merged record of the Python `Hero` and `Monster` classes (see the
module comment): `open_doors` is Monster-only, `level` through `messages`
are Hero-only; `kind` stands for the class of the object. -/
structure Ent where
  kind : EKind
  name : String
  hit_points : Int
  max_hit_points : Int
  defence : Int
  speed : Int
  strength : Int
  energy : Int
  open_doors : Bool
  level : Int
  experience : Int
  score : Int
  hp_counter : Int
  actions : List HeroAction
  messages : List String
deriving DecidableEq, Repr

/-- `Monster.__init__`. -/
def mkMonster (name : String) (hit_points defence speed strength : Int)
    (open_doors : Bool) : Ent :=
  { kind := .monster, name := name, hit_points := hit_points,
    max_hit_points := hit_points, defence := defence, speed := speed,
    strength := strength, energy := 0, open_doors := open_doors,
    level := 0, experience := 0, score := 0, hp_counter := 0,
    actions := [], messages := [] }

/-- `Hero.__init__`. -/
def mkHero (name : String) (hit_points defence speed strength : Int) : Ent :=
  { kind := .hero, name := name, hit_points := hit_points,
    max_hit_points := hit_points, defence := defence, speed := speed,
    strength := strength, energy := 0, open_doors := false,
    level := 1, experience := 0, score := 0, hp_counter := 0,
    actions := [], messages := [] }

/-- The full game state: the `World` object of `world_types.py` plus the
heap of entity objects (`ents`, keyed by identity) and a fresh-identity
counter for spawning. -/
structure GState where
  upper_levels : List Level
  current_level : Level
  lower_levels : List Level
  hero : Point
  ents : List (EntityId × Ent)
  next_id : EntityId
deriving DecidableEq, Repr

/-- Dereference an entity object. -/
def storeGet : List (EntityId × Ent) → EntityId → Option Ent
  | [], _ => none
  | kv :: kvs, id => if kv.1 = id then some kv.2 else storeGet kvs id

/-- Mutate an entity object in place. -/
def storeUpdate : List (EntityId × Ent) → EntityId → (Ent → Ent) →
    List (EntityId × Ent)
  | [], _, _ => []
  | kv :: kvs, id, f =>
      if kv.1 = id then (kv.1, f kv.2) :: kvs else kv :: storeUpdate kvs id f

/-- Mutate an entity object inside the game state. -/
def updEnt (g : GState) (id : EntityId) (f : Ent → Ent) : GState :=
  { g with ents := storeUpdate g.ents id f }

/-- `world.add_entity`: refuses occupied and impassable tiles, then sets
the tile's entity and appends the point to the entity list. -/
def addEntity (level : Level) (point : Point) (eid : EntityId) :
    Except PyErr Level :=
  match tileAt level point with
  | none => .error .indexError
  | some tile =>
    if tile.entity.isSome then
      .error .existingEntityError
    else if !tile.type.passable then
      .error .tileNotPassableError
    else
      match setTileAt level point { tile with entity := some eid } with
      | none => .error .indexError
      | some lvl => .ok { lvl with entities := lvl.entities ++ [some point] }

/-- `world.remove_entity`: clears the tile's entity and tombstones the
first occurrence of the point in the entity list (`list.index` raises
`ValueError` when absent). -/
def removeEntity (level : Level) (point : Point) : Except PyErr Level :=
  match tileAt level point with
  | none => .error .indexError
  | some tile =>
    match setTileAt level point { tile with entity := none } with
    | none => .error .indexError
    | some lvl =>
      match lvl.entities.findIdx? (fun e => e = some point) with
      | none => .error .valueError
      | some i => .ok { lvl with entities := lvl.entities.set i none }

/-- `world.get_tiles`: the points whose tile has the given type, in
x-major scan order.  (On the ragged grids Python would crash on, this
model simply skips the missing cells.) -/
def get_tiles (level : Level) (type_ : TileType) : List Point :=
  (List.range level.tiles.length).bind (fun x =>
    (List.range level.tiles.length).filterMap (fun y =>
      if tileTypeAtS level ((x : Int), (y : Int)) = some type_ then
        some ((x : Int), (y : Int))
      else
        none))

/-- Dereference an entity object or fail like a Python attribute access
on a missing object. -/
def getEnt (ents : List (EntityId × Ent)) (id : EntityId) : Except PyErr Ent :=
  match storeGet ents id with
  | some e => .ok e
  | none => .error .attrError

/-- `Move.execute`: attack an occupied target tile (clearing the action
queue), otherwise open a door if needed and relocate the hero. -/
def moveExecute (direction : Direction) (g : GState) : Except PyErr GState := do
  let target_x := g.hero.1 + (direction_to_point direction).1
  let target_y := g.hero.2 + (direction_to_point direction).2
  let heroTile ← orIndexError (tileAt g.current_level g.hero)
  let target_tile ← orIndexError (tileAt g.current_level (target_x, target_y))
  match heroTile.entity with
  | none => .error .attrError
  | some heroId =>
    let g := updEnt g heroId (fun e => { e with energy := e.energy - 100 })
    match target_tile.entity with
    | some tid => do
      let heroEnt ← getEnt g.ents heroId
      let tEnt ← getEnt g.ents tid
      let damage := min_clamp (heroEnt.strength - tEnt.defence) 0
      let g := updEnt g tid (fun e => { e with hit_points := e.hit_points - damage })
      let g := updEnt g heroId (fun e =>
        { e with messages := e.messages ++
            ["You hit the " ++ tEnt.name ++ " for " ++ toString damage ++ " damage!"] })
      let g := updEnt g heroId (fun e => { e with actions := [] })
      .ok g
    | none => do
      let g ←
        if target_tile.type = .closedDoor then do
          let g := updEnt g heroId (fun e =>
            { e with messages := e.messages ++ ["You open the door."] })
          match setTileAt g.current_level (target_x, target_y)
              { target_tile with type := .openDoor } with
          | none => .error .indexError
          | some lvl => .ok { g with current_level := lvl }
        else
          .ok g
      let lvl1 ← removeEntity g.current_level g.hero
      let lvl2 ← addEntity lvl1 (target_x, target_y) heroId
      .ok { g with current_level := lvl2, hero := (target_x, target_y) }

/-- `Use.execute`: attack an occupied target tile, otherwise operate the
stairs or close an open door.  The centre point is computed from the
length of the level that is current when the action starts (Python's
floor division, `Int.fdiv`). -/
def useExecute (direction : Direction) (g : GState) : Except PyErr GState := do
  let target_x := g.hero.1 + (direction_to_point direction).1
  let target_y := g.hero.2 + (direction_to_point direction).2
  let heroTile ← orIndexError (tileAt g.current_level g.hero)
  let target_tile ← orIndexError (tileAt g.current_level (target_x, target_y))
  let level_length := g.current_level.tiles.length
  let centre : Int := Int.fdiv ((level_length : Int) - 1) 2
  match heroTile.entity with
  | none => .error .attrError
  | some heroId =>
    let g := updEnt g heroId (fun e => { e with energy := e.energy - 100 })
    match target_tile.entity with
    | some tid => do
      let heroEnt ← getEnt g.ents heroId
      let tEnt ← getEnt g.ents tid
      let damage := min_clamp (heroEnt.strength - tEnt.defence) 0
      let g := updEnt g tid (fun e => { e with hit_points := e.hit_points - damage })
      let g := updEnt g heroId (fun e =>
        { e with messages := e.messages ++
            ["You hit the " ++ tEnt.name ++ " for " ++ toString damage ++ " damage!"] })
      .ok g
    | none =>
      if target_tile.type = .upStairs then do
        let lvl1 ← removeEntity g.current_level g.hero
        match g.upper_levels with
        | [] => .error .indexError
        | newCur :: restUpper =>
          match get_tiles newCur .downStairs with
          | [] => .error .indexError
          | dp :: _ => do
            let newCur2 ← addEntity newCur dp heroId
            let g := { g with
              lower_levels := lvl1 :: g.lower_levels,
              current_level := newCur2,
              upper_levels := restUpper,
              hero := dp }
            .ok (updEnt g heroId (fun e =>
              { e with messages := e.messages ++ ["You ascend the stairs."] }))
      else if target_tile.type = .downStairs then do
        let lvl1 ← removeEntity g.current_level g.hero
        match g.lower_levels with
        | [] => .error .indexError
        | newCur :: restLower => do
          let newCur2 ← addEntity newCur (centre, centre) heroId
          let g := { g with
            upper_levels := lvl1 :: g.upper_levels,
            current_level := newCur2,
            lower_levels := restLower,
            hero := (centre, centre) }
          .ok (updEnt g heroId (fun e =>
            { e with messages := e.messages ++ ["You descend the stairs."] }))
      else if target_tile.type = .openDoor then
        match setTileAt g.current_level (target_x, target_y)
            { target_tile with type := .closedDoor } with
        | none => .error .indexError
        | some lvl =>
          .ok (updEnt { g with current_level := lvl } heroId (fun e =>
            { e with messages := e.messages ++ ["You close the door."] }))
      else
        .ok g

/-- `Wait.execute` does nothing ("This action does not cost energy"). -/
def waitExecute (g : GState) : Except PyErr GState := .ok g

/-- Dispatch of `action.execute(world)`. -/
def HeroAction.execute : HeroAction → GState → Except PyErr GState
  | .move d, g => moveExecute d g
  | .use d, g => useExecute d g
  | .wait, g => waitExecute g

/-- `Monster.step`: dead monsters are removed (awarding the hero
experience and score); otherwise with at least 100 energy the monster
recomputes a path to the hero and steps along it, aborting with an
immediate `return` — which also skips the `energy += speed` accrual —
when the destination is impassable for it or occupied by a non-hero
entity. -/
def monsterStep (selfId : EntityId) (point : Point) (g : GState) :
    Except PyErr GState := do
  let heroTile ← orIndexError (tileAt g.current_level g.hero)
  let heroRef := heroTile.entity
  let selfEnt ← getEnt g.ents selfId
  if selfEnt.hit_points ≤ 0 then do
    let lvl1 ← removeEntity g.current_level point
    let g := { g with current_level := lvl1 }
    match heroRef with
    | none => .error .attrError
    | some heroId =>
      let g := updEnt g heroId (fun e => { e with experience := e.experience + 1 })
      let g := updEnt g heroId (fun e => { e with score := e.score + 10 })
      let g := updEnt g heroId (fun e =>
        { e with messages := e.messages ++ ["The " ++ selfEnt.name ++ " dies!"] })
      .ok g
  else if selfEnt.energy ≥ 100 then do
    let path ← find_path point g.hero g.current_level
    match path with
    | [] => .error .indexError
    | d :: _ =>
      let target_x := point.1 + (direction_to_point d).1
      let target_y := point.2 + (direction_to_point d).2
      let target_tile ← orIndexError (tileAt g.current_level (target_x, target_y))
      if ((!target_tile.type.passable &&
            (target_tile.type ≠ .closedDoor || !selfEnt.open_doors)) ||
          (target_tile.entity.isSome && target_tile.entity ≠ heroRef)) then
        .ok g
      else do
        let g := updEnt g selfId (fun e => { e with energy := e.energy - 100 })
        if target_tile.entity = heroRef then
          match heroRef with
          | none => .error .attrError
          | some heroId => do
            let heroEnt ← getEnt g.ents heroId
            let damage := min_clamp (selfEnt.strength - heroEnt.defence) 0
            let g := updEnt g heroId (fun e =>
              { e with hit_points := e.hit_points - damage })
            let g := updEnt g heroId (fun e =>
              { e with messages := e.messages ++
                  ["The " ++ selfEnt.name ++ " hits you for " ++
                    toString damage ++ " damage!"] })
            let heroEnt2 ← getEnt g.ents heroId
            let g ←
              if heroEnt2.hit_points ≤ 0 then do
                let lvl ← removeEntity g.current_level g.hero
                .ok (updEnt { g with current_level := lvl } heroId (fun e =>
                  { e with messages := e.messages ++ ["You have died."] }))
              else
                .ok g
            .ok (updEnt g selfId (fun e => { e with energy := e.energy + e.speed }))
        else do
          let g ←
            if target_tile.type = .closedDoor then
              match setTileAt g.current_level (target_x, target_y)
                  { target_tile with type := .openDoor } with
              | none => .error .indexError
              | some lvl => .ok { g with current_level := lvl }
            else
              .ok g
          let lvl1 ← removeEntity g.current_level point
          let lvl2 ← addEntity lvl1 (target_x, target_y) selfId
          .ok (updEnt { g with current_level := lvl2 } selfId (fun e =>
            { e with energy := e.energy + e.speed }))
  else
    .ok (updEnt g selfId (fun e => { e with energy := e.energy + e.speed }))

/-- The level-up block of `Hero.step`. -/
def heroLevelUp (e : Ent) : Ent :=
  { e with
    experience := 0
    level := e.level + 1
    score := e.score + 100
    messages := e.messages ++
      ["Welcome to level " ++ toString (e.level + 1) ++ "."]
    max_hit_points := e.max_hit_points + 1
    defence := e.defence + 1
    speed := e.speed + 10
    strength := e.strength + 1 }

/-- The passive-regeneration block of `Hero.step`. -/
def heroRegen (e : Ent) : Ent :=
  if e.hit_points < e.max_hit_points then
    if e.hp_counter ≥ 10 then
      { e with hp_counter := 0, hit_points := e.hit_points + 1 }
    else
      { e with hp_counter := e.hp_counter + 1 }
  else
    { e with hp_counter := 0 }

/-- `Hero.step`: level-up bookkeeping, passive regeneration, then — with
at least 100 energy — pop and execute the next queued action
(`self.actions[0]` raises `IndexError` on an empty queue), and finally
accrue `speed` energy. -/
def heroStep (selfId : EntityId) (g : GState) : Except PyErr GState := do
  let selfEnt ← getEnt g.ents selfId
  let g := if selfEnt.experience ≥ 6 then updEnt g selfId heroLevelUp else g
  let g := updEnt g selfId heroRegen
  let selfEnt2 ← getEnt g.ents selfId
  let g ←
    if selfEnt2.energy ≥ 100 then
      match selfEnt2.actions with
      | [] => .error .heroActionsIndexError
      | action :: rest => do
        let g := updEnt g selfId (fun e => { e with actions := rest })
        action.execute g
    else
      .ok g
  .ok (updEnt g selfId (fun e => { e with energy := e.energy + e.speed }))

/-- Duck-typed `entity.step(entity_point, world)` dispatch. -/
def entStep (eid : EntityId) (point : Point) (g : GState) :
    Except PyErr GState :=
  match storeGet g.ents eid with
  | none => .error .attrError
  | some e =>
    match e.kind with
    | .hero => heroStep eid g
    | .monster => monsterStep eid point g

/-- The monster constructors of `entity.py`. -/
def new_goblin : Ent := mkMonster "Goblin" 3 0 50 2 true

def new_giant_ant : Ent := mkMonster "Giant Ant" 2 0 80 1 false

def new_giant_rat : Ent := mkMonster "Giant Rat" 1 0 80 1 false

def new_gremlin : Ent := mkMonster "Gremlin" 2 0 90 1 true

def new_wolf : Ent := mkMonster "Wolf" 3 0 90 3 false

def new_black_naga : Ent := mkMonster "Black Naga" 5 3 60 4 true

def new_floating_eye : Ent := mkMonster "Floating Eye" 3 2 60 2 false

def new_gelationous_cube : Ent := mkMonster "Gelationous Cube" 5 2 35 4 false

def new_fire_elemental : Ent := mkMonster "Fire Elemental" 6 2 75 5 true

def new_jabberwock : Ent := mkMonster "Jabberwock" 9 3 100 6 true

def new_mind_flayer : Ent := mkMonster "Mind Flayer" 15 5 100 8 true

def new_dragon : Ent := mkMonster "Dragon" 20 5 70 6 true

def new_couatl : Ent := mkMonster "Couatl" 30 10 100 10 true

/-- The depth-indexed monster table `entity.monster_fns`. -/
def monster_fns : List (List Ent) :=
  [ [new_giant_ant, new_gremlin, new_giant_rat],
    [new_giant_ant, new_gremlin, new_goblin, new_floating_eye, new_giant_rat],
    [new_giant_ant, new_gremlin, new_goblin, new_wolf, new_floating_eye],
    [new_goblin, new_wolf, new_floating_eye],
    [new_goblin, new_wolf, new_black_naga],
    [new_gelationous_cube, new_fire_elemental, new_black_naga],
    [new_gelationous_cube, new_fire_elemental, new_black_naga],
    [new_gelationous_cube, new_fire_elemental, new_jabberwock],
    [new_dragon, new_mind_flayer, new_jabberwock],
    [new_dragon, new_mind_flayer, new_couatl] ]

/-- The random draws one call of `world.step` may consume: the spawn
cell, the `rand_chance(0.2)` outcome, and the `random.choice` index into
the depth's monster list. -/
structure StepOracle where
  x : Nat
  y : Nat
  chance : Bool
  pick : Nat
deriving DecidableEq, Repr

/-- The spawn attempt at the top of `world.step`. -/
def spawnPhase (oracle : StepOracle) (g : GState) : Except PyErr GState :=
  if (g.current_level.entities.length : Int) - 1 < 6 then
    match tileAt g.current_level ((oracle.x : Int), (oracle.y : Int)) with
    | none => .error .indexError
    | some tile =>
      if tile.entity.isNone && tile.type = .floor && oracle.chance then
        match pyGetL monster_fns (g.upper_levels.length : Int) with
        | none => .error .indexError
        | some row =>
          match row.get? (oracle.pick % row.length) with
          | none => .error .indexError
          | some ent =>
            match addEntity g.current_level ((oracle.x : Int), (oracle.y : Int))
                g.next_id with
            | .error e => .error e
            | .ok lvl =>
              .ok { g with
                current_level := lvl,
                ents := g.ents ++ [(g.next_id, ent)],
                next_id := g.next_id + 1 }
      else
        .ok g
  else
    .ok g

/-- The entity pass of `world.step`: iterate the (possibly growing)
entity-position list by index, skip tombstones and already-updated
entities (identity check via `updated`), and return early when the
current level changed or the hero is gone.  The returned list records,
in order, the tile occupants whose `step` was invoked. -/
def stepLoop (fuel : Nat) (i : Nat) (updated : List (Option EntityId))
    (g : GState) : List (Option EntityId) × Except PyErr GState :=
  match fuel with
  | 0 => (updated, .error .fuelOut)
  | fuel + 1 =>
    if h : i < g.current_level.entities.length then
      match g.current_level.entities.get ⟨i, h⟩ with
      | none => stepLoop fuel (i + 1) updated g
      | some entity_point =>
        match tileAt g.current_level entity_point with
        | none => (updated, .error .indexError)
        | some tile =>
          let entRef := tile.entity
          if entRef ∈ updated then
            stepLoop fuel (i + 1) updated g
          else
            let updated' := updated ++ [entRef]
            match entRef with
            | none => (updated', .error .attrError)
            | some eid =>
              let old_world_len := g.upper_levels.length
              match entStep eid entity_point g with
              | .error e => (updated', .error e)
              | .ok g' =>
                match tileAt g'.current_level g'.hero with
                | none => (updated', .error .indexError)
                | some heroTile =>
                  if old_world_len ≠ g'.upper_levels.length then
                    (updated', .ok g')
                  else if heroTile.entity.isNone then
                    (updated', .ok g')
                  else
                    stepLoop fuel (i + 1) updated' g'
    else
      (updated,
        .ok { g with current_level :=
          { g.current_level with
            entities := g.current_level.entities.filter (fun p => p.isSome) } })

/-- `world.step`: the spawn attempt followed by the entity pass. -/
def world_step (oracle : StepOracle) (fuel : Nat) (g : GState) :
    List (Option EntityId) × Except PyErr GState :=
  match spawnPhase oracle g with
  | .error e => ([], .error e)
  | .ok g1 => stepLoop fuel 0 [] g1

/-! ## Lemmas about the entity store and the entity model -/

lemma storeGet_storeUpdate (ents : List (EntityId × Ent)) (id id' : EntityId)
    (f : Ent → Ent) :
    storeGet (storeUpdate ents id f) id' =
      if id' = id then (storeGet ents id).map f else storeGet ents id' := by
  induction ents with
  | nil => simp [storeGet, storeUpdate]
  | cons kv kvs ih =>
      by_cases hk : kv.1 = id
      · simp only [storeUpdate, if_pos hk]
        by_cases hk' : kv.1 = id'
        · have : id' = id := by rw [← hk', hk]
          simp [storeGet, if_pos hk', this, hk]
        · have hne : ¬(id' = id) := by
            intro hc
            exact hk' (by rw [hk, hc])
          have hii : ¬(id = id') := fun hc => hne hc.symm
          simp [storeGet, if_neg hk', if_neg hne, hk, hii]
      · simp only [storeUpdate, if_neg hk]
        by_cases hk' : kv.1 = id'
        · have hne : ¬(id' = id) := by
            intro hc
            exact hk (by rw [hk', hc])
          simp [storeGet, if_pos hk', if_neg hne]
        · simp only [storeGet, if_neg hk', if_neg hk]
          exact ih

lemma heroRegen_energy (e : Ent) : (heroRegen e).energy = e.energy := by
  unfold heroRegen
  split
  · split <;> rfl
  · rfl

lemma heroRegen_actions (e : Ent) : (heroRegen e).actions = e.actions := by
  unfold heroRegen
  split
  · split <;> rfl
  · rfl

lemma heroRegen_speed (e : Ent) : (heroRegen e).speed = e.speed := by
  unfold heroRegen
  split
  · split <;> rfl
  · rfl

lemma getEnt_updEnt_self {g : GState} {selfId : EntityId} {h : Ent}
    (hget : storeGet g.ents selfId = some h) (f : Ent → Ent) :
    getEnt (updEnt g selfId f).ents selfId = .ok (f h) := by
  simp [getEnt, updEnt, storeGet_storeUpdate, hget]

lemma storeGet_updEnt_self {g : GState} {selfId : EntityId} {h : Ent}
    (hget : storeGet g.ents selfId = some h) (f : Ent → Ent) :
    storeGet (updEnt g selfId f).ents selfId = some (f h) := by
  simp [updEnt, storeGet_storeUpdate, hget]

lemma storeGet_updEnt_ne {g : GState} {id id' : EntityId} (f : Ent → Ent)
    (hne : id' ≠ id) :
    storeGet (updEnt g id f).ents id' = storeGet g.ents id' := by
  simp [updEnt, storeGet_storeUpdate, hne]

lemma bindOk {α β : Type} (a : α) (f : α → Except PyErr β) :
    (do
      let x ← Except.ok a
      f x) = f a := rfl

/-- C8 (amended): executing a queued Wait deducts no energy.  For a Hero
with energy ≥ 100 whose next queued action is Wait (and no pending
level-up), one step pops the Wait and leaves energy changed only by the
per-tick `+speed` accrual — `Wait.execute` is a no-op, and the 100-point
deduction happens inside `Move.execute`/`Use.execute` only, exactly as
the `Wait` docstring states ("This action does not cost energy"). -/
theorem wait_action_costs_no_energy (selfId : EntityId) (g : GState) (h : Ent)
    (rest : List HeroAction)
    (hget : storeGet g.ents selfId = some h)
    (hen : h.energy ≥ 100)
    (hact : h.actions = .wait :: rest)
    (hexp : h.experience < 6) :
    ∃ g', heroStep selfId g = .ok g' ∧
      ∃ e', storeGet g'.ents selfId = some e' ∧
        e'.energy = h.energy + h.speed ∧ e'.actions = rest := by
  have h1 : getEnt g.ents selfId = .ok h := by
    simp [getEnt, hget]
  unfold heroStep
  rw [h1]
  simp only [bindOk]
  rw [if_neg (by omega : ¬ h.experience ≥ 6)]
  rw [getEnt_updEnt_self hget heroRegen]
  simp only [bindOk]
  rw [if_pos (by rw [heroRegen_energy]; exact hen)]
  rw [show (heroRegen h).actions = .wait :: rest from by rw [heroRegen_actions, hact]]
  simp only [HeroAction.execute, waitExecute, bindOk]
  refine ⟨_, rfl, ?_⟩
  rw [storeGet_updEnt_self
    (storeGet_updEnt_self (storeGet_updEnt_self hget heroRegen)
      (fun e => { e with actions := rest })) (fun e => { e with energy := e.energy + e.speed })]
  refine ⟨_, rfl, ?_, rfl⟩
  simp only [heroRegen_energy, heroRegen_speed]

/-- A concrete hero: energy 100, speed 30, a single queued Wait. -/
def c8Hero : Ent :=
  { mkHero "Hero" 10 1 30 2 with energy := 100, actions := [.wait] }

def c8State : GState :=
  { upper_levels := [], current_level := { tiles := [], entities := [] },
    lower_levels := [], hero := (0, 0), ents := [(0, c8Hero)], next_id := 1 }

/-- C8 (counterexample): executing a queued Wait does NOT consume the
100-energy gate.  A hero with energy 100, speed 30 and queue `[Wait]`
ends the step with energy 130 (queue popped), not the 100 − 100 + 30 = 30
the claim predicts: `Wait.execute` is a pure no-op and the 100-point
deduction lives inside `Move.execute`/`Use.execute` only. -/
theorem wait_pays_energy_gate_false :
    (heroStep 0 c8State).map (fun g' => (storeGet g'.ents 0).map
      (fun e => (e.energy, e.actions))) = .ok (some (130, [])) ∧
    (130 : Int) ≠ 100 - 100 + 30 := by
  constructor
  · rfl
  · decide

theorem wait_action_costs_no_energy_witness :
    ∃ g', heroStep 0 c8State = .ok g' ∧
      ∃ e', storeGet g'.ents 0 = some e' ∧
        e'.energy = c8Hero.energy + c8Hero.speed ∧ e'.actions = [] :=
  wait_action_costs_no_energy 0 c8State c8Hero []
    rfl (by decide) rfl (by decide)

/-- C7 (amended): when a monster with energy ≥ 100 and positive hit
points finds its first path step blocked — destination not passable and
not a door it can open, or occupied by a non-hero entity — `Monster.step`
returns with the world literally unchanged.  In particular no energy is
spent, but also the `energy += speed` accrual at the end of `step` is
skipped by the early `return`: this tick the monster's energy does not
change at all (the claim's "changes only by +speed" is the one incorrect
clause). -/
theorem monster_abort_spends_nothing (selfId : EntityId) (point : Point)
    (g : GState) (m : Ent) (heroTile tt : Tile) (d : Direction)
    (ds : List Direction)
    (hht : tileAt g.current_level g.hero = some heroTile)
    (hget : storeGet g.ents selfId = some m)
    (hhp : ¬ m.hit_points ≤ 0)
    (hen : m.energy ≥ 100)
    (hpath : find_path point g.hero g.current_level = .ok (d :: ds))
    (htt : tileAt g.current_level
      (point.1 + (direction_to_point d).1,
       point.2 + (direction_to_point d).2) = some tt)
    (habort : ((!tt.type.passable &&
          (tt.type ≠ .closedDoor || !m.open_doors)) ||
        (tt.entity.isSome && tt.entity ≠ heroTile.entity)) = true) :
    monsterStep selfId point g = .ok g := by
  have h1 : getEnt g.ents selfId = .ok m := by simp [getEnt, hget]
  unfold monsterStep
  rw [hht]
  simp only [orIndexError, bindOk]
  rw [h1]
  simp only [bindOk]
  rw [if_neg hhp, if_pos hen, hpath]
  simp only [bindOk]
  rw [htt]
  simp only [orIndexError, bindOk]
  rw [if_pos habort]

/-- A wolf (no door-opening capability) at full energy. -/
def c7Monster : Ent := { new_wolf with energy := 100 }

def c7HeroEnt : Ent := mkHero "Hero" 10 1 30 2

/-- A 5×5 level: wolf at `(1,2)`, closed door at `(2,2)`, hero at
`(3,2)`, solid earth everywhere else. -/
def c7Level : Level :=
  { tiles := (List.range 5).map (fun x => (List.range 5).map (fun y =>
      if x = 1 ∧ y = 2 then { type := .floor, entity := some 0 }
      else if x = 2 ∧ y = 2 then new_tile .closedDoor
      else if x = 3 ∧ y = 2 then { type := .floor, entity := some 1 }
      else new_tile .solidEarth)),
    entities := [some ((1 : Int), (2 : Int)), some ((3 : Int), (2 : Int))] }

def c7State : GState :=
  { upper_levels := [], current_level := c7Level, lower_levels := [],
    hero := (3, 2), ents := [(0, c7Monster), (1, c7HeroEnt)], next_id := 2 }

/-- C7 (counterexample): the aborted tick does not add `+speed` either.
A wolf (speed 90, energy 100, cannot open doors) whose path to the hero
starts at a closed door aborts, and `Monster.step` leaves the whole
world unchanged: its energy is still 100, not the 100 + 90 = 190 the
claim's "changes only by +speed" clause predicts — the early `return`
also skips the `self.energy += self.speed` line at the end of `step`. -/
theorem monster_abort_no_speed_accrual :
    monsterStep 0 (1, 2) c7State = .ok c7State ∧
    (storeGet c7State.ents 0).map Ent.energy = some 100 ∧
    c7Monster.speed = 90 ∧ (100 : Int) ≠ 100 + 90 := by
  refine ⟨by decide, rfl, rfl, by decide⟩

theorem monster_abort_spends_nothing_witness :
    monsterStep 0 (1, 2) c7State = .ok c7State :=
  monster_abort_spends_nothing 0 (1, 2) c7State c7Monster
    { type := .floor, entity := some 1 } (new_tile .closedDoor) .east [.east]
    (by decide) rfl (by decide) (by decide) (by decide) (by decide) (by decide)

lemma min_clamp_zero (v : Int) : min_clamp v 0 = max 0 v := by
  unfold min_clamp
  split <;> omega

lemma getEnt_updEnt_ne {g : GState} {id id' : EntityId} (f : Ent → Ent)
    (hne : id' ≠ id) :
    getEnt (updEnt g id f).ents id' = getEnt g.ents id' := by
  simp [getEnt, updEnt, storeGet_storeUpdate, hne]

/-- `Move.execute` onto an occupied tile deals `max 0 (strength − defence)`
damage to the occupant. -/
lemma move_attack_damage (direction : Direction) (g : GState)
    (heroTile tt : Tile) (heroId tid : EntityId) (hEnt tEnt : Ent)
    (hht : tileAt g.current_level g.hero = some heroTile)
    (htt : tileAt g.current_level
      (g.hero.1 + (direction_to_point direction).1,
       g.hero.2 + (direction_to_point direction).2) = some tt)
    (hhe : heroTile.entity = some heroId)
    (hte : tt.entity = some tid)
    (hne : tid ≠ heroId)
    (hgh : storeGet g.ents heroId = some hEnt)
    (hgt : storeGet g.ents tid = some tEnt) :
    ∃ g', moveExecute direction g = .ok g' ∧
      ∃ t', storeGet g'.ents tid = some t' ∧
        t'.hit_points = tEnt.hit_points - max 0 (hEnt.strength - tEnt.defence) ∧
        0 ≤ max 0 (hEnt.strength - tEnt.defence) := by
  unfold moveExecute
  rw [hht]
  simp only [orIndexError, bindOk]
  rw [htt]
  simp only [orIndexError, bindOk]
  rw [hhe, hte]
  simp only [bindOk]
  rw [getEnt_updEnt_self hgh]
  simp only [bindOk]
  rw [getEnt_updEnt_ne _ hne]
  rw [show getEnt g.ents tid = .ok tEnt from by simp [getEnt, hgt]]
  simp only [bindOk]
  refine ⟨_, rfl, ?_⟩
  rw [storeGet_updEnt_ne _ hne, storeGet_updEnt_ne _ hne]
  have s1 : storeGet (updEnt g heroId
      (fun e => { e with energy := e.energy - 100 })).ents tid = some tEnt := by
    rw [storeGet_updEnt_ne _ hne]
    exact hgt
  rw [storeGet_updEnt_self s1]
  refine ⟨_, rfl, ?_, le_max_left 0 _⟩
  simp [min_clamp_zero]

/-- `Use.execute` onto an occupied tile deals `max 0 (strength − defence)`
damage to the occupant. -/
lemma use_attack_damage (direction : Direction) (g : GState)
    (heroTile tt : Tile) (heroId tid : EntityId) (hEnt tEnt : Ent)
    (hht : tileAt g.current_level g.hero = some heroTile)
    (htt : tileAt g.current_level
      (g.hero.1 + (direction_to_point direction).1,
       g.hero.2 + (direction_to_point direction).2) = some tt)
    (hhe : heroTile.entity = some heroId)
    (hte : tt.entity = some tid)
    (hne : tid ≠ heroId)
    (hgh : storeGet g.ents heroId = some hEnt)
    (hgt : storeGet g.ents tid = some tEnt) :
    ∃ g', useExecute direction g = .ok g' ∧
      ∃ t', storeGet g'.ents tid = some t' ∧
        t'.hit_points = tEnt.hit_points - max 0 (hEnt.strength - tEnt.defence) ∧
        0 ≤ max 0 (hEnt.strength - tEnt.defence) := by
  unfold useExecute
  rw [hht]
  simp only [orIndexError, bindOk]
  rw [htt]
  simp only [orIndexError, bindOk]
  rw [hhe, hte]
  simp only [bindOk]
  rw [getEnt_updEnt_self hgh]
  simp only [bindOk]
  rw [getEnt_updEnt_ne _ hne]
  rw [show getEnt g.ents tid = .ok tEnt from by simp [getEnt, hgt]]
  simp only [bindOk]
  refine ⟨_, rfl, ?_⟩
  rw [storeGet_updEnt_ne _ hne]
  have s1 : storeGet (updEnt g heroId
      (fun e => { e with energy := e.energy - 100 })).ents tid = some tEnt := by
    rw [storeGet_updEnt_ne _ hne]
    exact hgt
  rw [storeGet_updEnt_self s1]
  refine ⟨_, rfl, ?_, le_max_left 0 _⟩
  simp [min_clamp_zero]

/-- `Monster.step` melee on the hero deals `max 0 (strength − defence)`
damage, reading the hero's defence before the hit-point update. -/
lemma pySetL_of_pyGetL {α : Type} {l : List α} {i : Int} {a : α}
    (h : pyGetL l i = some a) (b : α) : ∃ l', pySetL l i b = some l' := by
  unfold pyGetL at h
  unfold pySetL
  split at h
  · rename_i hb1
    exact ⟨_, by rw [if_pos hb1]⟩
  · split at h
    · rename_i hb1 hb2
      exact ⟨_, by rw [if_neg hb1, if_pos hb2]⟩
    · cases h

lemma setTileAt_ok {level : Level} {p : Point} {t : Tile}
    (ht : tileAt level p = some t) (t' : Tile) :
    ∃ lvl2, setTileAt level p t' = some lvl2 ∧
      lvl2.entities = level.entities := by
  unfold tileAt at ht
  cases hr : pyGetL level.tiles p.1 with
  | none =>
    rw [hr] at ht
    cases ht
  | some row =>
    rw [hr] at ht
    simp only [Option.bind_eq_bind, Option.some_bind] at ht
    obtain ⟨row', hrow'⟩ := pySetL_of_pyGetL ht t'
    obtain ⟨tiles', htiles'⟩ := pySetL_of_pyGetL hr row'
    refine ⟨{ level with tiles := tiles' }, ?_, rfl⟩
    unfold setTileAt
    rw [hr]
    simp only [Option.bind_eq_bind, Option.some_bind]
    rw [hrow']
    simp only [Option.some_bind]
    rw [htiles']
    rfl

lemma findIdx?_of_mem {α : Type} [DecidableEq α] {a : α} : ∀ {l : List α},
    a ∈ l → ∃ i, l.findIdx? (fun e => e = a) = some i := by
  intro l
  induction l with
  | nil => intro h; cases h
  | cons b bs ih =>
    intro h
    by_cases hb : b = a
    · exact ⟨0, by simp [List.findIdx?_cons, hb]⟩
    · rcases List.mem_cons.1 h with h1 | h1
      · exact absurd h1.symm hb
      · obtain ⟨i, hi⟩ := ih h1
        exact ⟨i + 1, by simp [List.findIdx?_cons, hb, hi]⟩

/-- `remove_entity` succeeds whenever the tile exists and the point is
recorded in the level's entity list — the state the game always
maintains for an occupied tile. -/
lemma removeEntity_ok {level : Level} {p : Point} {t : Tile}
    (ht : tileAt level p = some t) (hmem : some p ∈ level.entities) :
    ∃ lvl', removeEntity level p = .ok lvl' := by
  obtain ⟨lvl2, hset, hents⟩ := setTileAt_ok ht { t with entity := none }
  obtain ⟨i, hidx⟩ := findIdx?_of_mem (l := lvl2.entities) (hents ▸ hmem)
  refine ⟨{ lvl2 with entities := lvl2.entities.set i none }, ?_⟩
  have h2 : removeEntity level p =
      (match setTileAt level p { t with entity := none } with
        | none => (.error .indexError : Except PyErr Level)
        | some lvl =>
          match lvl.entities.findIdx? (fun e => e = some p) with
          | none => .error .valueError
          | some i => .ok { lvl with entities := lvl.entities.set i none }) := by
    unfold removeEntity
    rw [ht]
  rw [h2, hset]
  show (match lvl2.entities.findIdx? (fun e => e = some p) with
    | none => (.error .valueError : Except PyErr Level)
    | some i => .ok { lvl2 with entities := lvl2.entities.set i none }) = _
  rw [hidx]

lemma updEnt_current_level (g : GState) (id : EntityId) (f : Ent → Ent) :
    (updEnt g id f).current_level = g.current_level := rfl

lemma updEnt_hero (g : GState) (id : EntityId) (f : Ent → Ent) :
    (updEnt g id f).hero = g.hero := rfl

lemma storeGet_updEnt_self2 {g : GState} {selfId : EntityId} {h : Ent}
    (hget : storeGet g.ents selfId = some h) (f : Ent → Ent) (lvl : Level) :
    storeGet (updEnt { g with current_level := lvl } selfId f).ents selfId =
      some (f h) := by
  simp [updEnt, storeGet_storeUpdate, hget]

/-- `Monster.step` melee on the hero deals `max 0 (strength − defence)`
damage, reading the hero's defence before the hit-point update — for
every attack, killing blows included (a killing blow additionally removes
the hero from the level, which is why the hero's point must be recorded
in the level's entity list, as the game always keeps it). -/
lemma monster_melee_damage (selfId : EntityId) (point : Point) (g : GState)
    (m hEnt : Ent) (heroTile tt : Tile) (heroId : EntityId) (d : Direction)
    (ds : List Direction)
    (hht : tileAt g.current_level g.hero = some heroTile)
    (hhe : heroTile.entity = some heroId)
    (hget : storeGet g.ents selfId = some m)
    (hhp : ¬ m.hit_points ≤ 0)
    (hen : m.energy ≥ 100)
    (hpath : find_path point g.hero g.current_level = .ok (d :: ds))
    (htt : tileAt g.current_level
      (point.1 + (direction_to_point d).1,
       point.2 + (direction_to_point d).2) = some tt)
    (hpass : tt.type.passable = true)
    (hte : tt.entity = some heroId)
    (hns : heroId ≠ selfId)
    (hgh : storeGet g.ents heroId = some hEnt)
    (hmem : some g.hero ∈ g.current_level.entities) :
    ∃ g', monsterStep selfId point g = .ok g' ∧
      ∃ h', storeGet g'.ents heroId = some h' ∧
        h'.hit_points = hEnt.hit_points - max 0 (m.strength - hEnt.defence) ∧
        0 ≤ max 0 (m.strength - hEnt.defence) := by
  have h1 : getEnt g.ents selfId = .ok m := by simp [getEnt, hget]
  unfold monsterStep
  rw [hht]
  simp only [orIndexError, bindOk]
  rw [h1]
  simp only [bindOk]
  rw [if_neg hhp, if_pos hen, hpath]
  simp only [bindOk]
  rw [htt]
  simp only [orIndexError, bindOk]
  have hno : ¬ (((!tt.type.passable &&
        (tt.type ≠ .closedDoor || !m.open_doors)) ||
      (tt.entity.isSome && tt.entity ≠ heroTile.entity)) = true) := by
    rw [hpass, hte, hhe]
    simp
  rw [if_neg hno]
  have heq : tt.entity = heroTile.entity := by rw [hte, hhe]
  rw [if_pos heq, hhe]
  simp only [bindOk]
  rw [getEnt_updEnt_ne _ hns]
  rw [show getEnt g.ents heroId = .ok hEnt from by simp [getEnt, hgh]]
  simp only [bindOk]
  rw [getEnt_updEnt_self (storeGet_updEnt_self
    (show storeGet (updEnt g selfId
        (fun e => { e with energy := e.energy - 100 })).ents heroId = some hEnt
      from by rw [storeGet_updEnt_ne _ hns]; exact hgh)
    (fun e => { e with hit_points :=
      e.hit_points - min_clamp (m.strength - hEnt.defence) 0 }))]
  simp only [bindOk]
  have s1 : storeGet (updEnt (updEnt g selfId
      (fun e => { e with energy := e.energy - 100 })) heroId
      (fun e => { e with hit_points :=
        e.hit_points - min_clamp (m.strength - hEnt.defence) 0 })).ents heroId =
      some { hEnt with hit_points :=
        hEnt.hit_points - min_clamp (m.strength - hEnt.defence) 0 } := by
    rw [storeGet_updEnt_self
      (show storeGet (updEnt g selfId
          (fun e => { e with energy := e.energy - 100 })).ents heroId = some hEnt
        from by rw [storeGet_updEnt_ne _ hns]; exact hgh)]
  by_cases hdead : hEnt.hit_points - min_clamp (m.strength - hEnt.defence) 0 ≤ 0
  · rw [if_pos hdead]
    simp only [updEnt_current_level, updEnt_hero]
    obtain ⟨lvl', hrem⟩ := removeEntity_ok hht hmem
    rw [hrem]
    simp only [bindOk]
    refine ⟨_, rfl, ?_⟩
    simp [updEnt, storeGet_storeUpdate, hns, hgh, min_clamp_zero, le_max_left]
  · rw [if_neg hdead]
    refine ⟨_, rfl, ?_⟩
    rw [storeGet_updEnt_ne _ hns]
    rw [storeGet_updEnt_self s1]
    refine ⟨_, rfl, ?_, le_max_left 0 _⟩
    simp [min_clamp_zero]

/-- C6: every attack — a Hero Move onto an occupied tile, a Hero Use onto
an occupied tile, and a monster's melee on the hero — reduces the
defender's hit points by exactly `max 0 (attacker.strength −
defender.defence)`; the damage is never negative and involves no
randomness (the value is a function of the two stat blocks alone).  The
melee case covers killing blows too: a killing blow deals the same
formula damage and additionally removes the hero from the level, so it
needs the hero's point to be recorded in the level's entity list — the
state the game always maintains, without which `remove_entity` raises
`ValueError` mid-update. -/
theorem attack_damage_formula :
    (∀ (direction : Direction) (g : GState) (heroTile tt : Tile)
      (heroId tid : EntityId) (hEnt tEnt : Ent),
      tileAt g.current_level g.hero = some heroTile →
      tileAt g.current_level
        (g.hero.1 + (direction_to_point direction).1,
         g.hero.2 + (direction_to_point direction).2) = some tt →
      heroTile.entity = some heroId →
      tt.entity = some tid →
      tid ≠ heroId →
      storeGet g.ents heroId = some hEnt →
      storeGet g.ents tid = some tEnt →
      ∃ g', moveExecute direction g = .ok g' ∧
        ∃ t', storeGet g'.ents tid = some t' ∧
          t'.hit_points = tEnt.hit_points - max 0 (hEnt.strength - tEnt.defence) ∧
          0 ≤ max 0 (hEnt.strength - tEnt.defence)) ∧
    (∀ (direction : Direction) (g : GState) (heroTile tt : Tile)
      (heroId tid : EntityId) (hEnt tEnt : Ent),
      tileAt g.current_level g.hero = some heroTile →
      tileAt g.current_level
        (g.hero.1 + (direction_to_point direction).1,
         g.hero.2 + (direction_to_point direction).2) = some tt →
      heroTile.entity = some heroId →
      tt.entity = some tid →
      tid ≠ heroId →
      storeGet g.ents heroId = some hEnt →
      storeGet g.ents tid = some tEnt →
      ∃ g', useExecute direction g = .ok g' ∧
        ∃ t', storeGet g'.ents tid = some t' ∧
          t'.hit_points = tEnt.hit_points - max 0 (hEnt.strength - tEnt.defence) ∧
          0 ≤ max 0 (hEnt.strength - tEnt.defence)) ∧
    (∀ (selfId : EntityId) (point : Point) (g : GState) (m hEnt : Ent)
      (heroTile tt : Tile) (heroId : EntityId) (d : Direction)
      (ds : List Direction),
      tileAt g.current_level g.hero = some heroTile →
      heroTile.entity = some heroId →
      storeGet g.ents selfId = some m →
      ¬ m.hit_points ≤ 0 →
      m.energy ≥ 100 →
      find_path point g.hero g.current_level = .ok (d :: ds) →
      tileAt g.current_level
        (point.1 + (direction_to_point d).1,
         point.2 + (direction_to_point d).2) = some tt →
      tt.type.passable = true →
      tt.entity = some heroId →
      heroId ≠ selfId →
      storeGet g.ents heroId = some hEnt →
      some g.hero ∈ g.current_level.entities →
      ∃ g', monsterStep selfId point g = .ok g' ∧
        ∃ h', storeGet g'.ents heroId = some h' ∧
          h'.hit_points = hEnt.hit_points - max 0 (m.strength - hEnt.defence) ∧
          0 ≤ max 0 (m.strength - hEnt.defence)) :=
  ⟨move_attack_damage, use_attack_damage, monster_melee_damage⟩

def c6Monster : Ent := { new_wolf with energy := 100 }

def c6Hero : Ent := mkHero "Hero" 10 1 30 2

/-- 4×4 level: hero at `(1,1)`, wolf at `(2,1)`. -/
def c6Level : Level :=
  { tiles := (List.range 4).map (fun x => (List.range 4).map (fun y =>
      if x = 1 ∧ y = 1 then { type := .floor, entity := some 1 }
      else if x = 2 ∧ y = 1 then { type := .floor, entity := some 0 }
      else new_tile .solidEarth)),
    entities := [some ((2 : Int), (1 : Int)), some ((1 : Int), (1 : Int))] }

def c6State : GState :=
  { upper_levels := [], current_level := c6Level, lower_levels := [],
    hero := (1, 1), ents := [(0, c6Monster), (1, c6Hero)], next_id := 2 }

/-- 5×5 level: wolf at `(2,2)` adjacent to the hero at `(3,2)`. -/
def c6MLevel : Level :=
  { tiles := (List.range 5).map (fun x => (List.range 5).map (fun y =>
      if x = 2 ∧ y = 2 then { type := .floor, entity := some 0 }
      else if x = 3 ∧ y = 2 then { type := .floor, entity := some 1 }
      else new_tile .solidEarth)),
    entities := [some ((2 : Int), (2 : Int)), some ((3 : Int), (2 : Int))] }

def c6MState : GState :=
  { upper_levels := [], current_level := c6MLevel, lower_levels := [],
    hero := (3, 2), ents := [(0, c6Monster), (1, c6Hero)], next_id := 2 }

/-- A hero one melee hit from death: the wolf's strength 3 against
defence 1 deals 2 damage, exactly its 2 hit points. -/
def c6KHero : Ent := mkHero "Hero" 2 1 30 2

def c6KState : GState :=
  { upper_levels := [], current_level := c6MLevel, lower_levels := [],
    hero := (3, 2), ents := [(0, c6Monster), (1, c6KHero)], next_id := 2 }

theorem attack_damage_formula_witness :
    (∃ g', moveExecute .east c6State = .ok g' ∧
      ∃ t', storeGet g'.ents 0 = some t' ∧
        t'.hit_points = c6Monster.hit_points -
          max 0 (c6Hero.strength - c6Monster.defence) ∧
        0 ≤ max 0 (c6Hero.strength - c6Monster.defence)) ∧
    (∃ g', useExecute .east c6State = .ok g' ∧
      ∃ t', storeGet g'.ents 0 = some t' ∧
        t'.hit_points = c6Monster.hit_points -
          max 0 (c6Hero.strength - c6Monster.defence) ∧
        0 ≤ max 0 (c6Hero.strength - c6Monster.defence)) ∧
    (∃ g', monsterStep 0 (2, 2) c6MState = .ok g' ∧
      ∃ h', storeGet g'.ents 1 = some h' ∧
        h'.hit_points = c6Hero.hit_points -
          max 0 (c6Monster.strength - c6Hero.defence) ∧
        0 ≤ max 0 (c6Monster.strength - c6Hero.defence)) ∧
    (∃ g', monsterStep 0 (2, 2) c6KState = .ok g' ∧
      ∃ h', storeGet g'.ents 1 = some h' ∧
        h'.hit_points = c6KHero.hit_points -
          max 0 (c6Monster.strength - c6KHero.defence) ∧
        0 ≤ max 0 (c6Monster.strength - c6KHero.defence)) :=
  ⟨attack_damage_formula.1 .east c6State
      { type := .floor, entity := some 1 } { type := .floor, entity := some 0 }
      1 0 c6Hero c6Monster (by decide) (by decide) rfl rfl (by decide) rfl rfl,
   attack_damage_formula.2.1 .east c6State
      { type := .floor, entity := some 1 } { type := .floor, entity := some 0 }
      1 0 c6Hero c6Monster (by decide) (by decide) rfl rfl (by decide) rfl rfl,
   attack_damage_formula.2.2 0 (2, 2) c6MState c6Monster c6Hero
      { type := .floor, entity := some 1 } { type := .floor, entity := some 1 }
      1 .east [] (by decide) rfl (by decide) (by decide) (by decide) (by decide)
      (by decide) rfl rfl (by decide) (by decide) (by decide),
   attack_damage_formula.2.2 0 (2, 2) c6KState c6Monster c6KHero
      { type := .floor, entity := some 1 } { type := .floor, entity := some 1 }
      1 .east [] (by decide) rfl (by decide) (by decide) (by decide) (by decide)
      (by decide) rfl rfl (by decide) (by decide) (by decide)⟩

lemma pySetL_length {α : Type} {l l' : List α} {i : Int} {x : α}
    (h : pySetL l i x = some l') : l'.length = l.length := by
  unfold pySetL at h
  split at h
  · cases h
    exact List.length_set _ _ _
  · split at h
    · cases h
      exact List.length_set _ _ _
    · cases h

lemma pyGetL_pySetL_self {α : Type} {l l' : List α} {i : Int} {x : α}
    (h : pySetL l i x = some l') : pyGetL l' i = some x := by
  unfold pySetL at h
  unfold pyGetL
  split at h
  · rename_i hb
    cases h
    rw [if_pos (by simp [List.length_set]; omega)]
    rw [List.get?_set_eq]
    rw [List.get?_eq_get (by omega : i.toNat < l.length)]
    rfl
  · split at h
    · rename_i hb1 hb2
      cases h
      rw [if_neg (by simp [List.length_set]; omega)]
      rw [if_pos (by simp [List.length_set]; omega)]
      simp only [List.length_set]
      rw [List.get?_set_eq]
      rw [List.get?_eq_get (by omega : (l.length + i).toNat < l.length)]
      rfl
    · cases h

lemma tileAt_setTileAt_self {level lvl' : Level} {p : Point} {t : Tile}
    (h : setTileAt level p t = some lvl') : tileAt lvl' p = some t := by
  unfold setTileAt at h
  cases hr : pyGetL level.tiles p.1 with
  | none => rw [hr] at h; cases h
  | some row =>
    rw [hr] at h
    simp only [Option.bind_eq_bind, Option.some_bind] at h
    cases hrw : pySetL row p.2 t with
    | none => rw [hrw] at h; cases h
    | some row' =>
      rw [hrw] at h
      simp only [Option.some_bind] at h
      cases hts : pySetL level.tiles p.1 row' with
      | none => rw [hts] at h; cases h
      | some tiles' =>
        rw [hts] at h
        simp only [Option.some_bind, Option.some.injEq] at h
        subst h
        unfold tileAt
        simp only [Option.bind_eq_bind]
        rw [pyGetL_pySetL_self hts]
        simp only [Option.some_bind]
        exact pyGetL_pySetL_self hrw

lemma tileAt_addEntity_self {level lvl : Level} {p : Point} {eid : EntityId}
    (h : addEntity level p eid = .ok lvl) :
    ∃ t, tileAt lvl p = some t ∧ t.entity = some eid := by
  unfold addEntity at h
  cases htile : tileAt level p with
  | none => rw [htile] at h; cases h
  | some tile =>
    rw [htile] at h
    have h1 : (if tile.entity.isSome then
        (.error .existingEntityError : Except PyErr Level)
      else if !tile.type.passable then .error .tileNotPassableError
      else match setTileAt level p { tile with entity := some eid } with
        | none => .error .indexError
        | some lvl0 =>
            .ok { lvl0 with entities := lvl0.entities ++ [some p] }) = .ok lvl := h
    split at h1
    · cases h1
    · split at h1
      · cases h1
      · cases hset : setTileAt level p { tile with entity := some eid } with
        | none => rw [hset] at h1; cases h1
        | some lvl0 =>
          rw [hset] at h1
          have h2 : Except.ok (ε := PyErr)
              { lvl0 with entities := lvl0.entities ++ [some p] } = .ok lvl := h1
          have h3 : lvl = { lvl0 with entities := lvl0.entities ++ [some p] } := by
            cases h2
            rfl
          subst h3
          refine ⟨{ tile with entity := some eid }, ?_, rfl⟩
          have h4 := tileAt_setTileAt_self hset
          simpa [tileAt] using h4

/-- C9 (amended): when the Hero executes Use on an unoccupied DownStairs
tile, the hero-less previous current level is pushed onto the front of
the upper-levels stack, the first lower level becomes current, and the
hero lands on `(centre, centre)` of the new level with the hero entity
placed on that tile — but `centre = (length − 1) // 2` is computed from
the length of the OLD current level (read before the switch), which
equals the new level's centre only when both levels have the same length
(as the game's generated worlds always do). -/
theorem use_downstairs_descends (direction : Direction) (g : GState)
    (heroTile tt : Tile) (heroId : EntityId) (newCur lvl1 newCur2 : Level)
    (restLower : List Level)
    (hht : tileAt g.current_level g.hero = some heroTile)
    (htt : tileAt g.current_level
      (g.hero.1 + (direction_to_point direction).1,
       g.hero.2 + (direction_to_point direction).2) = some tt)
    (hhe : heroTile.entity = some heroId)
    (hte : tt.entity = none)
    (hty : tt.type = .downStairs)
    (hlow : g.lower_levels = newCur :: restLower)
    (hrem : removeEntity g.current_level g.hero = .ok lvl1)
    (hadd : addEntity newCur
      (Int.fdiv ((g.current_level.tiles.length : Int) - 1) 2,
       Int.fdiv ((g.current_level.tiles.length : Int) - 1) 2) heroId =
      .ok newCur2) :
    ∃ g', useExecute direction g = .ok g' ∧
      g'.upper_levels = lvl1 :: g.upper_levels ∧
      g'.current_level = newCur2 ∧
      g'.lower_levels = restLower ∧
      g'.hero = (Int.fdiv ((g.current_level.tiles.length : Int) - 1) 2,
                 Int.fdiv ((g.current_level.tiles.length : Int) - 1) 2) ∧
      ∃ t', tileAt g'.current_level g'.hero = some t' ∧
        t'.entity = some heroId := by
  unfold useExecute
  rw [hht]
  simp only [orIndexError, bindOk]
  rw [htt]
  simp only [orIndexError, bindOk]
  rw [hhe, hte]
  simp only [bindOk, updEnt]
  rw [if_neg (show ¬ tt.type = .upStairs from by rw [hty]; intro hc; cases hc)]
  rw [if_pos hty]
  rw [hrem]
  simp only [bindOk]
  rw [hlow]
  simp only [bindOk]
  rw [hadd]
  simp only [bindOk, updEnt]
  refine ⟨_, rfl, rfl, rfl, rfl, rfl, ?_⟩
  exact tileAt_addEntity_self hadd

def c9Hero : Ent := mkHero "Hero" 10 1 30 2

/-- 7×7 current level: hero at `(3,2)`, DownStairs at `(3,3)`. -/
def c9Cur7 : Level :=
  { tiles := (List.range 7).map (fun x => (List.range 7).map (fun y =>
      if x = 3 ∧ y = 2 then { type := .floor, entity := some 0 }
      else if x = 3 ∧ y = 3 then new_tile .downStairs
      else new_tile .floor)),
    entities := [some ((3 : Int), (2 : Int))] }

/-- 5×5 all-floor lower level. -/
def c9Low5 : Level :=
  { tiles := (List.range 5).map (fun _ => (List.range 5).map (fun _ =>
      new_tile .floor)),
    entities := [] }

def c9State : GState :=
  { upper_levels := [], current_level := c9Cur7, lower_levels := [c9Low5],
    hero := (3, 2), ents := [(0, c9Hero)], next_id := 1 }

/-- C9 (counterexample): descending from a 7×7 level into a 5×5 level
puts the hero at `(3,3)` — the OLD level's centre `(7−1)//2 = 3` — not at
the new level's centre `(5−1)//2 = 2`: `Use.execute` reads
`level_length = len(world.current_level.tiles)` before switching levels. -/
theorem use_downstairs_new_centre_false :
    (useExecute .north c9State).map (fun g' =>
      (g'.hero, g'.current_level.tiles.length)) = .ok ((3, 3), 5) ∧
    ((3 : Int), (3 : Int)) ≠
      ((Int.fdiv ((5 : Int) - 1) 2, Int.fdiv ((5 : Int) - 1) 2) : Point) :=
  ⟨rfl, by decide⟩

/-- 5×5 current level: hero at `(2,1)`, DownStairs at `(2,2)`. -/
def c9WCur : Level :=
  { tiles := (List.range 5).map (fun x => (List.range 5).map (fun y =>
      if x = 2 ∧ y = 1 then { type := .floor, entity := some 0 }
      else if x = 2 ∧ y = 2 then new_tile .downStairs
      else new_tile .floor)),
    entities := [some ((2 : Int), (1 : Int))] }

def c9WState : GState :=
  { upper_levels := [], current_level := c9WCur, lower_levels := [c9Low5],
    hero := (2, 1), ents := [(0, c9Hero)], next_id := 1 }

theorem use_downstairs_descends_witness :
    ∃ lvl1 newCur2 g', useExecute .north c9WState = .ok g' ∧
      g'.upper_levels = lvl1 :: c9WState.upper_levels ∧
      g'.current_level = newCur2 ∧
      g'.lower_levels = [] ∧
      g'.hero = (Int.fdiv ((c9WState.current_level.tiles.length : Int) - 1) 2,
                 Int.fdiv ((c9WState.current_level.tiles.length : Int) - 1) 2) ∧
      ∃ t', tileAt g'.current_level g'.hero = some t' ∧
        t'.entity = some 0 :=
  ⟨_, _, use_downstairs_descends .north c9WState
    { type := .floor, entity := some 0 } (new_tile .downStairs) 0 c9Low5 _ _ []
    rfl rfl rfl rfl rfl rfl rfl rfl⟩

lemma stepLoop_nodup (fuel : Nat) : ∀ (i : Nat)
    (updated : List (Option EntityId)) (g : GState),
    updated.Nodup → (stepLoop fuel i updated g).1.Nodup := by
  induction fuel with
  | zero =>
    intro i u g h
    simpa [stepLoop] using h
  | succ fuel ih =>
    intro i u g h
    unfold stepLoop
    split
    · split
      · exact ih _ _ _ h
      · split
        · exact h
        · simp only []
          split
          · exact ih _ _ _ h
          · rename_i tl hq hmem
            have h' : (u ++ [tl.entity]).Nodup := by
              simp [List.nodup_append, h, hmem]
            split
            · exact h'
            · split
              · exact h'
              · split
                · exact h'
                · split
                  · exact h'
                  · split
                    · exact h'
                    · exact ih _ _ _ h'
    · exact h

/-- C4: in one call of `world.step`, no entity's `step` method is invoked
twice: the list of entity references whose step ran (in invocation order)
is duplicate-free, for every oracle, fuel and starting state — including
runs where an entity is relocated into a not-yet-visited slot of the
entity list, because the `entity in updated_entities` guard compares the
entity objects themselves (identity), not positions. -/
theorem step_updates_each_entity_once (oracle : StepOracle) (fuel : Nat)
    (g : GState) : (world_step oracle fuel g).1.Nodup := by
  unfold world_step
  split
  · exact List.nodup_nil
  · exact stepLoop_nodup fuel 0 [] _ List.nodup_nil

/-! ## C10 infrastructure: which `PyErr`s each operation can raise, and
how each step transforms the entity store -/

lemma bindErr {α β : Type} (e : PyErr) (f : α → Except PyErr β) :
    (do
      let x ← (Except.error e : Except PyErr α)
      f x) = .error e := rfl

lemma point_to_direction_err (p : Point) (e : PyErr)
    (h : point_to_direction p = .error e) : e = .valueError := by
  unfold point_to_direction at h
  repeat' split at h
  all_goals first
    | (cases h; try rfl)
    | (injection h with h2; exact h2.symm)

lemma expandStep_err (level : Level) (tp : Point) (cl : List Node) (cn : Node)
    (ol : List Node) (adj : Point) (e : PyErr)
    (h : expandStep level tp cl cn ol adj = .error e) : e = .indexError := by
  unfold expandStep at h
  cases ht : tileAt level adj with
  | none =>
    rw [ht] at h
    injection h with h2
    exact h2.symm
  | some tile =>
    rw [ht] at h
    simp only [] at h
    repeat' split at h
    all_goals cases h

lemma expandAll_err (level : Level) (tp : Point) (cl : List Node) (cn : Node) :
    ∀ (adjs : List Point) (ol : List Node) (e : PyErr),
    expandAll level tp cl cn ol adjs = .error e → e = .indexError := by
  intro adjs
  induction adjs with
  | nil =>
    intro ol e h
    cases h
  | cons adj rest ih =>
    intro ol e h
    unfold expandAll at h
    cases hs : expandStep level tp cl cn ol adj with
    | error e2 =>
      rw [hs] at h
      simp only [bindErr] at h
      cases h
      exact expandStep_err _ _ _ _ _ _ _ hs
    | ok ol' =>
      rw [hs] at h
      simp only [bindOk] at h
      exact ih ol' e h

lemma buildPath_err (point : Point) : (n : Node) → ∀ e : PyErr,
    buildPath point n = .error e → e ≠ .heroActionsIndexError
  | .mk none cp a b c => by
    intro e h
    unfold buildPath at h
    split at h
    · cases h
    · injection h with h2
      subst h2
      intro hc
      cases hc
  | .mk (some par) cp a b c => by
    intro e h
    unfold buildPath at h
    split at h
    · cases h
    · have h2 : (do
          let rest ← buildPath point par
          let d ← point_to_direction (cp.1 - par.point.1, cp.2 - par.point.2)
          (Except.ok (rest ++ [d]) : Except PyErr (List Direction))) =
          .error e := h
      cases hb : buildPath point par with
      | error e2 =>
        rw [hb] at h2
        simp only [bindErr] at h2
        injection h2 with h3
        subst h3
        exact buildPath_err point par e2 hb
      | ok rest =>
        rw [hb] at h2
        simp only [bindOk] at h2
        cases hd : point_to_direction
            (cp.1 - par.point.1, cp.2 - par.point.2) with
        | error e3 =>
          rw [hd] at h2
          simp only [bindErr] at h2
          injection h2 with h3
          subst h3
          rw [point_to_direction_err _ _ hd]
          intro hc
          cases hc
        | ok d =>
          rw [hd] at h2
          simp only [bindOk] at h2
          cases h2

lemma findPathLoop_err (level : Level) (point tp : Point) : ∀ (fuel : Nat)
    (ol cl : List Node) (e : PyErr),
    findPathLoop level point tp fuel ol cl = .error e →
    e ≠ .heroActionsIndexError := by
  intro fuel
  induction fuel with
  | zero =>
    intro ol cl e h
    injection h with h2
    subst h2
    intro hc
    cases hc
  | succ fuel ih =>
    intro ol cl e h
    unfold findPathLoop at h
    simp only [] at h
    split at h
    · injection h with h2
      subst h2
      intro hc
      cases hc
    · split at h
      · exact buildPath_err _ _ _ h
      · split at h
        · rename_i e2 he2
          injection h with h2
          subst h2
          rw [expandAll_err _ _ _ _ _ _ _ he2]
          intro hc
          cases hc
        · exact ih _ _ _ h

lemma find_path_err (point tp : Point) (level : Level) (e : PyErr)
    (h : find_path point tp level = .error e) : e ≠ .heroActionsIndexError :=
  findPathLoop_err _ _ _ _ _ _ _ h

lemma storeUpdate_keys (l : List (EntityId × Ent)) (id : EntityId)
    (f : Ent → Ent) :
    (storeUpdate l id f).map Prod.fst = l.map Prod.fst := by
  induction l with
  | nil => rfl
  | cons kv kvs ih =>
    unfold storeUpdate
    split
    · rfl
    · simp [ih]

lemma storeUpdate_pres {l : List (EntityId × Ent)}
    (P : EntityId × Ent → Prop) (id : EntityId) (f : Ent → Ent)
    (hf : ∀ kv : EntityId × Ent, kv.1 = id → P kv → P (kv.1, f kv.2))
    (hl : ∀ kv ∈ l, P kv) : ∀ kv ∈ storeUpdate l id f, P kv := by
  induction l with
  | nil => intro kv hkv; cases hkv
  | cons kv0 kvs ih =>
    intro kv hkv
    unfold storeUpdate at hkv
    split at hkv
    · rename_i heq
      rcases List.mem_cons.1 hkv with h1 | h1
      · subst h1
        exact hf kv0 heq (hl kv0 (List.mem_cons_self _ _))
      · exact hl kv (List.mem_cons.2 (.inr h1))
    · rcases List.mem_cons.1 hkv with h1 | h1
      · subst h1
        exact hl kv (List.mem_cons_self _ _)
      · exact ih (fun kv2 hkv2 => hl kv2 (List.mem_cons.2 (.inr hkv2))) kv h1

lemma storeGet_mem {l : List (EntityId × Ent)} {id : EntityId} {e : Ent}
    (h : storeGet l id = some e) : (id, e) ∈ l := by
  induction l with
  | nil => cases h
  | cons kv kvs ih =>
    unfold storeGet at h
    split at h
    · rename_i heq
      injection h with h2
      subst h2
      subst heq
      exact List.mem_cons_self _ _
    · exact List.mem_cons.2 (.inr (ih h))

lemma storeGet_append (l₁ l₂ : List (EntityId × Ent)) (id : EntityId) :
    storeGet (l₁ ++ l₂) id =
      match storeGet l₁ id with
      | some e => some e
      | none => storeGet l₂ id := by
  induction l₁ with
  | nil => simp [storeGet]
  | cons kv kvs ih =>
    by_cases hk : kv.1 = id
    · simp [storeGet, hk]
    · simp [storeGet, hk, ih]

/-- All hero-kind entries of the store sit at the single hero's key. -/
def entsOK (hid : EntityId) (l : List (EntityId × Ent)) : Prop :=
  ∀ kv ∈ l, kv.2.kind = .hero → kv.1 = hid

/-- The UI-layer guard of `state.py`: every hero-kind entity has energy
below 100 or a pending action. -/
def heroGuard (l : List (EntityId × Ent)) : Prop :=
  ∀ kv ∈ l, kv.2.kind = .hero → (kv.2.energy < 100 ∨ kv.2.actions ≠ [])

/-- Every entry at a given key has the given kind. -/
def keyKind (id0 : EntityId) (k : EKind) (l : List (EntityId × Ent)) : Prop :=
  ∀ kv ∈ l, kv.1 = id0 → kv.2.kind = k

instance (hid : EntityId) (l : List (EntityId × Ent)) :
    Decidable (entsOK hid l) := by
  unfold entsOK; infer_instance

instance (l : List (EntityId × Ent)) : Decidable (heroGuard l) := by
  unfold heroGuard; infer_instance

instance (id0 : EntityId) (k : EKind) (l : List (EntityId × Ent)) :
    Decidable (keyKind id0 k l) := by
  unfold keyKind; infer_instance

lemma orIndexError_err {α : Type} (x : Option α) (e : PyErr)
    (h : orIndexError x = .error e) : e = .indexError := by
  cases x with
  | none =>
    injection h with h2
    exact h2.symm
  | some a => cases h

lemma getEnt_err (l : List (EntityId × Ent)) (id : EntityId) (e : PyErr)
    (h : getEnt l id = .error e) : e = .attrError := by
  unfold getEnt at h
  split at h
  · cases h
  · injection h with h2
    exact h2.symm

lemma removeEntity_err (lvl : Level) (p : Point) (e : PyErr)
    (h : removeEntity lvl p = .error e) : e ≠ .heroActionsIndexError := by
  unfold removeEntity at h
  repeat' split at h
  all_goals first
    | (cases h; try (intro hc; cases hc))
    | (injection h with h2; subst h2; intro hc; cases hc)

lemma addEntity_err (lvl : Level) (p : Point) (eid : EntityId) (e : PyErr)
    (h : addEntity lvl p eid = .error e) : e ≠ .heroActionsIndexError := by
  unfold addEntity at h
  repeat' split at h
  all_goals first
    | (cases h; try (intro hc; cases hc))
    | (injection h with h2; subst h2; intro hc; cases hc)

lemma bindDef {α β : Type} (x : Except PyErr α) (f : α → Except PyErr β) :
    (do
      let a ← x
      f a) =
      match x with
      | .ok a => f a
      | .error e => .error e := by
  cases x <;> rfl

lemma errLeaf {Q : GState → Prop} {r : Except PyErr GState} {X : PyErr}
    (h : Except.error X = r) (hX : X ≠ .heroActionsIndexError) :
    (∀ e, r = .error e → e ≠ .heroActionsIndexError) ∧
    (∀ g', r = .ok g' → Q g') := by
  subst h
  constructor
  · intro e he
    injection he with h2
    subst h2
    exact hX
  · intro g' hg'
    cases hg'

lemma okLeaf {Q : GState → Prop} {r : Except PyErr GState} {Y : GState}
    (h : Except.ok Y = r) (hQ : Q Y) :
    (∀ e, r = .error e → e ≠ .heroActionsIndexError) ∧
    (∀ g', r = .ok g' → Q g') := by
  subst h
  constructor
  · intro e he
    cases he
  · intro g' hg'
    injection hg' with h2
    subst h2
    exact hQ

lemma moveExecute_spec (direction : Direction) (g : GState)
    (r : Except PyErr GState) (h : moveExecute direction g = r) :
    (∀ e, r = .error e → e ≠ .heroActionsIndexError) ∧
    (∀ g', r = .ok g' →
      g'.ents.map Prod.fst = g.ents.map Prod.fst ∧
      g'.next_id = g.next_id ∧
      ∀ hid, entsOK hid g.ents → entsOK hid g'.ents) := by
  unfold moveExecute at h
  simp only [bindDef, orIndexError] at h
  repeat' split at h
  all_goals first
    | (refine errLeaf h ?_; intro hc; cases hc; done)
    | (rename_i e2 heq
       refine errLeaf h ?_
       rw [getEnt_err _ _ _ heq]
       intro hc; cases hc; done)
    | (rename_i e2 heq
       refine errLeaf h ?_
       rw [orIndexError_err _ _ heq]
       intro hc; cases hc; done)
    | (rename_i e2 heq
       exact errLeaf h (removeEntity_err _ _ _ heq))
    | (rename_i e2 heq
       exact errLeaf h (addEntity_err _ _ _ _ heq))
    | (refine okLeaf h ?_
       refine ⟨by simp [updEnt, storeUpdate_keys], by simp [updEnt], ?_⟩
       intro hid hOK
       unfold entsOK
       simp only [updEnt]
       repeat'
         refine storeUpdate_pres _ _ _ (fun kv hk hP hkind => hP hkind) ?_
       exact hOK
       done)

lemma useExecute_spec (direction : Direction) (g : GState)
    (r : Except PyErr GState) (h : useExecute direction g = r) :
    (∀ e, r = .error e → e ≠ .heroActionsIndexError) ∧
    (∀ g', r = .ok g' →
      g'.ents.map Prod.fst = g.ents.map Prod.fst ∧
      g'.next_id = g.next_id ∧
      ∀ hid, entsOK hid g.ents → entsOK hid g'.ents) := by
  unfold useExecute at h
  simp only [bindDef, orIndexError] at h
  repeat' split at h
  all_goals first
    | (refine errLeaf h ?_; intro hc; cases hc; done)
    | (rename_i e2 heq
       refine errLeaf h ?_
       rw [getEnt_err _ _ _ heq]
       intro hc; cases hc; done)
    | (rename_i e2 heq
       refine errLeaf h ?_
       rw [orIndexError_err _ _ heq]
       intro hc; cases hc; done)
    | (rename_i e2 heq
       exact errLeaf h (removeEntity_err _ _ _ heq))
    | (rename_i e2 heq
       exact errLeaf h (addEntity_err _ _ _ _ heq))
    | (refine okLeaf h ?_
       refine ⟨by simp [updEnt, storeUpdate_keys], by simp [updEnt], ?_⟩
       intro hid hOK
       unfold entsOK
       simp only [updEnt]
       repeat'
         refine storeUpdate_pres _ _ _ (fun kv hk hP hkind => hP hkind) ?_
       exact hOK
       done)

lemma heroLevelUp_energy (e : Ent) : (heroLevelUp e).energy = e.energy := rfl

lemma heroLevelUp_actions (e : Ent) : (heroLevelUp e).actions = e.actions := rfl

lemma heroLevelUp_kind (e : Ent) : (heroLevelUp e).kind = e.kind := rfl

lemma heroRegen_kind (e : Ent) : (heroRegen e).kind = e.kind := by
  unfold heroRegen
  split
  · split <;> rfl
  · rfl

lemma heroStep_spec (selfId : EntityId) (g : GState) (r : Except PyErr GState)
    (h : heroStep selfId g = r)
    (hguard : ∀ h0, storeGet g.ents selfId = some h0 →
      (h0.energy < 100 ∨ h0.actions ≠ [])) :
    (∀ e, r = .error e → e ≠ .heroActionsIndexError) ∧
    (∀ g', r = .ok g' →
      g'.ents.map Prod.fst = g.ents.map Prod.fst ∧
      g'.next_id = g.next_id ∧
      ∀ hid, entsOK hid g.ents → entsOK hid g'.ents) := by
  cases hg0 : storeGet g.ents selfId with
  | none =>
    have h1 : getEnt g.ents selfId = .error .attrError := by simp [getEnt, hg0]
    unfold heroStep at h
    rw [h1] at h
    simp only [bindErr] at h
    exact errLeaf h (by intro hc; cases hc)
  | some h0 =>
    have h1 : getEnt g.ents selfId = .ok h0 := by simp [getEnt, hg0]
    have hguard0 := hguard h0 hg0
    unfold heroStep at h
    rw [h1] at h
    simp only [bindOk] at h
    by_cases hexp : h0.experience ≥ 6
    · rw [if_pos hexp] at h
      rw [getEnt_updEnt_self (storeGet_updEnt_self hg0 heroLevelUp) heroRegen]
        at h
      simp only [bindOk] at h
      rw [heroRegen_energy, heroLevelUp_energy, heroRegen_actions,
        heroLevelUp_actions] at h
      by_cases hen : h0.energy ≥ 100
      · rw [if_pos hen] at h
        cases hacts : h0.actions with
        | nil => exact absurd hacts (hguard0.resolve_left (by omega))
        | cons a rest =>
          rw [hacts] at h
          simp only [] at h
          cases a with
          | move d =>
            simp only [HeroAction.execute, bindDef] at h
            split at h
            · rename_i g3 heq
              refine okLeaf h ?_
              obtain ⟨hk3, hn3, hp3⟩ := (moveExecute_spec _ _ _ heq).2 _ rfl
              refine ⟨by simp [updEnt, storeUpdate_keys] at hk3 ⊢; rw [hk3],
                by simp [updEnt] at hn3 ⊢; rw [hn3], ?_⟩
              intro hid hOK
              have hOK2 : entsOK hid (updEnt (updEnt (updEnt g selfId
                  heroLevelUp) selfId heroRegen) selfId
                  (fun e => { e with actions := rest })).ents := by
                unfold entsOK
                simp only [updEnt]
                refine storeUpdate_pres _ _ _
                  (fun kv hk hP hkind => hP hkind) ?_
                refine storeUpdate_pres _ _ _
                  (fun kv hk hP hkind => hP (by rwa [heroRegen_kind] at hkind)) ?_
                refine storeUpdate_pres _ _ _
                  (fun kv hk hP hkind => hP hkind) ?_
                exact hOK
              have h3 := hp3 hid hOK2
              unfold entsOK
              simp only [updEnt]
              refine storeUpdate_pres _ _ _
                (fun kv hk hP hkind => hP hkind) ?_
              exact h3
            · rename_i e2 heq
              exact errLeaf h ((moveExecute_spec _ _ _ heq).1 e2 rfl)
          | use d =>
            simp only [HeroAction.execute, bindDef] at h
            split at h
            · rename_i g3 heq
              refine okLeaf h ?_
              obtain ⟨hk3, hn3, hp3⟩ := (useExecute_spec _ _ _ heq).2 _ rfl
              refine ⟨by simp [updEnt, storeUpdate_keys] at hk3 ⊢; rw [hk3],
                by simp [updEnt] at hn3 ⊢; rw [hn3], ?_⟩
              intro hid hOK
              have hOK2 : entsOK hid (updEnt (updEnt (updEnt g selfId
                  heroLevelUp) selfId heroRegen) selfId
                  (fun e => { e with actions := rest })).ents := by
                unfold entsOK
                simp only [updEnt]
                refine storeUpdate_pres _ _ _
                  (fun kv hk hP hkind => hP hkind) ?_
                refine storeUpdate_pres _ _ _
                  (fun kv hk hP hkind => hP (by rwa [heroRegen_kind] at hkind)) ?_
                refine storeUpdate_pres _ _ _
                  (fun kv hk hP hkind => hP hkind) ?_
                exact hOK
              have h3 := hp3 hid hOK2
              unfold entsOK
              simp only [updEnt]
              refine storeUpdate_pres _ _ _
                (fun kv hk hP hkind => hP hkind) ?_
              exact h3
            · rename_i e2 heq
              exact errLeaf h ((useExecute_spec _ _ _ heq).1 e2 rfl)
          | wait =>
            simp only [HeroAction.execute, waitExecute, bindOk] at h
            refine okLeaf h ?_
            refine ⟨by simp [updEnt, storeUpdate_keys], by simp [updEnt], ?_⟩
            intro hid hOK
            unfold entsOK
            simp only [updEnt]
            refine storeUpdate_pres _ _ _
              (fun kv hk hP hkind => hP hkind) ?_
            refine storeUpdate_pres _ _ _
              (fun kv hk hP hkind => hP hkind) ?_
            refine storeUpdate_pres _ _ _
              (fun kv hk hP hkind => hP (by rwa [heroRegen_kind] at hkind)) ?_
            refine storeUpdate_pres _ _ _
              (fun kv hk hP hkind => hP hkind) ?_
            exact hOK
      · rw [if_neg hen] at h
        try simp only [bindOk] at h
        refine okLeaf h ?_
        refine ⟨by simp [updEnt, storeUpdate_keys], by simp [updEnt], ?_⟩
        intro hid hOK
        unfold entsOK
        simp only [updEnt]
        refine storeUpdate_pres _ _ _
          (fun kv hk hP hkind => hP hkind) ?_
        refine storeUpdate_pres _ _ _
          (fun kv hk hP hkind => hP (by rwa [heroRegen_kind] at hkind)) ?_
        refine storeUpdate_pres _ _ _
          (fun kv hk hP hkind => hP hkind) ?_
        exact hOK
    · rw [if_neg hexp] at h
      rw [getEnt_updEnt_self hg0 heroRegen] at h
      simp only [bindOk] at h
      rw [heroRegen_energy, heroRegen_actions] at h
      by_cases hen : h0.energy ≥ 100
      · rw [if_pos hen] at h
        cases hacts : h0.actions with
        | nil => exact absurd hacts (hguard0.resolve_left (by omega))
        | cons a rest =>
          rw [hacts] at h
          simp only [] at h
          cases a with
          | move d =>
            simp only [HeroAction.execute, bindDef] at h
            split at h
            · rename_i g3 heq
              refine okLeaf h ?_
              obtain ⟨hk3, hn3, hp3⟩ := (moveExecute_spec _ _ _ heq).2 _ rfl
              refine ⟨by simp [updEnt, storeUpdate_keys] at hk3 ⊢; rw [hk3],
                by simp [updEnt] at hn3 ⊢; rw [hn3], ?_⟩
              intro hid hOK
              have hOK2 : entsOK hid (updEnt (updEnt g selfId heroRegen) selfId
                  (fun e => { e with actions := rest })).ents := by
                unfold entsOK
                simp only [updEnt]
                refine storeUpdate_pres _ _ _
                  (fun kv hk hP hkind => hP hkind) ?_
                refine storeUpdate_pres _ _ _
                  (fun kv hk hP hkind => hP (by rwa [heroRegen_kind] at hkind)) ?_
                exact hOK
              have h3 := hp3 hid hOK2
              unfold entsOK
              simp only [updEnt]
              refine storeUpdate_pres _ _ _
                (fun kv hk hP hkind => hP hkind) ?_
              exact h3
            · rename_i e2 heq
              exact errLeaf h ((moveExecute_spec _ _ _ heq).1 e2 rfl)
          | use d =>
            simp only [HeroAction.execute, bindDef] at h
            split at h
            · rename_i g3 heq
              refine okLeaf h ?_
              obtain ⟨hk3, hn3, hp3⟩ := (useExecute_spec _ _ _ heq).2 _ rfl
              refine ⟨by simp [updEnt, storeUpdate_keys] at hk3 ⊢; rw [hk3],
                by simp [updEnt] at hn3 ⊢; rw [hn3], ?_⟩
              intro hid hOK
              have hOK2 : entsOK hid (updEnt (updEnt g selfId heroRegen) selfId
                  (fun e => { e with actions := rest })).ents := by
                unfold entsOK
                simp only [updEnt]
                refine storeUpdate_pres _ _ _
                  (fun kv hk hP hkind => hP hkind) ?_
                refine storeUpdate_pres _ _ _
                  (fun kv hk hP hkind => hP (by rwa [heroRegen_kind] at hkind)) ?_
                exact hOK
              have h3 := hp3 hid hOK2
              unfold entsOK
              simp only [updEnt]
              refine storeUpdate_pres _ _ _
                (fun kv hk hP hkind => hP hkind) ?_
              exact h3
            · rename_i e2 heq
              exact errLeaf h ((useExecute_spec _ _ _ heq).1 e2 rfl)
          | wait =>
            simp only [HeroAction.execute, waitExecute, bindOk] at h
            refine okLeaf h ?_
            refine ⟨by simp [updEnt, storeUpdate_keys], by simp [updEnt], ?_⟩
            intro hid hOK
            unfold entsOK
            simp only [updEnt]
            refine storeUpdate_pres _ _ _
              (fun kv hk hP hkind => hP hkind) ?_
            refine storeUpdate_pres _ _ _
              (fun kv hk hP hkind => hP hkind) ?_
            refine storeUpdate_pres _ _ _
              (fun kv hk hP hkind => hP (by rwa [heroRegen_kind] at hkind)) ?_
            exact hOK
      · rw [if_neg hen] at h
        try simp only [bindOk] at h
        refine okLeaf h ?_
        refine ⟨by simp [updEnt, storeUpdate_keys], by simp [updEnt], ?_⟩
        intro hid hOK
        unfold entsOK
        simp only [updEnt]
        refine storeUpdate_pres _ _ _
          (fun kv hk hP hkind => hP hkind) ?_
        refine storeUpdate_pres _ _ _
          (fun kv hk hP hkind => hP (by rwa [heroRegen_kind] at hkind)) ?_
        exact hOK

/-- Combined pointwise invariant used while walking a monster's step: the
stepping entity's key holds a monster, and every hero-kind entry obeys
the UI guard. -/
def presP (selfId : EntityId) (kv : EntityId × Ent) : Prop :=
  (kv.1 = selfId → kv.2.kind = .monster) ∧
  (kv.2.kind = .hero → (kv.2.energy < 100 ∨ kv.2.actions ≠ []))

lemma presP_frameLayer {selfId : EntityId} {l : List (EntityId × Ent)}
    (id : EntityId) (f : Ent → Ent)
    (hfk : ∀ e, (f e).kind = e.kind)
    (hfe : ∀ e, (f e).energy = e.energy)
    (hfa : ∀ e, (f e).actions = e.actions)
    (hl : ∀ kv ∈ l, presP selfId kv) :
    ∀ kv ∈ storeUpdate l id f, presP selfId kv := by
  refine storeUpdate_pres _ _ _ ?_ hl
  intro kv hk hP
  constructor
  · intro hks
    simp only [hfk]
    exact hP.1 hks
  · intro hkind
    simp only [hfk] at hkind
    simp only [hfe, hfa]
    exact hP.2 hkind

lemma presP_selfLayer {selfId : EntityId} {l : List (EntityId × Ent)}
    (f : Ent → Ent) (hfk : ∀ e, (f e).kind = e.kind)
    (hl : ∀ kv ∈ l, presP selfId kv) :
    ∀ kv ∈ storeUpdate l selfId f, presP selfId kv := by
  refine storeUpdate_pres _ _ _ ?_ hl
  intro kv hk hP
  constructor
  · intro hks
    simp only [hfk]
    exact hP.1 hks
  · intro hkind
    simp only [hfk] at hkind
    rw [hP.1 hk] at hkind
    cases hkind

lemma monsterStep_spec (selfId : EntityId) (pt : Point) (g : GState)
    (r : Except PyErr GState) (h : monsterStep selfId pt g = r) :
    (∀ e, r = .error e → e ≠ .heroActionsIndexError) ∧
    (∀ g', r = .ok g' →
      g'.ents.map Prod.fst = g.ents.map Prod.fst ∧
      g'.next_id = g.next_id ∧
      (∀ hid, entsOK hid g.ents → entsOK hid g'.ents) ∧
      (keyKind selfId .monster g.ents → heroGuard g.ents →
        heroGuard g'.ents)) := by
  unfold monsterStep at h
  simp only [bindDef, orIndexError] at h
  repeat' split at h
  all_goals first
    | (refine errLeaf h ?_; intro hc; cases hc; done)
    | (rename_i e2 heq
       refine errLeaf h ?_
       rw [getEnt_err _ _ _ heq]
       intro hc; cases hc; done)
    | (rename_i e2 heq
       refine errLeaf h ?_
       rw [orIndexError_err _ _ heq]
       intro hc; cases hc; done)
    | (rename_i e2 heq
       exact errLeaf h (removeEntity_err _ _ _ heq))
    | (rename_i e2 heq
       exact errLeaf h (addEntity_err _ _ _ _ heq))
    | (rename_i e2 heq
       exact errLeaf h (find_path_err _ _ _ _ heq))
    | (refine okLeaf h ?_
       refine ⟨by simp [updEnt, storeUpdate_keys], by simp [updEnt], ?_, ?_⟩
       · intro hid hOK
         unfold entsOK
         try simp only [updEnt]
         repeat'
           refine storeUpdate_pres _ _ _ (fun kv hk hP hkind => hP hkind) ?_
         exact hOK
         done
       · intro hkk hguard
         unfold heroGuard
         try simp only [updEnt]
         suffices hs : ∀ kv ∈ _, presP selfId kv by
           intro kv hkv hkind
           exact (hs kv hkv).2 hkind
         repeat' first
           | refine presP_frameLayer _ _ (fun e => rfl) (fun e => rfl)
               (fun e => rfl) ?_
           | refine presP_selfLayer _ (fun e => rfl) ?_
         exact fun kv hkv =>
           ⟨fun hk => hkk kv hkv hk, fun hkind => hguard kv hkv hkind⟩
         done)

lemma storeGet_unique {l : List (EntityId × Ent)} {id : EntityId} {e : Ent}
    (hnd : (l.map Prod.fst).Nodup) (hget : storeGet l id = some e) :
    ∀ kv ∈ l, kv.1 = id → kv.2 = e := by
  induction l with
  | nil => intro kv hkv; cases hkv
  | cons kv0 kvs ih =>
    intro kv hkv hk1
    simp only [List.map_cons, List.nodup_cons] at hnd
    unfold storeGet at hget
    rcases List.mem_cons.1 hkv with h1 | h1
    · subst h1
      rw [if_pos hk1] at hget
      exact Option.some.inj hget
    · split at hget
      · rename_i hk0
        exfalso
        exact hnd.1 (by
          rw [hk0, ← hk1]
          exact List.mem_map.2 ⟨kv, h1, rfl⟩)
      · exact ih hnd.2 hget kv h1 hk1

lemma pyGetL_mem {α : Type} {l : List α} {i : Int} {a : α}
    (h : pyGetL l i = some a) : a ∈ l := by
  unfold pyGetL at h
  split at h
  · exact List.get?_mem h
  · split at h
    · exact List.get?_mem h
    · cases h

lemma monster_fns_kinds :
    ∀ row ∈ monster_fns, ∀ m ∈ row, m.kind = .monster := by
  decide

lemma entStep_spec (hid eid : EntityId) (pt : Point) (g : GState)
    (r : Except PyErr GState) (h : entStep eid pt g = r)
    (hnd : (g.ents.map Prod.fst).Nodup)
    (hOK : entsOK hid g.ents)
    (hdisj : heroGuard g.ents ∨ eid ≠ hid) :
    (∀ e, r = .error e → e ≠ .heroActionsIndexError) ∧
    (∀ g', r = .ok g' →
      g'.ents.map Prod.fst = g.ents.map Prod.fst ∧
      g'.next_id = g.next_id ∧
      entsOK hid g'.ents ∧
      (heroGuard g.ents → (eid = hid ∨ heroGuard g'.ents))) := by
  unfold entStep at h
  cases hg : storeGet g.ents eid with
  | none =>
    rw [hg] at h
    have h2 : (Except.error PyErr.attrError : Except PyErr GState) = r := h
    constructor
    · intro e he
      rw [← h2] at he
      injection he with h3
      subst h3
      intro hc
      cases hc
    · intro g' hg'
      rw [← h2] at hg'
      cases hg'
  | some e0 =>
    rw [hg] at h
    have h2 : (match e0.kind with
      | EKind.hero => heroStep eid g
      | EKind.monster => monsterStep eid pt g) = r := h
    cases hk : e0.kind with
    | hero =>
      rw [hk] at h2
      have h3 : heroStep eid g = r := h2
      have heid : eid = hid := hOK (eid, e0) (storeGet_mem hg) hk
      have hguard : heroGuard g.ents :=
        hdisj.resolve_right (fun hne => absurd heid hne)
      have hguard2 : ∀ h0, storeGet g.ents eid = some h0 →
          (h0.energy < 100 ∨ h0.actions ≠ []) := by
        intro h0 hh0
        rw [hg] at hh0
        injection hh0 with h4
        rw [← h4]
        exact hguard (eid, e0) (storeGet_mem hg) hk
      obtain ⟨he, ho⟩ := heroStep_spec eid g r h3 hguard2
      constructor
      · exact he
      · intro g' hg'
        obtain ⟨k, n, p⟩ := ho g' hg'
        exact ⟨k, n, p hid hOK, fun _ => .inl heid⟩
    | monster =>
      rw [hk] at h2
      have h3 : monsterStep eid pt g = r := h2
      obtain ⟨he, ho⟩ := monsterStep_spec eid pt g r h3
      constructor
      · exact he
      · intro g' hg'
        obtain ⟨k, n, p, q⟩ := ho g' hg'
        have hkk : keyKind eid .monster g.ents := by
          intro kv hkv hk1
          rw [storeGet_unique hnd hg kv hkv hk1]
          exact hk
        exact ⟨k, n, p hid hOK, fun hguard => .inr (q hkk hguard)⟩

lemma spawnPhase_spec (oracle : StepOracle) (g : GState)
    (r : Except PyErr GState) (h : spawnPhase oracle g = r) :
    (∀ e, r = .error e → e ≠ .heroActionsIndexError) ∧
    (∀ g1, r = .ok g1 →
      ((g.ents.map Prod.fst).Nodup → (∀ kv ∈ g.ents, kv.1 < g.next_id) →
        (g1.ents.map Prod.fst).Nodup) ∧
      (∀ hid, entsOK hid g.ents → entsOK hid g1.ents) ∧
      (heroGuard g.ents → heroGuard g1.ents)) := by
  unfold spawnPhase at h
  split at h
  · split at h
    · exact errLeaf h (by intro hc; cases hc)
    · split at h
      · split at h
        · exact errLeaf h (by intro hc; cases hc)
        · rename_i row heqRow
          split at h
          · exact errLeaf h (by intro hc; cases hc)
          · rename_i ent heqEnt
            split at h
            · rename_i e2 heqA
              exact errLeaf h (addEntity_err _ _ _ _ heqA)
            · rename_i lvl heqA
              have hm : ent.kind = .monster :=
                monster_fns_kinds row (pyGetL_mem heqRow) ent
                  (List.get?_mem heqEnt)
              refine okLeaf h ?_
              refine ⟨?_, ?_, ?_⟩
              · intro hnd hb
                simp only [List.map_append, List.map_cons, List.map_nil]
                rw [List.nodup_append]
                refine ⟨hnd, List.nodup_singleton _, ?_⟩
                intro a ha hmem2
                simp at hmem2
                obtain ⟨kv, hkv, hfst⟩ := List.mem_map.1 ha
                have h5 := hb kv hkv
                rw [hfst] at h5
                exact absurd hmem2 (Nat.ne_of_lt h5)
              · intro hid hOK kv hkv
                rcases List.mem_append.1 hkv with h1 | h1
                · exact hOK kv h1
                · simp only [List.mem_singleton] at h1
                  subst h1
                  intro hkind
                  rw [hm] at hkind
                  cases hkind
              · intro hguard kv hkv
                rcases List.mem_append.1 hkv with h1 | h1
                · exact hguard kv h1
                · simp only [List.mem_singleton] at h1
                  subst h1
                  intro hkind
                  rw [hm] at hkind
                  cases hkind
      · exact okLeaf h ⟨fun hnd _ => hnd, fun hid hOK => hOK, fun hg => hg⟩
  · exact okLeaf h ⟨fun hnd _ => hnd, fun hid hOK => hOK, fun hg => hg⟩

lemma stepLoop_spec (hid : EntityId) : ∀ (fuel i : Nat)
    (updated : List (Option EntityId)) (g : GState),
    (g.ents.map Prod.fst).Nodup →
    entsOK hid g.ents →
    (some hid ∈ updated ∨ heroGuard g.ents) →
    ∀ e, (stepLoop fuel i updated g).2 = .error e →
    e ≠ .heroActionsIndexError := by
  intro fuel
  induction fuel with
  | zero =>
    intro i u g hnd hOK hinv e h
    have h2 : (Except.error PyErr.fuelOut : Except PyErr GState) = .error e := h
    injection h2 with h3
    subst h3
    intro hc
    cases hc
  | succ fuel ih =>
    intro i u g hnd hOK hinv e h
    unfold stepLoop at h
    split at h
    · split at h
      · exact ih _ _ _ hnd hOK hinv e h
      · split at h
        · have h2 : (Except.error PyErr.indexError : Except PyErr GState) =
              .error e := h
          injection h2 with h3
          subst h3
          intro hc
          cases hc
        · rename_i tl heqTl
          simp only [] at h
          split at h
          · exact ih _ _ _ hnd hOK hinv e h
          · rename_i hmem
            split at h
            · have h2 : (Except.error PyErr.attrError : Except PyErr GState) =
                  .error e := h
              injection h2 with h3
              subst h3
              intro hc
              cases hc
            · rename_i eid heqRef
              have hdisj : heroGuard g.ents ∨ eid ≠ hid := by
                rcases hinv with hm | hg2
                · right
                  intro hEq
                  subst hEq
                  exact hmem (heqRef ▸ hm)
                · left
                  exact hg2
              split at h
              · rename_i e2 heqE
                have h2 : (Except.error e2 : Except PyErr GState) =
                    .error e := h
                injection h2 with h3
                subst h3
                exact (entStep_spec hid eid _ g _ heqE hnd hOK hdisj).1 e2 rfl
              · rename_i g' heqE
                obtain ⟨k, n, p, q⟩ :=
                  (entStep_spec hid eid _ g _ heqE hnd hOK hdisj).2 g' rfl
                split at h
                · have h2 : (Except.error PyErr.indexError :
                      Except PyErr GState) = .error e := h
                  injection h2 with h3
                  subst h3
                  intro hc
                  cases hc
                · split at h
                  · have h2 : (Except.ok g' : Except PyErr GState) =
                        .error e := h
                    cases h2
                  · split at h
                    · have h2 : (Except.ok g' : Except PyErr GState) =
                          .error e := h
                      cases h2
                    · refine ih _ _ _ ?_ ?_ ?_ e h
                      · rw [k]
                        exact hnd
                      · exact p
                      · rcases hinv with hm | hg2
                        · exact .inl (List.mem_append.2 (.inl hm))
                        · rcases q hg2 with hEq | hg3
                          · refine .inl (List.mem_append.2 (.inr ?_))
                            rw [heqRef, hEq]
                            exact List.mem_singleton_self _
                          · exact .inr hg3
    · have h2 : (Except.ok { g with current_level :=
          { g.current_level with entities :=
            g.current_level.entities.filter (fun p => p.isSome) } } :
          Except PyErr GState) = .error e := h
      cases h2

/-- C10: (i) running `Hero.step` while the hero has energy ≥ 100 and an
empty action queue hits the unguarded `self.actions[0]` and raises
`IndexError`.  (ii) Under the precondition the UI layer maintains before
each call — the single hero has energy < 100 or a queued action
(`state.py` checks exactly this before stepping the world) — one call of
`world.step` never raises that `IndexError`: monsters never pop the
queue, the spawn phase only adds monsters, each entity steps at most
once, and the hero's own step is protected by the guard. -/
theorem hero_actions_guard :
    (∀ (selfId : EntityId) (g : GState) (h0 : Ent),
      storeGet g.ents selfId = some h0 →
      h0.energy ≥ 100 → h0.actions = [] →
      heroStep selfId g = .error .heroActionsIndexError) ∧
    (∀ (oracle : StepOracle) (fuel : Nat) (g : GState) (hid : EntityId),
      (g.ents.map Prod.fst).Nodup →
      (∀ kv ∈ g.ents, kv.1 < g.next_id) →
      entsOK hid g.ents →
      heroGuard g.ents →
      ∀ e, (world_step oracle fuel g).2 = .error e →
        e ≠ .heroActionsIndexError) := by
  constructor
  · intro selfId g h0 hg hen hact
    have h1 : getEnt g.ents selfId = .ok h0 := by simp [getEnt, hg]
    unfold heroStep
    rw [h1]
    simp only [bindOk]
    by_cases hexp : h0.experience ≥ 6
    · rw [if_pos hexp]
      rw [getEnt_updEnt_self (storeGet_updEnt_self hg heroLevelUp) heroRegen]
      simp only [bindOk]
      rw [if_pos (by rw [heroRegen_energy, heroLevelUp_energy]; exact hen)]
      rw [show (heroRegen (heroLevelUp h0)).actions = [] from by
        rw [heroRegen_actions, heroLevelUp_actions, hact]]
      rfl
    · rw [if_neg hexp]
      rw [getEnt_updEnt_self hg heroRegen]
      simp only [bindOk]
      rw [if_pos (by rw [heroRegen_energy]; exact hen)]
      rw [show (heroRegen h0).actions = [] from by
        rw [heroRegen_actions, hact]]
      rfl
  · intro oracle fuel g hid hnd hb hOK hguard e h
    unfold world_step at h
    split at h
    · rename_i e2 heqS
      have h2 : (Except.error e2 : Except PyErr GState) = .error e := h
      injection h2 with h3
      subst h3
      exact (spawnPhase_spec _ _ _ heqS).1 e2 rfl
    · rename_i g1 heqS
      obtain ⟨hnd1, hOKp, hgp⟩ := (spawnPhase_spec _ _ _ heqS).2 g1 rfl
      exact stepLoop_spec hid fuel 0 [] g1 (hnd1 hnd hb) (hOKp hid hOK)
        (.inr (hgp hguard)) e h

/-- A hero with full energy and an empty action queue. -/
def c10Hero : Ent := { mkHero "Hero" 10 1 30 2 with energy := 100 }

def c10State : GState :=
  { upper_levels := [], current_level := { tiles := [], entities := [] },
    lower_levels := [], hero := (0, 0), ents := [(0, c10Hero)], next_id := 1 }

theorem hero_actions_guard_witness :
    (heroStep 0 c10State = .error .heroActionsIndexError) ∧
    (∀ e, (world_step ⟨0, 0, false, 0⟩ 5 c6MState).2 = .error e →
      e ≠ .heroActionsIndexError) :=
  ⟨hero_actions_guard.1 0 c10State c10Hero rfl (by decide) rfl,
   hero_actions_guard.2 ⟨0, 0, false, 0⟩ 5 c6MState 1 (by decide) (by decide)
     (by decide) (by decide)⟩
